import Mathlib

/-!
# party-song-guess: the answer matcher and the room server

A shallow embedding of `src/app/server/index.js` (and of the slice of
`src/app/server/services/musicService.js` the server depends on): the pure
function `checkAnswer` with its normalisation `clean`, and the handlers and timer
callbacks of the room server as functions on an explicit server state.  The
definitions come first, then lemmas, then one theorem for each verified claim of
the specification.

## Strings

A JavaScript string is a sequence of UTF-16 code units; it is modelled as a
`List Nat` of code-unit values.  `String.prototype.length`, indexing, `===`,
`includes`, `split` and the regular expressions of `checkAnswer` (none of which
carries the `u` flag) all work on code units.

## Numbers

`common.length / aWords.length >= 0.6` and `1 - dist / maxLen >= 0.7` are
computed by the source in IEEE doubles.  They are modelled in exact rational
arithmetic.  For operands below `10^14` (JavaScript strings are far shorter) the
two agree: division and subtraction are correctly rounded and monotone, `3/5`
and `3/10` round to the literals `0.6` and `0.3`, `1 - 0.3` rounds to the literal
`0.7`, and a quotient that is not exactly on the threshold is at least `1/(10 n)`
away from it, much more than a rounding error.
-/

namespace PartySong

/-! ## Strings and character classes -/

/-- A JavaScript string: its UTF-16 code units. -/
abbrev JsString := List Nat

/-- UTF-16 encoding of one Unicode scalar value. -/
def utf16 (c : Char) : List Nat :=
  if c.toNat < 0x10000 then [c.toNat]
  else [0xD800 + (c.toNat - 0x10000) / 0x400, 0xDC00 + (c.toNat - 0x10000) % 0x400]

/-- UTF-16 encoding of a list of characters. -/
def utf16s : List Char → JsString
  | [] => []
  | c :: cs => utf16 c ++ utf16s cs

/-- The JavaScript string written as the literal `s`. -/
def js (s : String) : JsString := utf16s s.toList

/-- The class `\w` of a regular expression without the `i` and `u` flags:
`[A-Za-z0-9_]`. -/
def isWordChar (c : Nat) : Bool :=
  (48 ≤ c && c ≤ 57) || (65 ≤ c && c ≤ 90) || c == 95 || (97 ≤ c && c ≤ 122)

/-- ECMAScript LineTerminator: LF, CR, LS, PS.  The `.` of a regular expression
without the `s` flag matches every code unit but these. -/
def isLineTerminator (c : Nat) : Bool :=
  c == 0x0A || c == 0x0D || c == 0x2028 || c == 0x2029

/-- The class `\s` (WhiteSpace and LineTerminator), which is also the set that
`String.prototype.trim` strips. -/
def isWhiteSpace (c : Nat) : Bool :=
  c == 0x09 || c == 0x0A || c == 0x0B || c == 0x0C || c == 0x0D || c == 0x20 ||
  c == 0xA0 || c == 0x1680 || (0x2000 ≤ c && c ≤ 0x200A) || c == 0x2028 ||
  c == 0x2029 || c == 0x202F || c == 0x205F || c == 0x3000 || c == 0xFEFF

/-! ## `clean`: the normalisation inside `checkAnswer` -/

/-- Lower-casing of one code unit.  `A`-`Z` go to `a`-`z`; U+0130 goes to
`i` followed by U+0307 and U+212A (KELVIN SIGN) goes to `k`: these are the
only code units outside ASCII whose lower case contains an ASCII code unit.
Every other code unit outside ASCII is kept: `toLowerCase` may replace it by
another code unit outside ASCII that is no white space either, and the third
replacement of `clean` turns both into a blank, so `clean` cannot tell. -/
def lowerUnit (c : Nat) : List Nat :=
  if 65 ≤ c ∧ c ≤ 90 then [c + 32]
  else if c = 0x130 then [0x69, 0x307]
  else if c = 0x212A then [0x6B]
  else [c]

/-- The call `str.toLowerCase()`. -/
def toLowerCase : JsString → JsString
  | [] => []
  | c :: cs => lowerUnit c ++ toLowerCase cs

/-- After an opening parenthesis: the number of code units the lazy `.*?`
takes before the first `)`, when no line terminator comes before it. -/
def parenClose : JsString → Option Nat
  | [] => none
  | c :: cs =>
    if c = 41 then some 0
    else if isLineTerminator c then none
    else (parenClose cs).map (· + 1)

/-- The scan of `.replace(/\(.*?\)/g, '')`; the first argument is the number of
code units of the current match still to be dropped. -/
def stripParensAux : Nat → JsString → JsString
  | _, [] => []
  | n + 1, _ :: cs => stripParensAux n cs
  | 0, c :: cs =>
    if c = 40 then
      match parenClose cs with
      | some k => stripParensAux (k + 1) cs
      | none => c :: stripParensAux 0 cs
    else c :: stripParensAux 0 cs

/-- The first replacement of `clean`, `.replace(/\(.*?\)/g, '')`. -/
def stripParens (s : JsString) : JsString := stripParensAux 0 s

/-- Is the code unit next to a position (absent at either end of the string) a
word character. -/
def isWordAt : Option Nat → Bool
  | none => false
  | some c => isWordChar c

/-- The assertion `\b` between the code unit `prev` and the remaining input. -/
def wordBoundary (prev : Option Nat) (rest : JsString) : Bool :=
  isWordAt prev != isWordAt rest.head?

/-- The tail `.*$` of the pattern (no `m` flag): the rest of the input holds no
line terminator. -/
def dotStarEnd (rest : JsString) : Bool :=
  rest.all (fun c => !isLineTerminator c)

/-- Does `/\bfeat\.?\b.*$/` match at this position, `prev` being the code unit
before it.  The greedy `\.?` is tried with the dot first and then without. -/
def featMatchAt (prev : Option Nat) (s : JsString) : Bool :=
  wordBoundary prev s &&
  match s with
  | c1 :: c2 :: c3 :: c4 :: rest =>
    (c1 == 102 && c2 == 101 && c3 == 97 && c4 == 116) &&
    ((match rest with
      | d :: rest2 => d == 46 && wordBoundary (some 46) rest2 && dotStarEnd rest2
      | [] => false)
     || (wordBoundary (some 116) rest && dotStarEnd rest))
  | _ => false

/-- The scan of `.replace(/\bfeat\.?\b.*$/g, '')`: a match runs to the end of
the input, so the first one cuts the string. -/
def stripFeatAux (prev : Option Nat) : JsString → JsString
  | [] => []
  | c :: cs => if featMatchAt prev (c :: cs) then [] else c :: stripFeatAux (some c) cs

/-- The second replacement of `clean`, `.replace(/\bfeat\.?\b.*$/g, '')`. -/
def stripFeat (s : JsString) : JsString := stripFeatAux none s

/-- The third replacement of `clean`, `.replace(/[^\w\s]/g, ' ')`. -/
def punctToSpace (s : JsString) : JsString :=
  s.map (fun c => if isWordChar c || isWhiteSpace c then c else 32)

/-- The scan of `.replace(/\s+/g, ' ')`; the flag says that the previous code
unit belonged to a white-space run already replaced. -/
def collapseAux : Bool → JsString → JsString
  | _, [] => []
  | inRun, c :: cs =>
    if isWhiteSpace c then
      (if inRun then collapseAux true cs else 32 :: collapseAux true cs)
    else c :: collapseAux false cs

/-- The fourth replacement of `clean`, `.replace(/\s+/g, ' ')`. -/
def collapseSpaces (s : JsString) : JsString := collapseAux false s

/-- The call `.trim()`. -/
def trim (s : JsString) : JsString :=
  ((s.dropWhile isWhiteSpace).reverse.dropWhile isWhiteSpace).reverse

/-- The local function `clean` of `checkAnswer`. -/
def clean (str : JsString) : JsString :=
  trim (collapseSpaces (punctToSpace (stripFeat (stripParens (toLowerCase str)))))

/-! ## The matching rules -/

/-- The call `s.includes(t)`: `t` occurs in `s` as a contiguous run. -/
def includes : JsString → JsString → Bool
  | [], t => t.isEmpty
  | c :: cs, t => t.isPrefixOf (c :: cs) || includes cs t

/-- The call `s.split(sep)` for a one-unit separator. -/
def split (sep : Nat) : JsString → List JsString
  | [] => [[]]
  | c :: cs =>
    if c = sep then [] :: split sep cs
    else
      match split sep cs with
      | [] => [[c]]
      | w :: ws => (c :: w) :: ws

/-- The value of `Array.from(new Set(xs))`: the distinct elements, in order of first
occurrence. -/
def setFrom : List JsString → List JsString
  | [] => []
  | x :: xs => x :: (setFrom xs).filter (fun y => y != x)

/-- One pass of the inner loop `for (j = 1; j <= len2; j++)` for the row of the
code unit `ch` of `s1`: `diag :: aboves` is the previous row from column
`j - 1` on, `left` is `dp[i][j - 1]`; the result is `dp[i][j..len2]`. -/
def dpFill (ch : Nat) : JsString → Nat → List Nat → Nat → List Nat
  | [], _, _, _ => []
  | _ :: _, _, [], _ => []
  | c2 :: rest, diag, above :: aboves, left =>
    let cost := if ch = c2 then 0 else 1
    let v := min (above + 1) (min (left + 1) (diag + cost))
    v :: dpFill ch rest above aboves v

/-- Row `i` of the table from row `i - 1`: `dp[i][0] = i`, then the inner loop. -/
def dpNextRow (ch : Nat) (s2 : JsString) (i : Nat) (prev : List Nat) : List Nat :=
  match prev with
  | [] => [i]
  | diag :: aboves => i :: dpFill ch s2 diag aboves i

/-- The outer loop `for (i = 1; i <= len1; i++)`: from row `i` the rows of the
remaining code units of `s1`; the result is the last row `dp[len1]`. -/
def dpRows (s2 : JsString) : JsString → Nat → List Nat → List Nat
  | [], _, row => row
  | ch :: rest, i, row => dpRows s2 rest (i + 1) (dpNextRow ch s2 (i + 1) row)

/-- The entry `dp[len1][len2]` of the table built by `similarity`; row `0` is
`dp[0][j] = j`. -/
def editDistance (s1 s2 : JsString) : Nat :=
  ((dpRows s2 s1 0 (List.range (s2.length + 1))).getLast?).getD 0

/-- The local function `similarity` of `checkAnswer`, in exact arithmetic. -/
def similarity (s1 s2 : JsString) : ℚ :=
  if s1.length = 0 ∨ s2.length = 0 then 0
  else 1 - (editDistance s1 s2 : ℚ) / (max s1.length s2.length : ℚ)

/-- The test `similarity(s1, s2) >= 0.7` with the denominators cleared:
`1 - dist / maxLen >= 7/10` is `10 * dist <= 3 * maxLen` (`similarity_ge_iff`). -/
def similarityAccepts (s1 s2 : JsString) : Bool :=
  if s1.length = 0 ∨ s2.length = 0 then false
  else decide (10 * editDistance s1 s2 ≤ 3 * max s1.length s2.length)

/-- The test `aWords.length > 0 && common.length / aWords.length >= 0.6` with the
denominators cleared: `c / n >= 6/10` is `6 * n <= 10 * c` (`overlap_ge_iff`). -/
def overlapAccepts (common aWords : Nat) : Bool :=
  decide (0 < aWords ∧ 6 * aWords ≤ 10 * common)

/-- The function `checkAnswer(guess, actual)`.  An argument is `none` when it is
`null` or `undefined`; `!guess` also holds for the empty string. -/
def checkAnswer (guess actual : Option JsString) : Bool :=
  match guess, actual with
  | some guess, some actual =>
    if guess = [] ∨ actual = [] then false
    else
      let g := clean guess
      let a := clean actual
      if g = [] ∨ a = [] then false
      else if g = a then true
      else if includes g a || includes a g then true
      else
        let aWords := setFrom (split 32 a)
        let gWords := split 32 g
        let common := aWords.filter (fun w => gWords.contains w)
        if overlapAccepts common.length aWords.length then true
        else similarityAccepts g a
  | _, _ => false

/-! ## The room server: data

Objects that the source mutates in place or compares by identity are modelled
with explicit identities.  A room object lives at an address of `Server.heap`:
the table `rooms` maps a room code to an address, and the closures that the
source schedules capture the room object, that is, the address.  A track carries
its identity in `Track.ref`, which is what `room.currentSong === song` compares.

Time is abstracted: a scheduled callback may run at any later moment, in any
order with the other callbacks and with the incoming events; each runs to
completion and at most once.  A handler that throws is modelled by the result
`none` (nothing catches the exception). -/

/-- A connection identifier (`socket.id`). -/
abbrev SocketId := String

/-- A room code (a key of `rooms`). -/
abbrev RoomId := String

/-- The values of `room.state`. -/
inductive RoomState where
  | LOBBY
  | PLAYING
  | ENDED
deriving DecidableEq, Repr

/-- An element of `room.players`. -/
structure Player where
  id : SocketId
  name : String
  score : Nat
deriving DecidableEq, Repr

/-- A record of the provider: what `getRandomSongs` puts in one element. -/
structure TrackData where
  title : Option JsString
  artist : String
  previewUrl : String
  artwork : String
deriving DecidableEq, Repr

/-- A track object of a stored song list; `ref` is the identity of the object. -/
structure Track where
  ref : Nat
  title : Option JsString
  artist : String
  previewUrl : String
  artwork : String
deriving DecidableEq, Repr

/-- A room object.  `songs` is `none` while the property is undefined;
`roundActive` is false while the property is undefined.  The field `scores` of
the source is never read nor written after creation and is left out. -/
structure Room where
  id : RoomId
  players : List Player
  state : RoomState
  currentRound : Nat
  totalRounds : Nat
  currentSong : Option Track
  songs : Option (List Track)
  roundActive : Bool
deriving DecidableEq, Repr

/-- The payload of an outbound event, by event name. -/
inductive Payload where
  | room_created (room : Room)
  | player_joined (players : List Player)
  | room_joined (room : Room)
  | error (code : String)
  | game_started (totalRounds : Nat)
  | start_countdown (duration : Nat)
  | new_round (roundNumber : Nat) (previewUrl : String)
  | wrong_guess
  | update_scores (players : List Player)
  | round_winner (player : String) (song : Track)
  | round_timeout (song : Track)
  | game_over (players : List Player)
deriving DecidableEq, Repr

/-- The addressee of an outbound event: `socket.emit` or `io.to(roomId).emit`. -/
inductive Target where
  | socket (id : SocketId)
  | room (id : RoomId)
deriving DecidableEq, Repr

/-- An outbound event. -/
structure Emit where
  target : Target
  payload : Payload
deriving DecidableEq, Repr

/-- A callback handed to `setTimeout`, with what its closure captures. -/
inductive Callback where
  /-- The callback `() => startRound(roomId)` (after `game_started`, 500 ms; after a
  timeout, 5000 ms). -/
  | startRound (roomId : RoomId)
  /-- The reveal scheduled by `startRound` (3000 ms); captures the room object. -/
  | reveal (room : Nat) (roomId : RoomId)
  /-- The guess window scheduled by the reveal (30000 ms); captures the room
  object and the revealed track. -/
  | guessWindow (room : Nat) (roomId : RoomId) (song : Track)
  /-- The continuation scheduled by a correct guess (1000 ms); captures the room object. -/
  | afterWin (room : Nat) (roomId : RoomId)
deriving DecidableEq, Repr

/-- A track request in flight: the suspended `start_game` handler, which
captures the room object; `limit` is the number of tracks it asked for. -/
structure Request where
  room : Nat
  roomId : RoomId
  limit : Nat
deriving DecidableEq, Repr

/-- The state of the server process. -/
structure Server where
  /-- The room objects ever created, by address. -/
  heap : List Room
  /-- The table `rooms`: room code and address, the first binding of a code
  being the current one. -/
  rooms : List (RoomId × Nat)
  /-- The transport's membership relation, extended by `socket.join`. -/
  members : List (SocketId × RoomId)
  /-- The callbacks scheduled and not yet run. -/
  timers : List Callback
  /-- The track requests in flight. -/
  requests : List Request
  /-- The identity of the next track object. -/
  nextRef : Nat
deriving DecidableEq, Repr

/-- The value of the field `rounds` of a `start_game` message: a string, an
integer Number, or a value without numeric reading.  Numbers with a fraction and
objects are not covered. -/
inductive RoundsInput where
  /-- Values whose string form starts with no number: `undefined`, `null`, a boolean, `NaN`. -/
  | absent
  /-- A Number that is an integer below `10^21` in magnitude. -/
  | num (n : Int)
  /-- A string. -/
  | str (s : JsString)
deriving DecidableEq, Repr

/-- An incoming message, a callback that becomes due, or the answer to a track
request (`none`: the request failed or carried no result list; otherwise the
result list in the order left by the shuffle). -/
inductive Event where
  | create_room (socket : SocketId) (roomId : RoomId) (playerName : String)
  | join_room (socket : SocketId) (roomId : RoomId) (playerName : String)
  | start_game (roomId : RoomId) (rounds : RoundsInput)
  | submit_guess (socket : SocketId) (roomId : RoomId) (guess : Option JsString)
  | timer (cb : Callback)
  | reply (req : Request) (response : Option (List TrackData))
deriving DecidableEq, Repr

/-! ## The room server: handlers -/

/-- The server at start-up: `rooms = {}`. -/
def Server.init : Server :=
  { heap := [], rooms := [], members := [], timers := [], requests := [], nextRef := 0 }

/-- The expression `rooms[roomId]`: the address and the room object.  Room codes
are the keys that `create_room` writes; a key that `rooms` inherits from
`Object.prototype` (such as `constructor`) is not a room code. -/
def Server.lookup (s : Server) (roomId : RoomId) : Option (Nat × Room) :=
  match s.rooms.lookup roomId with
  | none => none
  | some a =>
    match s.heap[a]? with
    | none => none
    | some r => some (a, r)

/-- Writing the fields of the room object at address `a`. -/
def Server.setRoom (s : Server) (a : Nat) (r : Room) : Server :=
  { s with heap := s.heap.set a r }

/-- The handler of `create_room`.  `roomId` is the code drawn with
`Math.random`; the field `totalRounds` of the message is not used. -/
def create_room (s : Server) (socket : SocketId) (roomId : RoomId) (playerName : String) :
    Server × List Emit :=
  let room : Room :=
    { id := roomId, players := [{ id := socket, name := playerName, score := 0 }],
      state := .LOBBY, currentRound := 0, totalRounds := 10, currentSong := none,
      songs := none, roundActive := false }
  ({ s with heap := s.heap ++ [room], rooms := (roomId, s.heap.length) :: s.rooms,
            members := (socket, roomId) :: s.members },
   [⟨.socket socket, .room_created room⟩])

/-- The handler of `join_room`. -/
def join_room (s : Server) (socket : SocketId) (roomId : RoomId) (playerName : String) :
    Server × List Emit :=
  match s.lookup roomId with
  | some (a, r) =>
    if r.state = .LOBBY then
      let r' : Room := { r with players := r.players ++ [{ id := socket, name := playerName, score := 0 }] }
      ({ s with heap := s.heap.set a r', members := (socket, roomId) :: s.members },
       [⟨.room roomId, .player_joined r'.players⟩, ⟨.socket socket, .room_joined r'⟩])
    else (s, [⟨.socket socket, .error "ROOM_NOT_FOUND_OR_STARTED"⟩])
  | none => (s, [⟨.socket socket, .error "ROOM_NOT_FOUND_OR_STARTED"⟩])

/-- Is the code unit a decimal digit. -/
def isDigit (c : Nat) : Bool := 48 ≤ c && c ≤ 57

/-- The value of a run of decimal digits. -/
def digitsValue (ds : List Nat) : Nat :=
  ds.foldl (fun acc d => 10 * acc + (d - 48)) 0

/-- The value of `parseInt(s, 10)` for a string; `none` is `NaN`.  Leading white space is
skipped, a sign is read, and the longest run of digits is the value. -/
def parseIntString (s : JsString) : Option Int :=
  match s.dropWhile isWhiteSpace with
  | 45 :: rest =>
    let ds := rest.takeWhile isDigit
    if ds = [] then none else some (-(digitsValue ds : Int))
  | 43 :: rest =>
    let ds := rest.takeWhile isDigit
    if ds = [] then none else some (digitsValue ds : Int)
  | rest =>
    let ds := rest.takeWhile isDigit
    if ds = [] then none else some (digitsValue ds : Int)

/-- The value of `parseInt(rounds, 10)`; `none` is `NaN`.  The string form of an integer
Number below `10^21` is its decimal notation, which `parseInt` reads back. -/
def parseInt : RoundsInput → Option Int
  | .absent => none
  | .num n => some n
  | .str s => parseIntString s

/-- The round count that `start_game` stores: the parsed value, replaced by
`room.totalRounds || 10` when it is `NaN` or not positive, and capped at `50`. -/
def normalizeRounds (rounds : RoundsInput) (previous : Nat) : Nat :=
  let totalRounds : Nat :=
    match parseInt rounds with
    | none => if previous = 0 then 10 else previous
    | some n => if n ≤ 0 then (if previous = 0 then 10 else previous) else n.toNat
  if totalRounds > 50 then 50 else totalRounds

/-- The handler of `start_game` up to its `await`: the room is put in `PLAYING`
and the track request is sent.  The search term, the language and the
difficulty only reach the provider and are left out. -/
def start_game (s : Server) (roomId : RoomId) (rounds : RoundsInput) : Server × List Emit :=
  match s.lookup roomId with
  | some (a, r) =>
    if r.players.length > 0 then
      let totalRounds := normalizeRounds rounds r.totalRounds
      let r' : Room := { r with totalRounds := totalRounds, state := .PLAYING, currentRound := 0 }
      ({ s with heap := s.heap.set a r',
                requests := s.requests ++ [{ room := a, roomId := roomId, limit := totalRounds }] },
       [])
    else (s, [])
  | none => (s, [])

/-- The track objects created by the `map` of `getRandomSongs`, with fresh
identities from `ref` on. -/
def mkTracks : Nat → List TrackData → List Track
  | _, [] => []
  | ref, d :: ds =>
    { ref := ref, title := d.title, artist := d.artist, previewUrl := d.previewUrl,
      artwork := d.artwork } :: mkTracks (ref + 1) ds

/-- The function `getRandomSongs(genre, limit)` of `musicService.js` on the
answer of the provider: `[]` when the request fails or has no results, otherwise
the first `limit` results of the shuffled list. -/
def getRandomSongs (response : Option (List TrackData)) (limit : Nat) : List TrackData :=
  match response with
  | none => []
  | some results => if results.length = 0 then [] else results.take limit

/-- The handler of `start_game` after its `await`: the tracks are stored,
`game_started` is sent and the first round is scheduled. -/
def songsFetched (s : Server) (req : Request) (response : Option (List TrackData)) :
    Option (Server × List Emit) :=
  match s.heap[req.room]? with
  | none => none
  | some r =>
    let songs := mkTracks s.nextRef (getRandomSongs response req.limit)
    let r' : Room := { r with songs := some songs }
    some ({ s with heap := s.heap.set req.room r', nextRef := s.nextRef + songs.length,
                   timers := s.timers ++ [.startRound req.roomId] },
          [⟨.room req.roomId, .game_started r'.totalRounds⟩])

/-- The function `endGame(roomId)`. -/
def endGame (s : Server) (roomId : RoomId) : Server × List Emit :=
  match s.lookup roomId with
  | some (a, r) =>
    let r' : Room := { r with state := .ENDED }
    ({ s with heap := s.heap.set a r' }, [⟨.room roomId, .game_over r'.players⟩])
  | none => (s, [])

/-- The function `startRound(roomId)`, up to the scheduling of the reveal. -/
def startRound (s : Server) (roomId : RoomId) : Option (Server × List Emit) :=
  match s.lookup roomId with
  | none => none
  | some (a, r) =>
    if r.currentRound ≥ r.totalRounds then some (endGame s roomId)
    else
      some ({ s with timers := s.timers ++ [.reveal a roomId] },
            [⟨.room roomId, .start_countdown 3⟩])

/-- The reveal callback of `startRound`.  Reading `songs[currentRound]` of an
undefined list, or `previewUrl` of an undefined track, throws. -/
def reveal (s : Server) (a : Nat) (roomId : RoomId) : Option (Server × List Emit) :=
  match s.heap[a]? with
  | none => none
  | some r =>
    match r.songs with
    | none => none
    | some songs =>
      match songs[r.currentRound]? with
      | none => none
      | some song =>
        let r' : Room :=
          { r with currentSong := some song, roundActive := true,
                   currentRound := r.currentRound + 1 }
        some ({ s with heap := s.heap.set a r',
                       timers := s.timers ++ [.guessWindow a roomId song] },
              [⟨.room roomId, .new_round r'.currentRound song.previewUrl⟩])

/-- The comparison `room.currentSong === song` for a track object `song`. -/
def sameTrack (currentSong : Option Track) (song : Track) : Bool :=
  match currentSong with
  | none => false
  | some t => t.ref == song.ref

/-- The guess-window callback of a reveal. -/
def guessWindow (s : Server) (a : Nat) (roomId : RoomId) (song : Track) :
    Option (Server × List Emit) :=
  match s.heap[a]? with
  | none => none
  | some r =>
    if r.roundActive && sameTrack r.currentSong song then
      let r' : Room := { r with roundActive := false }
      some ({ s with heap := s.heap.set a r', timers := s.timers ++ [.startRound roomId] },
            [⟨.room roomId, .round_timeout song⟩])
    else some (s, [])

/-- The continuation scheduled by a correct guess. -/
def afterWin (s : Server) (a : Nat) (roomId : RoomId) : Option (Server × List Emit) :=
  match s.heap[a]? with
  | none => none
  | some r =>
    if r.currentRound < r.totalRounds then startRound s roomId
    else some (endGame s roomId)

/-- The effect of `player.score += 1` on the player that `find` returns: the
first one with the identifier. -/
def awardPoint (socket : SocketId) : List Player → List Player
  | [] => []
  | p :: ps =>
    if p.id = socket then { p with score := p.score + 1 } :: ps
    else p :: awardPoint socket ps

/-- The handler of `submit_guess`.  Reading `title` of a `currentSong` that is
`null` throws. -/
def submit_guess (s : Server) (socket : SocketId) (roomId : RoomId) (guess : Option JsString) :
    Option (Server × List Emit) :=
  match s.lookup roomId with
  | none => some (s, [])
  | some (a, r) =>
    if !r.roundActive || r.state ≠ .PLAYING then some (s, [])
    else
      match r.currentSong with
      | none => none
      | some song =>
        if checkAnswer guess song.title then
          match r.players.find? (fun p => p.id == socket) with
          | some player =>
            let r' : Room := { r with roundActive := false, players := awardPoint socket r.players }
            some ({ s with heap := s.heap.set a r', timers := s.timers ++ [.afterWin a roomId] },
                  [⟨.room roomId, .update_scores r'.players⟩,
                   ⟨.room roomId, .round_winner player.name song⟩])
          | none =>
            some ({ s with heap := s.heap.set a { r with roundActive := false } }, [])
        else some (s, [⟨.socket socket, .wrong_guess⟩])

/-- Running a callback. -/
def runCallback (s : Server) : Callback → Option (Server × List Emit)
  | .startRound roomId => startRound s roomId
  | .reveal a roomId => reveal s a roomId
  | .guessWindow a roomId song => guessWindow s a roomId song
  | .afterWin a roomId => afterWin s a roomId

/-- One turn of the event loop.  A callback runs only if it is scheduled, and is
then no longer scheduled; an answer is delivered only to a request in flight. -/
def step (s : Server) : Event → Option (Server × List Emit)
  | .create_room socket roomId playerName => some (create_room s socket roomId playerName)
  | .join_room socket roomId playerName => some (join_room s socket roomId playerName)
  | .start_game roomId rounds => some (start_game s roomId rounds)
  | .submit_guess socket roomId guess => submit_guess s socket roomId guess
  | .timer cb =>
    if cb ∈ s.timers then runCallback { s with timers := s.timers.erase cb } cb
    else some (s, [])
  | .reply req response =>
    if req ∈ s.requests then
      songsFetched { s with requests := s.requests.erase req } req response
    else some (s, [])

/-- A sequence of turns, with the events sent along the way. -/
def run (s : Server) : List Event → Option (Server × List Emit)
  | [] => some (s, [])
  | e :: es =>
    match step s e with
    | none => none
    | some (s1, out1) =>
      match run s1 es with
      | none => none
      | some (s2, out2) => some (s2, out1 ++ out2)

/-- The servers that the process can be in: those reached from start-up. -/
inductive Reachable : Server → Prop where
  | init : Reachable Server.init
  | step {s s' : Server} {e : Event} {out : List Emit} :
      Reachable s → step s e = some (s', out) → Reachable s'

/-- What one turn of the event loop can do to the room object at address `a`. -/
inductive RoomChange (a : Nat) (r : Room) : Event → Room → Prop where
  | same (e : Event) : RoomChange a r e r
  | joined (socket : SocketId) (roomId : RoomId) (playerName : String) :
      r.state = .LOBBY →
      RoomChange a r (.join_room socket roomId playerName)
        { r with players := r.players ++ [{ id := socket, name := playerName, score := 0 }] }
  | started (roomId : RoomId) (rounds : RoundsInput) :
      r.players.length > 0 →
      RoomChange a r (.start_game roomId rounds)
        { r with totalRounds := normalizeRounds rounds r.totalRounds, state := .PLAYING,
                 currentRound := 0 }
  | fetched (req : Request) (response : Option (List TrackData)) (songs : List Track) :
      req.room = a →
      RoomChange a r (.reply req response) { r with songs := some songs }
  | won (socket : SocketId) (roomId : RoomId) (guess : Option JsString) (song : Track) :
      r.roundActive = true → r.state = .PLAYING → r.currentSong = some song →
      checkAnswer guess song.title = true →
      RoomChange a r (.submit_guess socket roomId guess)
        { r with roundActive := false, players := awardPoint socket r.players }
  | ended (cb : Callback) :
      (∀ b roomId, cb ≠ .reveal b roomId) → (∀ b roomId song, cb ≠ .guessWindow b roomId song) →
      RoomChange a r (.timer cb) { r with state := .ENDED }
  | revealed (roomId : RoomId) (songs : List Track) (song : Track) :
      r.songs = some songs → songs[r.currentRound]? = some song →
      RoomChange a r (.timer (.reveal a roomId))
        { r with currentSong := some song, roundActive := true,
                 currentRound := r.currentRound + 1 }
  | timedOut (roomId : RoomId) (song : Track) :
      r.roundActive = true → sameTrack r.currentSong song = true →
      RoomChange a r (.timer (.guessWindow a roomId song)) { r with roundActive := false }

/-- The round of the room at `a` is resolved: inactive, with the players `P`, and
the room has left `LOBBY`. -/
def Resolved (a : Nat) (P : List Player) (s : Server) : Prop :=
  ∃ r, s.heap[a]? = some r ∧ r.roundActive = false ∧ r.players = P ∧ r.state ≠ .LOBBY

/-- The round of `song` is open in the room at `a`: it is active, `song` is the
current track, and the guess-window callback `cb` is scheduled. -/
def RoundOpen (a : Nat) (song : Track) (cb : Callback) (s : Server) : Prop :=
  (∃ r, s.heap[a]? = some r ∧ r.roundActive = true ∧ r.currentSong = some song)
    ∧ cb ∈ s.timers

/-- A turn that neither resolves nor supersedes the round of `song` in the room
at `a`: no reveal of the room, no guess-window callback of the room for the same
track object, no guess that `checkAnswer` accepts against the title of `song`. -/
def QuietFor (a : Nat) (song : Track) (e : Event) : Prop :=
  (∀ rid, e ≠ .timer (.reveal a rid))
    ∧ (∀ rid sg, e = .timer (.guessWindow a rid sg) → sg.ref ≠ song.ref)
    ∧ (∀ socket rid g, e = .submit_guess socket rid g → checkAnswer g song.title = false)

/-! ## Specification-level notions -/

/-- The Levenshtein distance by its standard recursive definition: the distance
to or from the empty string is the length of the other one; otherwise the least
of deleting the first unit, inserting the first unit, and substituting (at cost
`0` when the first units agree). -/
def lev : List Nat → List Nat → Nat
  | [], ys => ys.length
  | x :: xs, [] => (x :: xs).length
  | x :: xs, y :: ys =>
    min (lev xs (y :: ys) + 1) (min (lev (x :: xs) ys + 1) (lev xs ys + if x = y then 0 else 1))
termination_by xs ys => xs.length + ys.length

/-- The prefix distances `lev p (t ++ u)` for the non-empty prefixes `u` of `rest`. -/
def levRow (p t : List Nat) : List Nat → List Nat
  | [] => []
  | c :: rest => lev p (t ++ [c]) :: levRow p (t ++ [c]) rest

/-- The word-overlap rule in the words of the specification: the number of
distinct words of `a` that also occur among the words of `g` is at least `0.6`
times the number of distinct words of `a`. -/
def overlapRule (g a : JsString) : Prop :=
  (6 / 10 : ℚ) * (((split 32 a).toFinset.card : ℕ) : ℚ) ≤
    ((((split 32 a).toFinset.filter (fun w => w ∈ split 32 g)).card : ℕ) : ℚ)

/-- The edit-distance rule in the words of the specification:
`1 - lev(g, a) / max(|g|, |a|) >= 0.7`. -/
def editDistanceRule (g a : JsString) : Prop :=
  (7 / 10 : ℚ) ≤ 1 - (lev g a : ℚ) / (max g.length a.length : ℚ)

/-! ## Sample data for the concrete instances -/

/-- Two provider records. -/
def demoTrackData : List TrackData :=
  [{ title := some (js "Hey Jude"), artist := "The Beatles", previewUrl := "preview/1",
     artwork := "art/1" },
   { title := some (js "Imagine"), artist := "John Lennon", previewUrl := "preview/2",
     artwork := "art/2" }]

/-- The first track object made from `demoTrackData`. -/
def demoSong : Track :=
  { ref := 0, title := some (js "Hey Jude"), artist := "The Beatles", previewUrl := "preview/1",
    artwork := "art/1" }

/-- The second track object made from `demoTrackData`. -/
def demoSong2 : Track :=
  { ref := 1, title := some (js "Imagine"), artist := "John Lennon", previewUrl := "preview/2",
    artwork := "art/2" }

/-- Alice creates a room, Bob joins, a game of two rounds starts and the first
track is revealed. -/
def demoTrace : List Event :=
  [.create_room "s1" "ROOM1" "Alice", .join_room "s2" "ROOM1" "Bob",
   .start_game "ROOM1" (.num 2), .reply ⟨0, "ROOM1", 2⟩ (some demoTrackData),
   .timer (.startRound "ROOM1"), .timer (.reveal 0 "ROOM1")]

/-- The server reached by a run from start-up (start-up itself if the run throws). -/
def serverAfter (es : List Event) : Server :=
  match run Server.init es with
  | some (s, _) => s
  | none => Server.init

/-- The room created by Alice, before anyone joins. -/
def demoLobby : Server := serverAfter [.create_room "s1" "ROOM1" "Alice"]

/-- The room object of `demoLobby`. -/
def demoLobbyRoom : Room :=
  { id := "ROOM1", players := [⟨"s1", "Alice", 0⟩], state := .LOBBY, currentRound := 0,
    totalRounds := 10, currentSong := none, songs := none, roundActive := false }

/-- The server after `demoTrace`: round 1 of 2 is active. -/
def demoPlaying : Server := serverAfter demoTrace

/-- The room object of `demoPlaying`. -/
def demoRoom : Room :=
  { id := "ROOM1", players := [⟨"s1", "Alice", 0⟩, ⟨"s2", "Bob", 0⟩], state := .PLAYING,
    currentRound := 1, totalRounds := 2, currentSong := some demoSong,
    songs := some [demoSong, demoSong2], roundActive := true }

/-- A game of one round that ends by timeout. -/
def endedTrace : List Event :=
  [.create_room "s1" "ROOM1" "Alice", .start_game "ROOM1" (.num 1),
   .reply ⟨0, "ROOM1", 1⟩ (some demoTrackData), .timer (.startRound "ROOM1"),
   .timer (.reveal 0 "ROOM1"), .timer (.guessWindow 0 "ROOM1" demoSong),
   .timer (.startRound "ROOM1")]

/-- The server after `endedTrace`. -/
def demoEnded : Server := serverAfter endedTrace

/-- The room object of `demoEnded`. -/
def demoEndedRoom : Room :=
  { id := "ROOM1", players := [⟨"s1", "Alice", 0⟩], state := .ENDED, currentRound := 1,
    totalRounds := 1, currentSong := some demoSong, songs := some [demoSong],
    roundActive := false }

/-- The state of the room that a code designates. -/
def stateOf (s : Server) (roomId : RoomId) : Option RoomState :=
  (s.lookup roomId).map (fun ar => ar.2.state)

/-- Two `start_game` messages in a row (a double click), both answered, then the
two first rounds start and both reveals run. -/
def raceTrace : List Event :=
  [.create_room "s1" "ROOM1" "Alice", .start_game "ROOM1" (.num 2),
   .reply ⟨0, "ROOM1", 2⟩ (some demoTrackData), .start_game "ROOM1" (.num 2),
   .reply ⟨0, "ROOM1", 2⟩ (some demoTrackData), .timer (.startRound "ROOM1"),
   .timer (.startRound "ROOM1"), .timer (.reveal 0 "ROOM1"), .timer (.reveal 0 "ROOM1")]

/-- The track revealed by the first reveal of `raceTrace`. -/
def raceSong : Track :=
  { ref := 2, title := some (js "Hey Jude"), artist := "The Beatles", previewUrl := "preview/1",
    artwork := "art/1" }

/-- A game of one round is started while the answer to an earlier `start_game`
(for two rounds) is still awaited; that answer arrives later, so that two round
chains run and the list of songs is longer than the game.  Alice wins round 1
and the game ends while the reveal of the second chain is still scheduled. -/
def lateRevealTrace : List Event :=
  [.create_room "s1" "ROOM1" "Alice", .start_game "ROOM1" (.num 2),
   .start_game "ROOM1" (.num 1), .reply ⟨0, "ROOM1", 1⟩ (some demoTrackData),
   .timer (.startRound "ROOM1"), .reply ⟨0, "ROOM1", 2⟩ (some demoTrackData),
   .timer (.startRound "ROOM1"), .timer (.reveal 0 "ROOM1"),
   .submit_guess "s1" "ROOM1" (some (js "hey jude")), .timer (.afterWin 0 "ROOM1")]

/-- Is the event the message `submit_guess`. -/
def Event.isGuess : Event → Bool
  | .submit_guess _ _ _ => true
  | _ => false

/-- The round count of the room after `start_game` on a room just created. -/
def freshTotalRounds (s : Server) (socket : SocketId) (roomId : RoomId) (playerName : String)
    (rounds : RoundsInput) : Option Nat :=
  ((start_game (create_room s socket roomId playerName).1 roomId rounds).1.lookup roomId).map
    (fun ar => ar.2.totalRounds)

/-! ## Further specification-level notions and sample runs -/

/-- An alignment of `xs` with `ys` that uses `n` single-unit edits: each unit of
`xs` is kept, substituted or deleted, and units of `ys` are inserted. -/
inductive EditScript : List Nat → List Nat → Nat → Prop where
  | done : EditScript [] [] 0
  | keep (x : Nat) {xs ys : List Nat} {n : Nat} :
      EditScript xs ys n → EditScript (x :: xs) (x :: ys) n
  | substitute (x y : Nat) {xs ys : List Nat} {n : Nat} :
      EditScript xs ys n → EditScript (x :: xs) (y :: ys) (n + 1)
  | delete (x : Nat) {xs ys : List Nat} {n : Nat} :
      EditScript xs ys n → EditScript (x :: xs) ys (n + 1)
  | insert (y : Nat) {xs ys : List Nat} {n : Nat} :
      EditScript xs ys n → EditScript xs (y :: ys) (n + 1)

/-- The word-overlap rule as the comment in the source words it: at least half
of the distinct words of `a` occur among the words of `g`. -/
def halfOverlapRule (g a : JsString) : Prop :=
  (1 / 2 : ℚ) * (((split 32 a).toFinset.card : ℕ) : ℚ) ≤
    ((((split 32 a).toFinset.filter (fun w => w ∈ split 32 g)).card : ℕ) : ℚ)

/-- The `catch` block of the `start_game` handler, for an awaited call that
rejects: the exception is logged and nothing else happens.  `getRandomSongs`
catches every error itself and never rejects, so no turn of `step` runs it. -/
def songsRejected (s : Server) (req : Request) : Server × List Emit :=
  ({ s with requests := s.requests.erase req }, [])

/-- A game of one round whose track request fails. -/
def failedRequestTrace : List Event :=
  [.create_room "s1" "ROOM1" "Alice", .start_game "ROOM1" (.num 1),
   .reply ⟨0, "ROOM1", 1⟩ none, .timer (.startRound "ROOM1")]

/-- A game of two rounds for which the provider has one track only; Alice wins
round 1 and the next round is started. -/
def shortListTrace : List Event :=
  [.create_room "s1" "ROOM1" "Alice", .start_game "ROOM1" (.num 2),
   .reply ⟨0, "ROOM1", 2⟩ (some (demoTrackData.take 1)), .timer (.startRound "ROOM1"),
   .timer (.reveal 0 "ROOM1"), .submit_guess "s1" "ROOM1" (some (js "hey jude")),
   .timer (.afterWin 0 "ROOM1")]

/-- The messages `start_game` for two rounds and then for one round are sent one
after the other; the provider answers the second request first.  Both round
chains then start and both reveals run. -/
def overrunTrace : List Event :=
  [.create_room "s1" "ROOM1" "Alice", .start_game "ROOM1" (.num 2),
   .start_game "ROOM1" (.num 1), .reply ⟨0, "ROOM1", 1⟩ (some demoTrackData),
   .reply ⟨0, "ROOM1", 2⟩ (some demoTrackData), .timer (.startRound "ROOM1"),
   .timer (.startRound "ROOM1"), .timer (.reveal 0 "ROOM1"), .timer (.reveal 0 "ROOM1")]

/-- The room object that a code designates. -/
def roomOf (s : Server) (roomId : RoomId) : Option Room :=
  (s.lookup roomId).map (fun ar => ar.2)

/-- The room object that `create_room` makes. -/
def freshRoom (socket : SocketId) (roomId : RoomId) (playerName : String) : Room :=
  { id := roomId, players := [{ id := socket, name := playerName, score := 0 }],
    state := .LOBBY, currentRound := 0, totalRounds := 10, currentSong := none,
    songs := none, roundActive := false }

/-- The turns of the event loop, branch by branch: `Turn s e s' out` holds when
the event `e` can take the server from `s` to `s'` and send `out`.  Every turn
of `step` is one of these (`step_turn`). -/
inductive Turn (s : Server) : Event → Server → List Emit → Prop where
  /-- Nothing happens: a `start_game` or `submit_guess` that returns at once, a
  callback that is not scheduled, an answer to no request. -/
  | idle (e : Event) : Turn s e s []
  | created (socket : SocketId) (roomId : RoomId) (playerName : String) :
      Turn s (.create_room socket roomId playerName)
        { s with heap := s.heap ++ [freshRoom socket roomId playerName],
                 rooms := (roomId, s.heap.length) :: s.rooms,
                 members := (socket, roomId) :: s.members }
        [⟨.socket socket, .room_created (freshRoom socket roomId playerName)⟩]
  | joined (socket : SocketId) (roomId : RoomId) (playerName : String) (a : Nat) (r : Room) :
      s.lookup roomId = some (a, r) → r.state = .LOBBY →
      Turn s (.join_room socket roomId playerName)
        { s with heap := s.heap.set a ({ r with players :=
                   r.players ++ [{ id := socket, name := playerName, score := 0 }] }),
                 members := (socket, roomId) :: s.members }
        [⟨.room roomId, .player_joined
            (r.players ++ [{ id := socket, name := playerName, score := 0 }])⟩,
         ⟨.socket socket, .room_joined ({ r with players :=
            r.players ++ [{ id := socket, name := playerName, score := 0 }] })⟩]
  | refused (socket : SocketId) (roomId : RoomId) (playerName : String) :
      (∀ a r, s.lookup roomId = some (a, r) → r.state ≠ .LOBBY) →
      Turn s (.join_room socket roomId playerName) s
        [⟨.socket socket, .error "ROOM_NOT_FOUND_OR_STARTED"⟩]
  | started (roomId : RoomId) (rounds : RoundsInput) (a : Nat) (r : Room) :
      s.lookup roomId = some (a, r) → r.players.length > 0 →
      Turn s (.start_game roomId rounds)
        { s with heap := s.heap.set a ({ r with
                   totalRounds := normalizeRounds rounds r.totalRounds,
                   state := .PLAYING, currentRound := 0 }),
                 requests := s.requests ++
                   [{ room := a, roomId := roomId,
                      limit := normalizeRounds rounds r.totalRounds }] }
        []
  | fetched (req : Request) (response : Option (List TrackData)) (r : Room) :
      req ∈ s.requests → s.heap[req.room]? = some r →
      Turn s (.reply req response)
        { s with heap := s.heap.set req.room
                   ({ r with songs := some (mkTracks s.nextRef (getRandomSongs response req.limit)) }),
                 nextRef := s.nextRef +
                   (mkTracks s.nextRef (getRandomSongs response req.limit)).length,
                 timers := s.timers ++ [.startRound req.roomId],
                 requests := s.requests.erase req }
        [⟨.room req.roomId, .game_started r.totalRounds⟩]
  | wrong (socket : SocketId) (roomId : RoomId) (guess : Option JsString) (a : Nat) (r : Room)
      (song : Track) :
      s.lookup roomId = some (a, r) → r.roundActive = true → r.state = .PLAYING →
      r.currentSong = some song → checkAnswer guess song.title = false →
      Turn s (.submit_guess socket roomId guess) s [⟨.socket socket, .wrong_guess⟩]
  | won (socket : SocketId) (roomId : RoomId) (guess : Option JsString) (a : Nat) (r : Room)
      (song : Track) (player : Player) :
      s.lookup roomId = some (a, r) → r.roundActive = true → r.state = .PLAYING →
      r.currentSong = some song → checkAnswer guess song.title = true →
      r.players.find? (fun p => p.id == socket) = some player →
      Turn s (.submit_guess socket roomId guess)
        { s with heap := s.heap.set a ({ r with roundActive := false,
                                                players := awardPoint socket r.players }),
                 timers := s.timers ++ [.afterWin a roomId] }
        [⟨.room roomId, .update_scores (awardPoint socket r.players)⟩,
         ⟨.room roomId, .round_winner player.name song⟩]
  | wonByStranger (socket : SocketId) (roomId : RoomId) (guess : Option JsString) (a : Nat)
      (r : Room) (song : Track) :
      s.lookup roomId = some (a, r) → r.roundActive = true → r.state = .PLAYING →
      r.currentSong = some song → checkAnswer guess song.title = true →
      r.players.find? (fun p => p.id == socket) = none →
      Turn s (.submit_guess socket roomId guess)
        { s with heap := s.heap.set a ({ r with roundActive := false }) } []
  /-- The callback `startRound`, or `startRound` called by the continuation
  `afterWin` of a room with rounds left, starts a round. -/
  | countdown (cb : Callback) (roomId : RoomId) (a : Nat) (r : Room) :
      cb ∈ s.timers →
      (cb = .startRound roomId ∨
        ∃ b rb, cb = .afterWin b roomId ∧ s.heap[b]? = some rb
          ∧ rb.currentRound < rb.totalRounds) →
      s.lookup roomId = some (a, r) → r.currentRound < r.totalRounds →
      Turn s (.timer cb)
        { s with timers := s.timers.erase cb ++ [.reveal a roomId] }
        [⟨.room roomId, .start_countdown 3⟩]
  /-- The callback `startRound`, or `startRound` called by `afterWin`, finds
  the rounds of the designated room exhausted. -/
  | exhausted (cb : Callback) (roomId : RoomId) (a : Nat) (r : Room) :
      cb ∈ s.timers →
      (cb = .startRound roomId ∨
        ∃ b rb, cb = .afterWin b roomId ∧ s.heap[b]? = some rb
          ∧ rb.currentRound < rb.totalRounds) →
      s.lookup roomId = some (a, r) → r.currentRound ≥ r.totalRounds →
      Turn s (.timer cb)
        { s with heap := s.heap.set a ({ r with state := .ENDED }),
                 timers := s.timers.erase cb }
        [⟨.room roomId, .game_over r.players⟩]
  /-- The continuation `afterWin` finds the rounds of its own room exhausted
  and ends the game of the designated room. -/
  | lastWin (b : Nat) (roomId : RoomId) (rb : Room) (a : Nat) (r : Room) :
      .afterWin b roomId ∈ s.timers → s.heap[b]? = some rb →
      rb.currentRound ≥ rb.totalRounds → s.lookup roomId = some (a, r) →
      Turn s (.timer (.afterWin b roomId))
        { s with heap := s.heap.set a ({ r with state := .ENDED }),
                 timers := s.timers.erase (.afterWin b roomId) }
        [⟨.room roomId, .game_over r.players⟩]
  | lastWinNoRoom (b : Nat) (roomId : RoomId) (rb : Room) :
      .afterWin b roomId ∈ s.timers → s.heap[b]? = some rb →
      rb.currentRound ≥ rb.totalRounds → s.lookup roomId = none →
      Turn s (.timer (.afterWin b roomId))
        { s with timers := s.timers.erase (.afterWin b roomId) } []
  | revealed (a : Nat) (roomId : RoomId) (r : Room) (songs : List Track) (song : Track) :
      .reveal a roomId ∈ s.timers → s.heap[a]? = some r → r.songs = some songs →
      songs[r.currentRound]? = some song →
      Turn s (.timer (.reveal a roomId))
        { s with heap := s.heap.set a ({ r with currentSong := some song, roundActive := true,
                                                currentRound := r.currentRound + 1 }),
                 timers := s.timers.erase (.reveal a roomId) ++ [.guessWindow a roomId song] }
        [⟨.room roomId, .new_round (r.currentRound + 1) song.previewUrl⟩]
  | timedOut (a : Nat) (roomId : RoomId) (song : Track) (r : Room) :
      .guessWindow a roomId song ∈ s.timers → s.heap[a]? = some r →
      r.roundActive = true → sameTrack r.currentSong song = true →
      Turn s (.timer (.guessWindow a roomId song))
        { s with heap := s.heap.set a ({ r with roundActive := false }),
                 timers := s.timers.erase (.guessWindow a roomId song) ++ [.startRound roomId] }
        [⟨.room roomId, .round_timeout song⟩]
  | stale (a : Nat) (roomId : RoomId) (song : Track) (r : Room) :
      .guessWindow a roomId song ∈ s.timers → s.heap[a]? = some r →
      ¬ (r.roundActive = true ∧ sameTrack r.currentSong song = true) →
      Turn s (.timer (.guessWindow a roomId song))
        { s with timers := s.timers.erase (.guessWindow a roomId song) } []

/-- The room code that the closure of a callback captures. -/
def Callback.roomId : Callback → RoomId
  | .startRound roomId => roomId
  | .reveal _ roomId => roomId
  | .guessWindow _ roomId _ => roomId
  | .afterWin _ roomId => roomId

/-- The room object that the closure of a callback captures, if any. -/
def Callback.room : Callback → Option Nat
  | .startRound _ => none
  | .reveal a _ => some a
  | .guessWindow a _ _ => some a
  | .afterWin a _ => some a

/-- Codes and room objects agree: a binding of the table leads to a room object
with that code as its `id`, and a closure that captures a room object and a code
captures a pair that the table has held (and still holds, bindings being
shadowed but never removed). -/
def WellFormed (s : Server) : Prop :=
  (∀ rid a, (rid, a) ∈ s.rooms → ∃ r, s.heap[a]? = some r ∧ r.id = rid)
  ∧ (∀ cb ∈ s.timers, ∀ a, cb.room = some a → (cb.roomId, a) ∈ s.rooms)
  ∧ (∀ req ∈ s.requests, (req.roomId, req.room) ∈ s.rooms)
/-- What a turn of the event loop does to the room object at address `a`, with
the events that the turn sends: the branches of `Turn` that write to the room. -/
inductive RoomTurn (s : Server) (a : Nat) (r : Room) : Event → List Emit → Room → Prop where
  /-- The turn does not write to the room. -/
  | same (e : Event) (out : List Emit) : RoomTurn s a r e out r
  | joined (socket : SocketId) (roomId : RoomId) (playerName : String) (out : List Emit) :
      s.lookup roomId = some (a, r) → r.state = .LOBBY →
      RoomTurn s a r (.join_room socket roomId playerName) out
        { r with players := r.players ++ [{ id := socket, name := playerName, score := 0 }] }
  | started (roomId : RoomId) (rounds : RoundsInput) (out : List Emit) :
      s.lookup roomId = some (a, r) → r.players.length > 0 →
      RoomTurn s a r (.start_game roomId rounds) out
        { r with totalRounds := normalizeRounds rounds r.totalRounds, state := .PLAYING,
                 currentRound := 0 }
  | fetched (req : Request) (response : Option (List TrackData)) (out : List Emit) :
      req ∈ s.requests → req.room = a →
      RoomTurn s a r (.reply req response) out
        { r with songs := some (mkTracks s.nextRef (getRandomSongs response req.limit)) }
  | won (socket : SocketId) (roomId : RoomId) (guess : Option JsString) (song : Track)
      (player : Player) (out : List Emit) :
      s.lookup roomId = some (a, r) → r.roundActive = true → r.state = .PLAYING →
      r.currentSong = some song → checkAnswer guess song.title = true →
      r.players.find? (fun p => p.id == socket) = some player →
      RoomTurn s a r (.submit_guess socket roomId guess) out
        { r with roundActive := false, players := awardPoint socket r.players }
  | wonByStranger (socket : SocketId) (roomId : RoomId) (guess : Option JsString) (song : Track)
      (out : List Emit) :
      s.lookup roomId = some (a, r) → r.roundActive = true → r.state = .PLAYING →
      r.currentSong = some song → checkAnswer guess song.title = true →
      r.players.find? (fun p => p.id == socket) = none →
      RoomTurn s a r (.submit_guess socket roomId guess) out { r with roundActive := false }
  /-- The room is the one that the code designates when `endGame` runs: called
  by `startRound` because the rounds of this room are exhausted, or by the
  continuation `afterWin` because those of the room it captures are. -/
  | ended (cb : Callback) (roomId : RoomId) :
      cb ∈ s.timers → s.lookup roomId = some (a, r) →
      ((cb = .startRound roomId ∧ r.currentRound ≥ r.totalRounds)
        ∨ ∃ b rb, cb = .afterWin b roomId ∧ s.heap[b]? = some rb
            ∧ (rb.currentRound ≥ rb.totalRounds ∨ r.currentRound ≥ r.totalRounds)) →
      RoomTurn s a r (.timer cb) [⟨.room roomId, .game_over r.players⟩] { r with state := .ENDED }
  | revealed (roomId : RoomId) (songs : List Track) (song : Track) (out : List Emit) :
      .reveal a roomId ∈ s.timers → r.songs = some songs → songs[r.currentRound]? = some song →
      RoomTurn s a r (.timer (.reveal a roomId)) out
        { r with currentSong := some song, roundActive := true,
                 currentRound := r.currentRound + 1 }
  | timedOut (roomId : RoomId) (song : Track) (out : List Emit) :
      .guessWindow a roomId song ∈ s.timers → r.roundActive = true →
      sameTrack r.currentSong song = true →
      RoomTurn s a r (.timer (.guessWindow a roomId song)) out { r with roundActive := false }

/-- Something is going on under the room code `rid`: a track request is in
flight, the designated room has an active round, or a callback is scheduled
other than the guess window of a room without active round. -/
def Live (s : Server) (rid : RoomId) : Prop :=
  (∃ req ∈ s.requests, req.roomId = rid)
    ∨ (∃ a r, s.lookup rid = some (a, r) ∧ r.roundActive = true)
    ∨ (∃ cb ∈ s.timers, cb.roomId = rid
        ∧ ∀ a sg, cb = .guessWindow a rid sg → ∃ r, s.heap[a]? = some r ∧ r.roundActive = true)
/-- Alice wins a game of one round; before the continuation of her guess runs,
Carol creates a room that draws the same code and starts a game of three rounds. -/
def reusedCodeTrace : List Event :=
  [.create_room "s1" "ROOM1" "Alice", .start_game "ROOM1" (.num 1),
   .reply ⟨0, "ROOM1", 1⟩ (some demoTrackData), .timer (.startRound "ROOM1"),
   .timer (.reveal 0 "ROOM1"), .submit_guess "s1" "ROOM1" (some (js "hey jude")),
   .create_room "s9" "ROOM1" "Carol", .start_game "ROOM1" (.num 3)]
/-- The track without what only the resolution of a round may tell: the title,
the artist and the artwork.  The identity and the preview locator stay. -/
def Track.redact (t : Track) : Track :=
  { t with title := none, artist := "", artwork := "" }

/-- The room object with every track redacted. -/
def Room.redact (r : Room) : Room :=
  { r with currentSong := r.currentSong.map Track.redact,
           songs := r.songs.map (List.map Track.redact) }

/-- The callback with the track in its closure redacted. -/
def Callback.redact : Callback → Callback
  | .startRound roomId => .startRound roomId
  | .reveal a roomId => .reveal a roomId
  | .guessWindow a roomId song => .guessWindow a roomId song.redact
  | .afterWin a roomId => .afterWin a roomId

/-- The server with every track redacted: two servers with the same redaction
differ only in the title, the artist and the artwork of their tracks. -/
def Server.redact (s : Server) : Server :=
  { s with heap := s.heap.map Room.redact, timers := s.timers.map Callback.redact }

/-- The result of a turn with the new server redacted; the events are kept as
they are. -/
def redactResult (x : Option (Server × List Emit)) : Option (Server × List Emit) :=
  x.map (fun p => (p.1.redact, p.2))

/-- The track records inside the payload of an outbound event. -/
def Payload.tracks : Payload → List Track
  | .room_created room => room.currentSong.toList ++ room.songs.getD []
  | .room_joined room => room.currentSong.toList ++ room.songs.getD []
  | .round_winner _ song => [song]
  | .round_timeout song => [song]
  | _ => []

/-- No room in `LOBBY` holds a track, and every track request in flight is for a
room that has left `LOBBY`. -/
def NoTracksInLobby (s : Server) : Prop :=
  (∀ (a : Nat) (r : Room), s.heap[a]? = some r → r.state = .LOBBY →
      r.songs = none ∧ r.currentSong = none)
  ∧ (∀ req ∈ s.requests, ∃ r, s.heap[req.room]? = some r ∧ r.state ≠ .LOBBY)

/-- The provider records of `demoTrackData` under other titles, artists and artworks. -/
def otherTrackData : List TrackData :=
  [{ title := some (js "Yesterday"), artist := "Somebody", previewUrl := "preview/1",
     artwork := "art/3" },
   { title := some (js "Let It Be"), artist := "Somebody else", previewUrl := "preview/2",
     artwork := "art/4" }]

/-- The run `demoTrace` up to the reveal of round 1, with the provider records `data`. -/
def beforeReveal (data : List TrackData) : Server :=
  serverAfter [.create_room "s1" "ROOM1" "Alice", .join_room "s2" "ROOM1" "Bob",
    .start_game "ROOM1" (.num 2), .reply ⟨0, "ROOM1", 2⟩ (some data),
    .timer (.startRound "ROOM1")]

/-! ## Lemmas on the edit distance -/

theorem lev_nil_left (ys : List Nat) : lev [] ys = ys.length := by
  rw [lev]

theorem lev_nil_right (xs : List Nat) : lev xs [] = xs.length := by
  cases xs <;> simp [lev]

theorem lev_cons_cons (x y : Nat) (xs ys : List Nat) :
    lev (x :: xs) (y :: ys) =
      min (lev xs (y :: ys) + 1)
        (min (lev (x :: xs) ys + 1) (lev xs ys + if x = y then 0 else 1)) := by
  rw [lev]

/-- The recurrence on the last units, which is the one the table follows. -/
theorem lev_snoc_snoc (xs ys : List Nat) (x y : Nat) :
    lev (xs ++ [x]) (ys ++ [y]) =
      min (lev xs (ys ++ [y]) + 1)
        (min (lev (xs ++ [x]) ys + 1) (lev xs ys + if x = y then 0 else 1)) := by
  induction xs generalizing ys with
  | nil =>
    induction ys with
    | nil => simp [lev_cons_cons, lev_nil_left, lev_nil_right]
    | cons b ys ih =>
      have h1 := lev_cons_cons x b [] (ys ++ [y])
      have h2 := lev_cons_cons x b [] ys
      simp only [List.nil_append, List.cons_append, lev_nil_left, List.length_cons,
        List.length_append, List.length_nil] at ih h1 h2 ⊢
      rw [h1, h2, ih]
      omega
  | cons a xs ihx =>
    induction ys with
    | nil =>
      have h1 := lev_cons_cons a y (xs ++ [x]) []
      have h2 := lev_cons_cons a y xs []
      have h3 := ihx [] 
      simp only [List.nil_append, List.cons_append, lev_nil_right, List.length_cons,
        List.length_append, List.length_nil] at h1 h2 h3 ⊢
      rw [h1, h2, h3]
      omega
    | cons b ys ihy =>
      have h1 := lev_cons_cons a b (xs ++ [x]) (ys ++ [y])
      have h2 := lev_cons_cons a b xs (ys ++ [y])
      have h3 := lev_cons_cons a b (xs ++ [x]) ys
      have h4 := lev_cons_cons a b xs ys
      have i1 := ihx (b :: ys)
      have i3 := ihx ys
      simp only [List.cons_append] at h1 h2 h3 h4 i1 i3 ihy ⊢
      rw [h1, h2, h3, h4, i1, ihy, i3]
      simp only [← min_add_add_right]
      ac_rfl

theorem levRow_nil (t rest : List Nat) :
    levRow [] t rest = List.range' (t.length + 1) rest.length := by
  induction rest generalizing t with
  | nil => rfl
  | cons c rest ih =>
    simp [levRow, lev_nil_left, ih, List.range']

theorem dpFill_levRow (p : List Nat) (x : Nat) (rest t : List Nat) :
    dpFill x rest (lev p t) (levRow p t rest) (lev (p ++ [x]) t) =
      levRow (p ++ [x]) t rest := by
  induction rest generalizing t with
  | nil => rfl
  | cons c rest ih =>
    simp only [levRow, dpFill]
    rw [← lev_snoc_snoc p t x c, ih (t ++ [c])]

theorem dpRows_levRow (s2 rest p : List Nat) :
    dpRows s2 rest p.length (lev p [] :: levRow p [] s2) =
      lev (p ++ rest) [] :: levRow (p ++ rest) [] s2 := by
  induction rest generalizing p with
  | nil => simp [dpRows]
  | cons x rest ih =>
    have hlen : p.length + 1 = (p ++ [x]).length := by simp
    have hrow : dpNextRow x s2 (p.length + 1) (lev p [] :: levRow p [] s2) =
        lev (p ++ [x]) [] :: levRow (p ++ [x]) [] s2 := by
      have h := dpFill_levRow p x s2 []
      simp only [dpNextRow]
      rw [lev_nil_right (p ++ [x])] at h ⊢
      rw [← hlen] at h ⊢
      rw [h]
    simp only [dpRows]
    rw [hrow, hlen, ih (p ++ [x])]
    simp

theorem getLast_levRow (p t rest : List Nat) :
    (lev p t :: levRow p t rest).getLast? = some (lev p (t ++ rest)) := by
  induction rest generalizing t with
  | nil => simp [levRow]
  | cons c rest ih =>
    have h := ih (t ++ [c])
    simp only [levRow, List.append_assoc, List.singleton_append] at h ⊢
    rw [List.getLast?_cons_cons]
    exact h

/-- The table of `similarity` computes the Levenshtein distance. -/
theorem editDistance_eq_lev (s1 s2 : List Nat) : editDistance s1 s2 = lev s1 s2 := by
  have h0 : List.range (s2.length + 1) = lev [] [] :: levRow [] [] s2 := by
    rw [levRow_nil, lev_nil_left, List.range_eq_range']
    rfl
  have h := dpRows_levRow s2 s1 []
  simp only [List.length_nil, List.nil_append] at h
  unfold editDistance
  rw [h0, h, getLast_levRow]
  simp

/-! ## Lemmas on the other matching rules -/

theorem includes_iff (s t : JsString) : includes s t = true ↔ t <:+: s := by
  induction s with
  | nil => simp [includes, List.isEmpty_iff]
  | cons c cs ih =>
    simp only [includes, Bool.or_eq_true, ih, List.infix_cons_iff, List.isPrefixOf_iff_prefix]

theorem split_ne_nil (sep : Nat) (s : JsString) : split sep s ≠ [] := by
  cases s with
  | nil => simp [split]
  | cons c cs =>
    simp only [split]
    split_ifs
    · simp
    · split <;> simp

theorem mem_setFrom (xs : List JsString) (x : JsString) : x ∈ setFrom xs ↔ x ∈ xs := by
  induction xs with
  | nil => simp [setFrom]
  | cons y ys ih =>
    simp only [setFrom, List.mem_cons, List.mem_filter, ih, bne_iff_ne, ne_eq]
    constructor
    · rintro (h | ⟨h, _⟩)
      · exact Or.inl h
      · exact Or.inr h
    · intro h
      by_cases hxy : x = y
      · exact Or.inl hxy
      · rcases h with h | h
        · exact Or.inl h
        · exact Or.inr ⟨h, hxy⟩

theorem nodup_setFrom (xs : List JsString) : (setFrom xs).Nodup := by
  induction xs with
  | nil => simp [setFrom]
  | cons y ys ih =>
    simp only [setFrom, List.nodup_cons, List.mem_filter, bne_iff_ne, ne_eq, not_true_eq_false,
      and_false, not_false_eq_true, true_and]
    exact ih.filter _

theorem length_setFrom (xs : List JsString) : (setFrom xs).length = xs.toFinset.card := by
  rw [← List.toFinset_card_of_nodup (nodup_setFrom xs)]
  congr 1
  ext x
  simp [mem_setFrom]

theorem length_common (xs ys : List JsString) :
    ((setFrom xs).filter (fun w => ys.contains w)).length =
      (xs.toFinset.filter (fun w => w ∈ ys)).card := by
  rw [← List.toFinset_card_of_nodup ((nodup_setFrom xs).filter _)]
  congr 1
  ext x
  simp [mem_setFrom]

/-- The cleared test of the word-overlap rule is the rational one. -/
theorem overlap_ge_iff (c n : Nat) :
    overlapAccepts c n = true ↔ 0 < n ∧ (6 / 10 : ℚ) ≤ (c : ℚ) / (n : ℚ) := by
  unfold overlapAccepts
  rw [decide_eq_true_iff]
  constructor
  · rintro ⟨hn, h⟩
    refine ⟨hn, ?_⟩
    have hn' : (0 : ℚ) < n := by exact_mod_cast hn
    rw [le_div_iff₀ hn']
    have h' : (6 : ℚ) * n ≤ 10 * c := by exact_mod_cast h
    linarith
  · rintro ⟨hn, h⟩
    refine ⟨hn, ?_⟩
    have hn' : (0 : ℚ) < n := by exact_mod_cast hn
    rw [le_div_iff₀ hn'] at h
    have h' : (6 : ℚ) * n ≤ 10 * c := by linarith
    exact_mod_cast h'

/-- The cleared test of the edit-distance rule is the rational one. -/
theorem similarity_ge_iff (s1 s2 : JsString) :
    similarityAccepts s1 s2 = true ↔ (7 / 10 : ℚ) ≤ similarity s1 s2 := by
  unfold similarityAccepts similarity
  by_cases h0 : s1.length = 0 ∨ s2.length = 0
  · rw [if_pos h0, if_pos h0]
    norm_num
  · rw [if_neg h0, if_neg h0, decide_eq_true_iff]
    have hm : 0 < max s1.length s2.length := by
      have : 0 < s1.length := by omega
      exact lt_of_lt_of_le this (le_max_left _ _)
    have hm' : (0 : ℚ) < ((max s1.length s2.length : ℕ) : ℚ) := by exact_mod_cast hm
    have hcast : ((max s1.length s2.length : ℕ) : ℚ) = max (s1.length : ℚ) (s2.length : ℚ) := by
      push_cast
      rfl
    rw [← hcast]
    constructor
    · intro h
      have h' : (10 : ℚ) * editDistance s1 s2 ≤ 3 * ((max s1.length s2.length : ℕ) : ℚ) := by
        exact_mod_cast h
      have : (editDistance s1 s2 : ℚ) / ((max s1.length s2.length : ℕ) : ℚ) ≤ 3 / 10 := by
        rw [div_le_iff₀ hm']
        linarith
      linarith
    · intro h
      have : (editDistance s1 s2 : ℚ) / ((max s1.length s2.length : ℕ) : ℚ) ≤ 3 / 10 := by
        linarith
      rw [div_le_iff₀ hm'] at this
      have h' : (10 : ℚ) * editDistance s1 s2 ≤ 3 * ((max s1.length s2.length : ℕ) : ℚ) := by
        linarith
      exact_mod_cast h'

theorem clean_nil : clean [] = [] := by decide

theorem setFrom_split_pos (sep : Nat) (s : JsString) : 0 < (setFrom (split sep s)).length := by
  cases h : split sep s with
  | nil => exact absurd h (split_ne_nil sep s)
  | cons w ws => simp [setFrom]

/-- The body of `checkAnswer` once both normalised strings are non-empty. -/
theorem checkAnswer_of_clean_ne_nil (guess title : JsString)
    (hg : clean guess ≠ []) (ha : clean title ≠ []) :
    checkAnswer (some guess) (some title) =
      (decide (clean guess = clean title)
        || (includes (clean guess) (clean title) || includes (clean title) (clean guess))
        || overlapAccepts
            ((setFrom (split 32 (clean title))).filter
              (fun w => (split 32 (clean guess)).contains w)).length
            (setFrom (split 32 (clean title))).length
        || similarityAccepts (clean guess) (clean title)) := by
  have hg0 : guess ≠ [] := fun h => hg (by rw [h, clean_nil])
  have ha0 : title ≠ [] := fun h => ha (by rw [h, clean_nil])
  simp only [checkAnswer, hg0, ha0, hg, ha, or_self, if_false]
  by_cases h1 : clean guess = clean title
  · simp [h1]
  · by_cases h2 : (includes (clean guess) (clean title) || includes (clean title) (clean guess)) = true
    · simp [h1, h2]
    · by_cases h3 : overlapAccepts
            ((setFrom (split 32 (clean title))).filter
              (fun w => (split 32 (clean guess)).contains w)).length
            (setFrom (split 32 (clean title))).length = true
      · simp [h1, h2, h3]
      · simp only [Bool.not_eq_true] at h2 h3
        simp [h1, h2, h3]

theorem overlapRule_iff (g a : JsString) :
    overlapRule g a ↔
      overlapAccepts
        ((setFrom (split 32 a)).filter (fun w => (split 32 g).contains w)).length
        (setFrom (split 32 a)).length = true := by
  have hpos := setFrom_split_pos 32 a
  rw [overlap_ge_iff, length_common, length_setFrom] at *
  unfold overlapRule
  have hn : (0 : ℚ) < (((split 32 a).toFinset.card : ℕ) : ℚ) := by exact_mod_cast hpos
  rw [le_div_iff₀ hn]
  exact ⟨fun h => ⟨hpos, h⟩, fun h => h.2⟩

theorem editDistanceRule_iff (g a : JsString) (hg : g ≠ []) (ha : a ≠ []) :
    editDistanceRule g a ↔ similarityAccepts g a = true := by
  have h0 : ¬ (g.length = 0 ∨ a.length = 0) := by
    simp [List.length_eq_zero, hg, ha]
  rw [similarity_ge_iff]
  unfold editDistanceRule similarity
  rw [if_neg h0, editDistance_eq_lev]

theorem or_swap_middle (A B C D : Prop) : (A ∨ C ∨ B ∨ D) ↔ (A ∨ B ∨ C ∨ D) := by
  tauto

theorem checkAnswer_rules_of_clean (guess title : JsString)
    (hg : clean guess ≠ []) (ha : clean title ≠ []) :
    checkAnswer (some guess) (some title) = true ↔
      (clean guess = clean title
        ∨ (clean guess <:+: clean title ∨ clean title <:+: clean guess)
        ∨ overlapRule (clean guess) (clean title)
        ∨ editDistanceRule (clean guess) (clean title)) := by
  rw [checkAnswer_of_clean_ne_nil guess title hg ha, overlapRule_iff,
    editDistanceRule_iff _ _ hg ha]
  simp only [Bool.or_eq_true, decide_eq_true_iff, includes_iff, or_assoc]
  exact or_swap_middle _ _ _ _

theorem heyJude_accepted :
    checkAnswer (some (js "hey jude")) (some (js "hey juude")) = true := by decide

theorem heyJude_not_equal : clean (js "hey jude") ≠ clean (js "hey juude") := by decide

theorem heyJude_not_within : ¬ (clean (js "hey jude") <:+: clean (js "hey juude")) := by
  rw [← includes_iff]; decide

theorem heyJude_not_containing : ¬ (clean (js "hey juude") <:+: clean (js "hey jude")) := by
  rw [← includes_iff]; decide

theorem heyJude_no_overlap : ¬ overlapRule (clean (js "hey jude")) (clean (js "hey juude")) := by
  rw [overlapRule_iff]; decide

theorem heyJude_edit : editDistanceRule (clean (js "hey jude")) (clean (js "hey juude")) := by
  rw [editDistanceRule_iff _ _ (by decide) (by decide)]; decide

theorem yesterday_rejected :
    checkAnswer (some (js "yesterday")) (some (js "Tomorrow")) = false := by decide

/-- C1: when both normalised strings are non-empty, `checkAnswer` accepts exactly
when the normalised guess equals the normalised title, or one contains the other,
or at least `0.6` of the title's distinct words occur among the guess's words, or
the Levenshtein similarity is at least `0.7`.  `hey jude` against `hey juude` is
accepted by the edit-distance rule alone, and `yesterday` against `Tomorrow` is
rejected. -/
theorem checkAnswer_iff_rules :
    (∀ guess title : JsString, clean guess ≠ [] → clean title ≠ [] →
      (checkAnswer (some guess) (some title) = true ↔
        (clean guess = clean title
          ∨ (clean guess <:+: clean title ∨ clean title <:+: clean guess)
          ∨ overlapRule (clean guess) (clean title)
          ∨ editDistanceRule (clean guess) (clean title))))
    ∧ (checkAnswer (some (js "hey jude")) (some (js "hey juude")) = true
        ∧ clean (js "hey jude") ≠ clean (js "hey juude")
        ∧ ¬ (clean (js "hey jude") <:+: clean (js "hey juude"))
        ∧ ¬ (clean (js "hey juude") <:+: clean (js "hey jude"))
        ∧ ¬ overlapRule (clean (js "hey jude")) (clean (js "hey juude"))
        ∧ editDistanceRule (clean (js "hey jude")) (clean (js "hey juude")))
    ∧ checkAnswer (some (js "yesterday")) (some (js "Tomorrow")) = false :=
  ⟨checkAnswer_rules_of_clean,
    ⟨heyJude_accepted, heyJude_not_equal, heyJude_not_within, heyJude_not_containing,
      heyJude_no_overlap, heyJude_edit⟩,
    yesterday_rejected⟩

/-- C1 at a concrete pair: `hey jude` against `Hey Jude (Remastered)`. -/
theorem checkAnswer_iff_rules_witness :
    clean (js "hey jude") ≠ [] ∧ clean (js "Hey Jude (Remastered)") ≠ [] ∧
    (checkAnswer (some (js "hey jude")) (some (js "Hey Jude (Remastered)")) = true ↔
      (clean (js "hey jude") = clean (js "Hey Jude (Remastered)")
        ∨ (clean (js "hey jude") <:+: clean (js "Hey Jude (Remastered)")
            ∨ clean (js "Hey Jude (Remastered)") <:+: clean (js "hey jude"))
        ∨ overlapRule (clean (js "hey jude")) (clean (js "Hey Jude (Remastered)"))
        ∨ editDistanceRule (clean (js "hey jude")) (clean (js "Hey Jude (Remastered)")))) :=
  ⟨by decide, by decide, checkAnswer_iff_rules.1 _ _ (by decide) (by decide)⟩

/-! ## Lemmas on `clean` -/

theorem toLowerCase_append (s t : JsString) :
    toLowerCase (s ++ t) = toLowerCase s ++ toLowerCase t := by
  induction s with
  | nil => rfl
  | cons c cs ih => simp [toLowerCase, ih]

theorem mem_lowerUnit_of_fixed (c d : Nat) (hd : d < 65) (h : d ∈ lowerUnit c) : c = d := by
  unfold lowerUnit at h
  split_ifs at h <;> simp at h <;> omega

theorem not_mem_toLowerCase (s : JsString) (d : Nat) (hd : d < 65) (h : d ∉ s) :
    d ∉ toLowerCase s := by
  induction s with
  | nil => simp [toLowerCase]
  | cons c cs ih =>
    simp only [List.mem_cons, not_or] at h
    simp only [toLowerCase, List.mem_append, not_or]
    exact ⟨fun hm => h.1 (mem_lowerUnit_of_fixed c d hd hm).symm, ih h.2⟩

theorem lineTerminator_of_mem_lowerUnit (c d : Nat) (h : d ∈ lowerUnit c)
    (hd : isLineTerminator d = true) : isLineTerminator c = true := by
  unfold lowerUnit at h
  split_ifs at h with h1 h2 h3
  · simp at h; subst h
    simp [isLineTerminator] at hd; omega
  · simp at h; rcases h with h | h <;> subst h <;> simp [isLineTerminator] at hd
  · simp at h; subst h; simp [isLineTerminator] at hd
  · simp at h; subst h; exact hd

theorem dotStarEnd_toLowerCase (s : JsString) (h : dotStarEnd s = true) :
    dotStarEnd (toLowerCase s) = true := by
  induction s with
  | nil => rfl
  | cons c cs ih =>
    simp only [dotStarEnd, List.all_cons, Bool.and_eq_true, Bool.not_eq_true',
      toLowerCase, List.all_append] at h ⊢
    refine ⟨?_, ih h.2⟩
    rw [List.all_eq_true]
    intro d hd
    by_contra hlt
    simp only [Bool.not_eq_true', Bool.not_eq_false] at hlt
    have := lineTerminator_of_mem_lowerUnit c d hd hlt
    rw [h.1] at this
    exact Bool.false_ne_true this

theorem stripParensAux_skip (p r : JsString) (k : Nat) :
    stripParensAux (p.length + k) (p ++ r) = stripParensAux k r := by
  induction p with
  | nil => simp
  | cons c cs ih =>
    have : (c :: cs).length + k = (cs.length + k) + 1 := by simp; omega
    rw [this]
    simp only [List.cons_append, stripParensAux]
    exact ih

theorem stripParensAux_no_open (t r : JsString) (h : 40 ∉ t) :
    stripParensAux 0 (t ++ r) = t ++ stripParensAux 0 r := by
  induction t with
  | nil => rfl
  | cons c cs ih =>
    simp only [List.mem_cons, not_or] at h
    have hc : ¬ c = 40 := fun e => h.1 e.symm
    rw [List.cons_append]
    simp only [stripParensAux, hc, if_false]
    rw [ih h.2, List.cons_append]

theorem parenClose_append (p r : JsString) (h1 : 41 ∉ p) (h2 : dotStarEnd p = true) :
    parenClose (p ++ 41 :: r) = some p.length := by
  induction p with
  | nil => simp [parenClose]
  | cons c cs ih =>
    simp only [List.mem_cons, not_or] at h1
    simp only [dotStarEnd, List.all_cons, Bool.and_eq_true, Bool.not_eq_true'] at h2
    have hc : ¬ c = 41 := fun e => h1.1 e.symm
    have hrec := ih h1.2 (by simpa [dotStarEnd] using h2.2)
    simp [parenClose, hc, h2.1, hrec]

/-- The first replacement removes a parenthesised group that closes a string
without other opening parentheses. -/
theorem stripParens_annotated (t p : JsString) (ht : 40 ∉ t) (hp : 41 ∉ p)
    (hl : dotStarEnd p = true) :
    stripParens (t ++ 32 :: 40 :: (p ++ [41])) = stripParens t ++ [32] := by
  have h1 : stripParens t = t := by
    have := stripParensAux_no_open t [] ht
    simpa [stripParens, stripParensAux] using this
  rw [h1]
  unfold stripParens
  rw [stripParensAux_no_open t _ ht]
  have h2 : stripParensAux 0 (32 :: 40 :: (p ++ [41])) = [32] := by
    have hskip := stripParensAux_skip (p ++ [41]) [] 0
    simp only [List.length_append, List.length_singleton, List.append_nil, Nat.add_zero] at hskip
    simp [stripParensAux, parenClose_append p [] hp hl, hskip]
  rw [h2]

theorem wordBoundary_append_space (prev : Option Nat) (s : JsString) :
    wordBoundary prev (s ++ [32]) = wordBoundary prev s := by
  cases s <;> simp [wordBoundary, isWordAt, isWordChar]

theorem dotStarEnd_append_space (s : JsString) :
    dotStarEnd (s ++ [32]) = dotStarEnd s := by
  simp [dotStarEnd, isLineTerminator]

theorem featMatchAt_append_space (prev : Option Nat) (c : Nat) (cs : JsString) :
    featMatchAt prev (c :: cs ++ [32]) = featMatchAt prev (c :: cs) := by
  have hb := wordBoundary_append_space prev (c :: cs)
  rcases cs with _ | ⟨c2, _ | ⟨c3, _ | ⟨c4, rest⟩⟩⟩
  · simp [featMatchAt, wordBoundary]
  · simp [featMatchAt, wordBoundary]
  · simp only [featMatchAt, List.cons_append, List.nil_append] at hb ⊢
    rw [hb]
    simp
  · simp only [featMatchAt, List.cons_append] at hb ⊢
    rw [hb, wordBoundary_append_space, dotStarEnd_append_space]
    cases rest with
    | nil => simp [wordBoundary, isWordAt, isWordChar]
    | cons d rest2 =>
      simp only [List.cons_append]
      rw [wordBoundary_append_space, dotStarEnd_append_space]

theorem featMatchAt_space (prev : Option Nat) : featMatchAt prev [32] = false := by
  simp [featMatchAt]

theorem stripFeatAux_append_space (prev : Option Nat) (s : JsString) :
    stripFeatAux prev (s ++ [32]) = stripFeatAux prev s ∨
      stripFeatAux prev (s ++ [32]) = stripFeatAux prev s ++ [32] := by
  induction s generalizing prev with
  | nil => right; simp [stripFeatAux, featMatchAt_space]
  | cons c cs ih =>
    have h := featMatchAt_append_space prev c cs
    simp only [List.cons_append] at h ⊢
    simp only [stripFeatAux, h]
    by_cases hm : featMatchAt prev (c :: cs) = true
    · left; simp [hm]
    · simp only [hm, if_false, Bool.false_eq_true]
      rcases ih (some c) with h' | h'
      · left; rw [h']
      · right; rw [h']; rfl

theorem punctToSpace_append (s t : JsString) :
    punctToSpace (s ++ t) = punctToSpace s ++ punctToSpace t := by
  simp [punctToSpace]

theorem collapseAux_append_space (b : Bool) (s : JsString) :
    collapseAux b (s ++ [32]) = collapseAux b s ∨
      collapseAux b (s ++ [32]) = collapseAux b s ++ [32] := by
  induction s generalizing b with
  | nil => cases b <;> simp [collapseAux, isWhiteSpace]
  | cons c cs ih =>
    simp only [List.cons_append, collapseAux]
    by_cases hw : isWhiteSpace c = true
    · simp only [hw, if_true]
      cases b
      · rcases ih true with h | h
        · left; simp [h]
        · right; simp [h]
      · simpa using ih true
    · simp only [hw, if_false, Bool.false_eq_true]
      rcases ih false with h | h
      · left; exact congrArg (fun l => c :: l) h
      · right; exact congrArg (fun l => c :: l) h

theorem trim_eq (s : JsString) :
    trim s = (s.dropWhile isWhiteSpace).rdropWhile isWhiteSpace := rfl

theorem trim_append_space (s : JsString) : trim (s ++ [32]) = trim s := by
  rw [trim_eq, trim_eq, List.dropWhile_append]
  by_cases h : (List.dropWhile isWhiteSpace s).isEmpty = true
  · rw [if_pos h]
    rw [List.isEmpty_iff] at h
    rw [h]
    decide
  · rw [if_neg h]
    exact List.rdropWhile_concat_pos _ _ _ (by decide)

theorem normalize_tail_append_space (x : JsString) :
    trim (collapseSpaces (punctToSpace (x ++ [32]))) = trim (collapseSpaces (punctToSpace x)) := by
  rw [punctToSpace_append]
  have h32 : punctToSpace [32] = [32] := by decide
  rw [h32]
  unfold collapseSpaces
  rcases collapseAux_append_space false (punctToSpace x) with h | h
  · rw [h]
  · rw [h, trim_append_space]

/-- The normalisation of a title followed by a parenthesised annotation. -/
theorem clean_annotated (t p : JsString) (ht : 40 ∉ t) (hp : 41 ∉ p)
    (hl : dotStarEnd p = true) :
    clean (t ++ js " (" ++ p ++ js ")") = clean t := by
  have hjs1 : js " (" = [32, 40] := by decide
  have hjs2 : js ")" = [41] := by decide
  rw [hjs1, hjs2]
  unfold clean
  have hlow : toLowerCase (t ++ [32, 40] ++ p ++ [41]) =
      toLowerCase t ++ 32 :: 40 :: (toLowerCase p ++ [41]) := by
    simp only [toLowerCase_append]
    have h1 : toLowerCase [32, 40] = [32, 40] := by decide
    have h2 : toLowerCase [41] = [41] := by decide
    rw [h1, h2]
    simp
  rw [hlow, stripParens_annotated _ _ (not_mem_toLowerCase t 40 (by decide) ht)
    (not_mem_toLowerCase p 41 (by decide) hp) (dotStarEnd_toLowerCase p hl)]
  unfold stripFeat
  rcases stripFeatAux_append_space none (stripParens (toLowerCase t)) with h | h
  · rw [h]
  · rw [h, normalize_tail_append_space]

theorem checkAnswer_congr_clean (g : Option JsString) (a b : JsString)
    (h : clean a = clean b) : checkAnswer g (some a) = checkAnswer g (some b) := by
  cases g with
  | none => rfl
  | some guess =>
    by_cases ha : a = []
    · have hb : clean b = [] := by rw [← h, ha, clean_nil]
      simp [checkAnswer, ha, hb]
    · by_cases hb : b = []
      · have ha' : clean a = [] := by rw [h, hb, clean_nil]
        simp [checkAnswer, hb, ha']
      · simp only [checkAnswer, h, ha, hb]

theorem bohemian_accepted :
    checkAnswer (some (js "bohemian rhapsody"))
      (some (js "Bohemian Rhapsody (Remastered 2011)")) = true := by decide

theorem imagine_accepted :
    checkAnswer (some (js "imagine")) (some (js "Imagine (feat. Someone)")) = true := by decide

theorem checkAnswer_absent (guess actual : Option JsString)
    (h : guess = none ∨ guess = some [] ∨ actual = none ∨ actual = some []) :
    checkAnswer guess actual = false := by
  rcases h with h | h | h | h
  · subst h; rfl
  · subst h; cases actual <;> simp [checkAnswer]
  · subst h; cases guess <;> rfl
  · subst h; cases guess <;> simp [checkAnswer]

theorem checkAnswer_clean_empty (guess actual : JsString)
    (h : clean guess = [] ∨ clean actual = []) :
    checkAnswer (some guess) (some actual) = false := by
  simp only [checkAnswer]
  split_ifs <;> rfl

/-! ## The claims on `checkAnswer` -/

/-- C9: `checkAnswer` returns false whenever the guess or the title is absent or
the empty string, and whenever the normalised guess or the normalised title is
empty; in particular for the empty guess against `Anything`. -/
theorem checkAnswer_empty_rejected :
    (∀ guess actual : Option JsString,
      (guess = none ∨ guess = some [] ∨ actual = none ∨ actual = some []) →
        checkAnswer guess actual = false)
    ∧ (∀ guess actual : JsString, (clean guess = [] ∨ clean actual = []) →
        checkAnswer (some guess) (some actual) = false)
    ∧ checkAnswer (some (js "")) (some (js "Anything")) = false :=
  ⟨checkAnswer_absent, checkAnswer_clean_empty, by decide⟩

/-- C9 at concrete inputs: an absent title, and a guess that normalises to the
empty string. -/
theorem checkAnswer_empty_rejected_witness :
    checkAnswer (some (js "Anything")) none = false
    ∧ clean (js "(Live) ?!") = []
    ∧ checkAnswer (some (js "(Live) ?!")) (some (js "Anything")) = false :=
  ⟨checkAnswer_empty_rejected.1 _ _ (Or.inr (Or.inr (Or.inl rfl))), by decide,
    checkAnswer_empty_rejected.2.1 _ _ (Or.inl (by decide))⟩

/-- C10: for a title `t` without `(` and an annotation `p` without `)` and without
line terminator, `t + " (" + p + ")"` normalises like `t`, so `checkAnswer` gives
the same verdict for every guess; the two annotated titles of the specification
are matched. -/
theorem checkAnswer_annotation_irrelevant :
    (∀ t p : JsString, 40 ∉ t → 41 ∉ p → (∀ c ∈ p, isLineTerminator c = false) →
      clean (t ++ js " (" ++ p ++ js ")") = clean t
      ∧ ∀ g : Option JsString,
          checkAnswer g (some (t ++ js " (" ++ p ++ js ")")) = checkAnswer g (some t))
    ∧ checkAnswer (some (js "bohemian rhapsody"))
        (some (js "Bohemian Rhapsody (Remastered 2011)")) = true
    ∧ checkAnswer (some (js "imagine")) (some (js "Imagine (feat. Someone)")) = true := by
  refine ⟨?_, bohemian_accepted, imagine_accepted⟩
  intro t p ht hp hl
  have hl' : dotStarEnd p = true := by
    simp only [dotStarEnd, List.all_eq_true, Bool.not_eq_true']
    exact hl
  have h := clean_annotated t p ht hp hl'
  exact ⟨h, fun g => checkAnswer_congr_clean g _ _ h⟩

/-- C10 at a concrete title and annotation. -/
theorem checkAnswer_annotation_irrelevant_witness :
    clean (js "Under Pressure" ++ js " (" ++ js "feat. David Bowie" ++ js ")")
      = clean (js "Under Pressure")
    ∧ ∀ g : Option JsString,
        checkAnswer g (some (js "Under Pressure" ++ js " (" ++ js "feat. David Bowie" ++ js ")"))
          = checkAnswer g (some (js "Under Pressure")) :=
  checkAnswer_annotation_irrelevant.1 (js "Under Pressure") (js "feat. David Bowie")
    (by decide) (by decide) (by decide)

/-! ## Lemmas on the room server -/

theorem lookup_heap {s : Server} {roomId : RoomId} {a : Nat} {r : Room}
    (h : s.lookup roomId = some (a, r)) : s.heap[a]? = some r := by
  unfold Server.lookup at h
  split at h
  · exact absurd h (by simp)
  · split at h
    · exact absurd h (by simp)
    · rename_i b _ rb hb
      simp only [Option.some.injEq, Prod.mk.injEq] at h
      rw [← h.1, ← h.2]
      exact hb

theorem getElem?_set_of_some {l : List Room} {a b : Nat} {r x : Room}
    (h : l[a]? = some r) :
    (l.set b x)[a]? = some (if b = a then x else r) := by
  rw [List.getElem?_set]
  have hlt : a < l.length := by
    rcases List.getElem?_eq_some.1 h with ⟨hlt, _⟩
    exact hlt
  by_cases hb : b = a
  · subst hb; simp [hlt]
  · simp [hb, h]

theorem awardPoint_of_find_none (socket : SocketId) (ps : List Player)
    (h : ps.find? (fun p => p.id == socket) = none) : awardPoint socket ps = ps := by
  induction ps with
  | nil => rfl
  | cons p ps ih =>
    simp only [List.find?_cons] at h
    split at h
    · exact absurd h (by simp)
    · rename_i hp
      have hne : ¬ p.id = socket := by simpa using hp
      simp [awardPoint, hne, ih h]

theorem endGame_room {s : Server} (roomId : RoomId) {a : Nat} {r : Room} (cb : Callback)
    (hcb1 : ∀ b roomId, cb ≠ .reveal b roomId)
    (hcb2 : ∀ b roomId song, cb ≠ .guessWindow b roomId song)
    (hr : s.heap[a]? = some r) :
    ∃ r', (endGame s roomId).1.heap[a]? = some r' ∧ RoomChange a r (.timer cb) r' := by
  unfold endGame
  split
  · rename_i b rb hl
    have hb := lookup_heap hl
    refine ⟨_, getElem?_set_of_some hr, ?_⟩
    by_cases hba : b = a
    · subst hba
      rw [hr] at hb
      simp only [Option.some.injEq] at hb
      subst hb
      rw [if_pos rfl]
      exact RoomChange.ended cb hcb1 hcb2
    · rw [if_neg hba]; exact RoomChange.same _
  · exact ⟨r, hr, RoomChange.same _⟩

theorem startRound_room {s s' : Server} {roomId : RoomId} {out : List Emit} {a : Nat} {r : Room}
    (cb : Callback)
    (hcb1 : ∀ b roomId, cb ≠ .reveal b roomId)
    (hcb2 : ∀ b roomId song, cb ≠ .guessWindow b roomId song)
    (h : startRound s roomId = some (s', out)) (hr : s.heap[a]? = some r) :
    ∃ r', s'.heap[a]? = some r' ∧ RoomChange a r (.timer cb) r' := by
  unfold startRound at h
  split at h
  · exact absurd h (by simp)
  · split_ifs at h
    · simp only [Option.some.injEq] at h
      have := endGame_room roomId cb hcb1 hcb2 hr
      rw [h] at this
      exact this
    · simp only [Option.some.injEq, Prod.mk.injEq] at h
      rw [← h.1]
      exact ⟨r, hr, RoomChange.same _⟩

/-- Every turn changes the room object at an address in one of the ways listed
by `RoomChange`. -/
theorem step_room {s s' : Server} {e : Event} {out : List Emit} {a : Nat} {r : Room}
    (h : step s e = some (s', out)) (hr : s.heap[a]? = some r) :
    ∃ r', s'.heap[a]? = some r' ∧ RoomChange a r e r' := by
  have hlt : a < s.heap.length := (List.getElem?_eq_some.1 hr).1
  cases e with
  | create_room socket roomId playerName =>
    simp only [step, create_room, Option.some.injEq, Prod.mk.injEq] at h
    rw [← h.1]
    exact ⟨r, by simp [List.getElem?_append_left hlt, hr], RoomChange.same _⟩
  | join_room socket roomId playerName =>
    simp only [step, join_room, Option.some.injEq] at h
    split at h
    · rename_i b rb hl
      have hb := lookup_heap hl
      split_ifs at h with hs
      · simp only [Prod.mk.injEq] at h
        rw [← h.1]
        refine ⟨_, getElem?_set_of_some hr, ?_⟩
        by_cases hba : b = a
        · subst hba
          rw [hr] at hb
          simp only [Option.some.injEq] at hb
          subst hb
          rw [if_pos rfl]
          exact RoomChange.joined _ _ _ hs
        · rw [if_neg hba]; exact RoomChange.same _
      · simp only [Prod.mk.injEq] at h
        rw [← h.1]; exact ⟨r, hr, RoomChange.same _⟩
    · simp only [Prod.mk.injEq] at h
      rw [← h.1]; exact ⟨r, hr, RoomChange.same _⟩
  | start_game roomId rounds =>
    simp only [step, start_game, Option.some.injEq] at h
    split at h
    · rename_i b rb hl
      have hb := lookup_heap hl
      split_ifs at h with hs
      · simp only [Prod.mk.injEq] at h
        rw [← h.1]
        refine ⟨_, getElem?_set_of_some hr, ?_⟩
        by_cases hba : b = a
        · subst hba
          rw [hr] at hb
          simp only [Option.some.injEq] at hb
          subst hb
          rw [if_pos rfl]
          exact RoomChange.started _ _ hs
        · rw [if_neg hba]; exact RoomChange.same _
      · simp only [Prod.mk.injEq] at h
        rw [← h.1]; exact ⟨r, hr, RoomChange.same _⟩
    · simp only [Prod.mk.injEq] at h
      rw [← h.1]; exact ⟨r, hr, RoomChange.same _⟩
  | submit_guess socket roomId guess =>
    simp only [step, submit_guess] at h
    split at h
    · simp only [Option.some.injEq, Prod.mk.injEq] at h
      rw [← h.1]; exact ⟨r, hr, RoomChange.same _⟩
    · rename_i b rb hl
      have hb := lookup_heap hl
      split_ifs at h with hact
      · simp only [Option.some.injEq, Prod.mk.injEq] at h
        rw [← h.1]; exact ⟨r, hr, RoomChange.same _⟩
      · simp only [Bool.or_eq_true, Bool.not_eq_true', decide_eq_true_eq, not_or,
          Bool.not_eq_false, ne_eq, Decidable.not_not] at hact
        split at h
        · exact absurd h (by simp)
        · rename_i song hsong
          split_ifs at h with hok
          · split at h
            · rename_i player hp
              simp only [Option.some.injEq, Prod.mk.injEq] at h
              rw [← h.1]
              refine ⟨_, getElem?_set_of_some hr, ?_⟩
              by_cases hba : b = a
              · subst hba
                rw [hr] at hb
                simp only [Option.some.injEq] at hb
                subst hb
                rw [if_pos rfl]
                exact RoomChange.won _ _ _ song hact.1 hact.2 hsong hok
              · rw [if_neg hba]; exact RoomChange.same _
            · rename_i hp
              simp only [Option.some.injEq, Prod.mk.injEq] at h
              rw [← h.1]
              refine ⟨_, getElem?_set_of_some hr, ?_⟩
              by_cases hba : b = a
              · subst hba
                rw [hr] at hb
                simp only [Option.some.injEq] at hb
                subst hb
                rw [if_pos rfl]
                have := RoomChange.won (a := b) (r := r) socket roomId guess song
                  hact.1 hact.2 hsong hok
                rw [awardPoint_of_find_none socket r.players hp] at this
                exact this
              · rw [if_neg hba]; exact RoomChange.same _
          · simp only [Option.some.injEq, Prod.mk.injEq] at h
            rw [← h.1]; exact ⟨r, hr, RoomChange.same _⟩
  | timer cb =>
    simp only [step] at h
    split_ifs at h with hmem
    · cases cb with
      | startRound roomId =>
        simp only [runCallback] at h
        exact startRound_room (s := { s with timers := s.timers.erase (.startRound roomId) })
          (.startRound roomId) (by simp) (by simp) h hr
      | afterWin b roomId =>
        simp only [runCallback, afterWin] at h
        split at h
        · exact absurd h (by simp)
        · split_ifs at h
          · exact startRound_room (s := { s with timers := s.timers.erase (.afterWin b roomId) })
              (.afterWin b roomId) (by simp) (by simp) h hr
          · simp only [Option.some.injEq] at h
            have := endGame_room (s := { s with timers := s.timers.erase (.afterWin b roomId) })
              roomId (.afterWin b roomId) (by simp) (by simp) hr
            rw [h] at this
            exact this
      | reveal b roomId =>
        simp only [runCallback, reveal] at h
        split at h
        · exact absurd h (by simp)
        · rename_i rb hb
          split at h
          · exact absurd h (by simp)
          · rename_i songs hsongs
            split at h
            · exact absurd h (by simp)
            · rename_i song hsong
              simp only [Option.some.injEq, Prod.mk.injEq] at h
              rw [← h.1]
              refine ⟨_, getElem?_set_of_some hr, ?_⟩
              by_cases hba : b = a
              · subst hba
                rw [hr] at hb
                simp only [Option.some.injEq] at hb
                subst hb
                rw [if_pos rfl]
                exact RoomChange.revealed _ songs song hsongs hsong
              · rw [if_neg hba]; exact RoomChange.same _
      | guessWindow b roomId song =>
        simp only [runCallback, guessWindow] at h
        split at h
        · exact absurd h (by simp)
        · rename_i rb hb
          split_ifs at h with hact
          · simp only [Option.some.injEq, Prod.mk.injEq] at h
            rw [← h.1]
            refine ⟨_, getElem?_set_of_some hr, ?_⟩
            simp only [Bool.and_eq_true] at hact
            by_cases hba : b = a
            · subst hba
              rw [hr] at hb
              simp only [Option.some.injEq] at hb
              subst hb
              rw [if_pos rfl]
              exact RoomChange.timedOut _ song hact.1 hact.2
            · rw [if_neg hba]; exact RoomChange.same _
          · simp only [Option.some.injEq, Prod.mk.injEq] at h
            rw [← h.1]; exact ⟨r, hr, RoomChange.same _⟩
    · simp only [Option.some.injEq, Prod.mk.injEq] at h
      rw [← h.1]; exact ⟨r, hr, RoomChange.same _⟩
  | reply req response =>
    simp only [step] at h
    split_ifs at h with hmem
    · simp only [songsFetched] at h
      split at h
      · exact absurd h (by simp)
      · rename_i rb hb
        simp only [Option.some.injEq, Prod.mk.injEq] at h
        rw [← h.1]
        refine ⟨_, getElem?_set_of_some hr, ?_⟩
        by_cases hba : req.room = a
        · rw [hba, hr] at hb
          simp only [Option.some.injEq] at hb
          subst hb
          rw [if_pos hba]
          exact RoomChange.fetched req response _ hba
        · rw [if_neg hba]; exact RoomChange.same _
    · simp only [Option.some.injEq, Prod.mk.injEq] at h
      rw [← h.1]; exact ⟨r, hr, RoomChange.same _⟩


theorem endGame_timers (s : Server) (roomId : RoomId) : (endGame s roomId).1.timers = s.timers := by
  unfold endGame
  split <;> rfl

theorem startRound_timers {s s' : Server} {roomId : RoomId} {out : List Emit}
    (h : startRound s roomId = some (s', out)) {cb : Callback} (hcb : cb ∈ s.timers) :
    cb ∈ s'.timers := by
  unfold startRound at h
  split at h
  · exact absurd h (by simp)
  · split_ifs at h
    · simp only [Option.some.injEq] at h
      have := endGame_timers s roomId
      rw [h] at this
      rw [this]; exact hcb
    · simp only [Option.some.injEq, Prod.mk.injEq] at h
      rw [← h.1]
      exact List.mem_append_left _ hcb

/-- A scheduled callback stays scheduled until it runs. -/
theorem step_timers {s s' : Server} {e : Event} {out : List Emit} {cb : Callback}
    (h : step s e = some (s', out)) (hcb : cb ∈ s.timers) (hne : e ≠ .timer cb) :
    cb ∈ s'.timers := by
  cases e with
  | create_room socket roomId playerName =>
    simp only [step, create_room, Option.some.injEq, Prod.mk.injEq] at h
    rw [← h.1]; exact hcb
  | join_room socket roomId playerName =>
    simp only [step, join_room, Option.some.injEq] at h
    split at h
    · split_ifs at h <;> simp only [Prod.mk.injEq] at h <;> rw [← h.1] <;> exact hcb
    · simp only [Prod.mk.injEq] at h
      rw [← h.1]; exact hcb
  | start_game roomId rounds =>
    simp only [step, start_game, Option.some.injEq] at h
    split at h
    · split_ifs at h <;> simp only [Prod.mk.injEq] at h <;> rw [← h.1] <;> exact hcb
    · simp only [Prod.mk.injEq] at h
      rw [← h.1]; exact hcb
  | submit_guess socket roomId guess =>
    simp only [step, submit_guess] at h
    split at h
    · simp only [Option.some.injEq, Prod.mk.injEq] at h
      rw [← h.1]; exact hcb
    · split_ifs at h
      · simp only [Option.some.injEq, Prod.mk.injEq] at h
        rw [← h.1]; exact hcb
      · split at h
        · exact absurd h (by simp)
        · split_ifs at h
          · split at h
            · simp only [Option.some.injEq, Prod.mk.injEq] at h
              rw [← h.1]; exact List.mem_append_left _ hcb
            · simp only [Option.some.injEq, Prod.mk.injEq] at h
              rw [← h.1]; exact hcb
          · simp only [Option.some.injEq, Prod.mk.injEq] at h
            rw [← h.1]; exact hcb
  | timer cb' =>
    have hne' : cb ≠ cb' := fun e => hne (by rw [e])
    simp only [step] at h
    split_ifs at h with hmem
    · have hbase : cb ∈ ({ s with timers := s.timers.erase cb' } : Server).timers :=
        (List.mem_erase_of_ne hne').2 hcb
      cases cb' with
      | startRound roomId =>
        simp only [runCallback] at h
        exact startRound_timers h hbase
      | afterWin b roomId =>
        simp only [runCallback, afterWin] at h
        split at h
        · exact absurd h (by simp)
        · split_ifs at h
          · exact startRound_timers h hbase
          · simp only [Option.some.injEq] at h
            have := endGame_timers { s with timers := s.timers.erase (.afterWin b roomId) } roomId
            rw [h] at this
            rw [this]; exact hbase
      | reveal b roomId =>
        simp only [runCallback, reveal] at h
        split at h
        · exact absurd h (by simp)
        · split at h
          · exact absurd h (by simp)
          · split at h
            · exact absurd h (by simp)
            · simp only [Option.some.injEq, Prod.mk.injEq] at h
              rw [← h.1]; exact List.mem_append_left _ hbase
      | guessWindow b roomId song =>
        simp only [runCallback, guessWindow] at h
        split at h
        · exact absurd h (by simp)
        · split_ifs at h
          · simp only [Option.some.injEq, Prod.mk.injEq] at h
            rw [← h.1]; exact List.mem_append_left _ hbase
          · simp only [Option.some.injEq, Prod.mk.injEq] at h
            rw [← h.1]; exact hbase
    · simp only [Option.some.injEq, Prod.mk.injEq] at h
      rw [← h.1]; exact hcb
  | reply req response =>
    simp only [step] at h
    split_ifs at h with hmem
    · simp only [songsFetched] at h
      split at h
      · exact absurd h (by simp)
      · simp only [Option.some.injEq, Prod.mk.injEq] at h
        rw [← h.1]; exact List.mem_append_left _ hcb
    · simp only [Option.some.injEq, Prod.mk.injEq] at h
      rw [← h.1]; exact hcb

/-- A property of the server that every turn of a run preserves is kept by the
run. -/
theorem run_invariant (P : Server → Prop) (ok : Event → Prop)
    (hstep : ∀ s e s' out, P s → ok e → step s e = some (s', out) → P s')
    (s : Server) (es : List Event) (s' : Server) (out : List Emit)
    (hP : P s) (hes : ∀ e ∈ es, ok e) (h : run s es = some (s', out)) : P s' := by
  induction es generalizing s out with
  | nil =>
    simp only [run, Option.some.injEq, Prod.mk.injEq] at h
    rw [← h.1]; exact hP
  | cons e es ih =>
    simp only [run] at h
    split at h
    · exact absurd h (by simp)
    · rename_i s1 out1 h1
      split at h
      · exact absurd h (by simp)
      · rename_i s2 out2 h2
        simp only [Option.some.injEq, Prod.mk.injEq] at h
        rw [h.1] at h2
        exact ih s1 out2 (hstep s e s1 out1 hP (hes e (List.mem_cons_self _ _)) h1)
          (fun e' he' => hes e' (List.mem_cons_of_mem _ he')) h2

theorem lookup_rooms {s : Server} {roomId : RoomId} {a : Nat} {r : Room}
    (h : s.lookup roomId = some (a, r)) : s.rooms.lookup roomId = some a := by
  unfold Server.lookup at h
  split at h
  · exact absurd h (by simp)
  · rename_i b hb
    split at h
    · exact absurd h (by simp)
    · simp only [Option.some.injEq, Prod.mk.injEq] at h
      rw [hb, h.1]

theorem lookup_setRoom {s : Server} {roomId : RoomId} {a : Nat} {r : Room} (x : Room)
    (members : List (SocketId × RoomId)) (timers : List Callback) (requests : List Request)
    (h : s.lookup roomId = some (a, r)) :
    ({ s with heap := s.heap.set a x, members := members, timers := timers,
              requests := requests } : Server).lookup roomId = some (a, x) := by
  have hr := lookup_heap h
  have hlt : a < s.heap.length := (List.getElem?_eq_some.1 hr).1
  simp only [Server.lookup, lookup_rooms h, List.getElem?_set_self hlt]

/-- The player that `find` returns and the list that `awardPoint` leaves. -/
theorem awardPoint_spec (socket : SocketId) (ps : List Player)
    (h : ∃ p ∈ ps, p.id = socket) :
    ∃ (i : Nat) (p : Player), ps[i]? = some p ∧ p.id = socket
      ∧ (∀ j q, j < i → ps[j]? = some q → q.id ≠ socket)
      ∧ ps.find? (fun q => q.id == socket) = some p
      ∧ awardPoint socket ps = ps.set i { p with score := p.score + 1 } := by
  induction ps with
  | nil => simp at h
  | cons q qs ih =>
    by_cases hq : q.id = socket
    · refine ⟨0, q, by simp, hq, fun j _ hj => absurd hj (Nat.not_lt_zero j), ?_, ?_⟩
      · simp [List.find?_cons, hq]
      · simp [awardPoint, hq]
    · have h' : ∃ p ∈ qs, p.id = socket := by
        obtain ⟨p, hp, hid⟩ := h
        rcases List.mem_cons.1 hp with e | hp'
        · exact absurd (e ▸ hid) hq
        · exact ⟨p, hp', hid⟩
      obtain ⟨i, p, hi, hid, hfirst, hfind, haward⟩ := ih h'
      refine ⟨i + 1, p, by simpa using hi, hid, ?_, ?_, ?_⟩
      · intro j x hj hx
        cases j with
        | zero =>
          simp only [List.getElem?_cons_zero, Option.some.injEq] at hx
          rw [← hx]; exact hq
        | succ j =>
          simp only [List.getElem?_cons_succ] at hx
          exact hfirst j x (by omega) hx
      · simp [List.find?_cons, hq, hfind]
      · simp [awardPoint, hq, haward]

theorem resolved_step (a : Nat) (P : List Player) (s : Server) (e : Event) (s' : Server)
    (out : List Emit) (hR : Resolved a P s) (he : ∀ rid, e ≠ .timer (.reveal a rid))
    (h : step s e = some (s', out)) : Resolved a P s' := by
  obtain ⟨r, hr, hact, hP, hst⟩ := hR
  obtain ⟨r', hr', hch⟩ := step_room h hr
  refine ⟨r', hr', ?_⟩
  cases hch with
  | same => exact ⟨hact, hP, hst⟩
  | joined socket roomId playerName hl => exact absurd hl hst
  | started roomId rounds hp => exact ⟨hact, hP, by simp⟩
  | fetched req response songs hreq => exact ⟨hact, hP, hst⟩
  | won socket roomId guess song h1 => rw [hact] at h1; exact absurd h1 (by simp)
  | ended cb h1 h2 => exact ⟨hact, hP, by simp⟩
  | revealed roomId songs song h1 h2 => exact absurd rfl (he roomId)
  | timedOut roomId song h1 => rw [hact] at h1; exact absurd h1 (by simp)

theorem endGame_heap (s : Server) (roomId : RoomId) :
    (endGame s roomId).1.heap = s.heap ∨ ∃ b x, (endGame s roomId).1.heap = s.heap.set b x := by
  unfold endGame
  split
  · exact Or.inr ⟨_, _, rfl⟩
  · exact Or.inl rfl

theorem startRound_heap {s s' : Server} {roomId : RoomId} {out : List Emit}
    (h : startRound s roomId = some (s', out)) :
    s'.heap = s.heap ∨ ∃ b x, s'.heap = s.heap.set b x := by
  unfold startRound at h
  split at h
  · exact absurd h (by simp)
  · split_ifs at h
    · simp only [Option.some.injEq] at h
      have := endGame_heap s roomId
      rw [h] at this
      exact this
    · simp only [Option.some.injEq, Prod.mk.injEq] at h
      rw [← h.1]
      exact Or.inl rfl

/-- A turn leaves the list of room objects as it is, rewrites one of them, or
appends a room with the default round count. -/
theorem step_heap {s s' : Server} {e : Event} {out : List Emit}
    (h : step s e = some (s', out)) :
    s'.heap = s.heap ∨ (∃ b x, s'.heap = s.heap.set b x)
      ∨ ∃ room : Room, s'.heap = s.heap ++ [room] ∧ room.totalRounds = 10 := by
  cases e with
  | create_room socket roomId playerName =>
    simp only [step, create_room, Option.some.injEq, Prod.mk.injEq] at h
    rw [← h.1]
    exact Or.inr (Or.inr ⟨_, rfl, rfl⟩)
  | join_room socket roomId playerName =>
    simp only [step, join_room, Option.some.injEq] at h
    split at h
    · split_ifs at h <;> simp only [Prod.mk.injEq] at h <;> rw [← h.1]
      · exact Or.inr (Or.inl ⟨_, _, rfl⟩)
      · exact Or.inl rfl
    · simp only [Prod.mk.injEq] at h
      rw [← h.1]; exact Or.inl rfl
  | start_game roomId rounds =>
    simp only [step, start_game, Option.some.injEq] at h
    split at h
    · split_ifs at h <;> simp only [Prod.mk.injEq] at h <;> rw [← h.1]
      · exact Or.inr (Or.inl ⟨_, _, rfl⟩)
      · exact Or.inl rfl
    · simp only [Prod.mk.injEq] at h
      rw [← h.1]; exact Or.inl rfl
  | submit_guess socket roomId guess =>
    simp only [step, submit_guess] at h
    split at h
    · simp only [Option.some.injEq, Prod.mk.injEq] at h
      rw [← h.1]; exact Or.inl rfl
    · split_ifs at h
      · simp only [Option.some.injEq, Prod.mk.injEq] at h
        rw [← h.1]; exact Or.inl rfl
      · split at h
        · exact absurd h (by simp)
        · split_ifs at h
          · split at h
            · simp only [Option.some.injEq, Prod.mk.injEq] at h
              rw [← h.1]; exact Or.inr (Or.inl ⟨_, _, rfl⟩)
            · simp only [Option.some.injEq, Prod.mk.injEq] at h
              rw [← h.1]; exact Or.inr (Or.inl ⟨_, _, rfl⟩)
          · simp only [Option.some.injEq, Prod.mk.injEq] at h
            rw [← h.1]; exact Or.inl rfl
  | timer cb' =>
    simp only [step] at h
    split_ifs at h with hmem
    · cases cb' with
      | startRound roomId =>
        simp only [runCallback] at h
        rcases startRound_heap h with h' | h'
        · exact Or.inl h'
        · exact Or.inr (Or.inl h')
      | afterWin b roomId =>
        simp only [runCallback, afterWin] at h
        split at h
        · exact absurd h (by simp)
        · split_ifs at h
          · rcases startRound_heap h with h' | h'
            · exact Or.inl h'
            · exact Or.inr (Or.inl h')
          · simp only [Option.some.injEq] at h
            have := endGame_heap { s with timers := s.timers.erase (.afterWin b roomId) } roomId
            rw [h] at this
            rcases this with h' | h'
            · exact Or.inl h'
            · exact Or.inr (Or.inl h')
      | reveal b roomId =>
        simp only [runCallback, reveal] at h
        split at h
        · exact absurd h (by simp)
        · split at h
          · exact absurd h (by simp)
          · split at h
            · exact absurd h (by simp)
            · simp only [Option.some.injEq, Prod.mk.injEq] at h
              rw [← h.1]; exact Or.inr (Or.inl ⟨_, _, rfl⟩)
      | guessWindow b roomId song =>
        simp only [runCallback, guessWindow] at h
        split at h
        · exact absurd h (by simp)
        · split_ifs at h
          · simp only [Option.some.injEq, Prod.mk.injEq] at h
            rw [← h.1]; exact Or.inr (Or.inl ⟨_, _, rfl⟩)
          · simp only [Option.some.injEq, Prod.mk.injEq] at h
            rw [← h.1]; exact Or.inl rfl
    · simp only [Option.some.injEq, Prod.mk.injEq] at h
      rw [← h.1]; exact Or.inl rfl
  | reply req response =>
    simp only [step] at h
    split_ifs at h with hmem
    · simp only [songsFetched] at h
      split at h
      · exact absurd h (by simp)
      · simp only [Option.some.injEq, Prod.mk.injEq] at h
        rw [← h.1]; exact Or.inr (Or.inl ⟨_, _, rfl⟩)
    · simp only [Option.some.injEq, Prod.mk.injEq] at h
      rw [← h.1]; exact Or.inl rfl

/-- A room of the server after a turn was there before the turn, at the same
address, or is a new room with the default round count. -/
theorem step_room_origin {s s' : Server} {e : Event} {out : List Emit} {a : Nat} {r' : Room}
    (h : step s e = some (s', out)) (hr' : s'.heap[a]? = some r') :
    (∃ r, s.heap[a]? = some r) ∨ r'.totalRounds = 10 := by
  have hlt' : a < s'.heap.length := (List.getElem?_eq_some.1 hr').1
  rcases step_heap h with h1 | ⟨b, x, h1⟩ | ⟨room, h1, h10⟩
  · rw [h1] at hlt'
    exact Or.inl ⟨s.heap[a], List.getElem?_eq_getElem hlt'⟩
  · rw [h1, List.length_set] at hlt'
    exact Or.inl ⟨s.heap[a], List.getElem?_eq_getElem hlt'⟩
  · by_cases hlt : a < s.heap.length
    · exact Or.inl ⟨s.heap[a], List.getElem?_eq_getElem hlt⟩
    · right
      rw [h1, List.getElem?_append_right (by omega)] at hr'
      have ha : a - s.heap.length = 0 := by
        rw [h1] at hlt'
        simp at hlt'
        omega
      rw [ha] at hr'
      simp only [List.getElem?_cons_zero, Option.some.injEq] at hr'
      rw [← hr']; exact h10

theorem normalizeRounds_range (rounds : RoundsInput) (previous : Nat) :
    1 ≤ normalizeRounds rounds previous ∧ normalizeRounds rounds previous ≤ 50 := by
  unfold normalizeRounds
  cases parseInt rounds with
  | none =>
    simp only
    split_ifs <;> omega
  | some n =>
    simp only
    split_ifs <;> omega

theorem normalizeRounds_spec (rounds : RoundsInput) (previous : Nat)
    (h1 : 1 ≤ previous) (h50 : previous ≤ 50) :
    normalizeRounds rounds previous =
      (match parseInt rounds with
       | some n => if 1 ≤ n ∧ n ≤ 50 then n.toNat else if n > 50 then 50 else previous
       | none => previous) := by
  unfold normalizeRounds
  cases parseInt rounds with
  | none =>
    simp only
    split_ifs <;> omega
  | some n =>
    simp only
    by_cases hn : n ≤ 0
    · have h0 : ¬ previous = 0 := by omega
      have hlt : ¬ (1 ≤ n ∧ n ≤ 50) := by omega
      have hgt : ¬ n > 50 := by omega
      have hp : ¬ previous > 50 := by omega
      simp only [hn, h0, hlt, hgt, hp, if_true, if_false]
    · have ht : (n.toNat : Int) = n := Int.toNat_of_nonneg (by omega)
      by_cases h50n : n ≤ 50
      · have hlt : 1 ≤ n ∧ n ≤ 50 := by omega
        have hp : ¬ n.toNat > 50 := by omega
        simp only [hn, hlt, hp, and_self, if_true, if_false]
      · have hlt : ¬ (1 ≤ n ∧ n ≤ 50) := by omega
        have hgt : n > 50 := by omega
        have hp : n.toNat > 50 := by omega
        simp only [hn, hlt, hgt, hp, if_true, if_false]

/-- The round count of every room of a reachable server lies in `[1, 50]`. -/
theorem reachable_totalRounds {s : Server} (hs : Reachable s) :
    ∀ (a : Nat) (r : Room), s.heap[a]? = some r → 1 ≤ r.totalRounds ∧ r.totalRounds ≤ 50 := by
  induction hs with
  | init =>
    intro a r h
    simp [Server.init] at h
  | step hreach hstep ih =>
    intro a r' hr'
    rcases step_room_origin hstep hr' with ⟨r, hr⟩ | h10
    · obtain ⟨r2, hr2, hch⟩ := step_room hstep hr
      rw [hr'] at hr2
      simp only [Option.some.injEq] at hr2
      subst hr2
      have hold := ih a r hr
      cases hch with
      | same => exact hold
      | joined socket roomId playerName hl => exact hold
      | started roomId rounds hp => exact normalizeRounds_range rounds r.totalRounds
      | fetched req response songs hreq => exact hold
      | won socket roomId guess song h1 => exact hold
      | ended cb h1 h2 => exact hold
      | revealed roomId songs song h1 h2 => exact hold
      | timedOut roomId song h1 => exact hold
    · rw [h10]; omega

theorem demoLobby_lookup : demoLobby.lookup "ROOM1" = some (0, demoLobbyRoom) := by decide

theorem demoPlaying_lookup : demoPlaying.lookup "ROOM1" = some (0, demoRoom) := by decide

theorem create_room_lookup (s : Server) (socket : SocketId) (roomId : RoomId)
    (playerName : String) :
    (create_room s socket roomId playerName).1.lookup roomId =
      some (s.heap.length,
        { id := roomId, players := [{ id := socket, name := playerName, score := 0 }],
          state := .LOBBY, currentRound := 0, totalRounds := 10, currentSong := none,
          songs := none, roundActive := false }) := by
  simp [create_room, Server.lookup, List.lookup]

theorem start_game_lookup (s : Server) (roomId : RoomId) (rounds : RoundsInput) (a : Nat)
    (r : Room) (hroom : s.lookup roomId = some (a, r)) (hp : r.players.length > 0) :
    (start_game s roomId rounds).1.lookup roomId =
      some (a, { r with totalRounds := normalizeRounds rounds r.totalRounds,
                        state := .PLAYING, currentRound := 0 }) := by
  simp only [start_game, hroom, hp, if_true]
  exact lookup_setRoom _ _ _ _ hroom

theorem freshTotalRounds_eq (s : Server) (socket : SocketId) (roomId : RoomId)
    (playerName : String) (rounds : RoundsInput) :
    freshTotalRounds s socket roomId playerName rounds = some (normalizeRounds rounds 10) := by
  unfold freshTotalRounds
  rw [start_game_lookup _ roomId rounds _ _ (create_room_lookup s socket roomId playerName)
    (by simp)]
  rfl

theorem reachable_serverAfter (es : List Event) : Reachable (serverAfter es) := by
  have key : ∀ (es : List Event) (s : Server), Reachable s →
      ∀ s' out, run s es = some (s', out) → Reachable s' := by
    intro es
    induction es with
    | nil =>
      intro s hs s' out h
      simp only [run, Option.some.injEq, Prod.mk.injEq] at h
      rw [← h.1]; exact hs
    | cons e es ih =>
      intro s hs s' out h
      simp only [run] at h
      split at h
      · exact absurd h (by simp)
      · rename_i s1 out1 h1
        split at h
        · exact absurd h (by simp)
        · rename_i s2 out2 h2
          simp only [Option.some.injEq, Prod.mk.injEq] at h
          rw [h.1] at h2
          exact ih s1 (Reachable.step hs h1) s' out2 h2
  unfold serverAfter
  split
  · rename_i s out h
    exact key es _ Reachable.init s out h
  · exact Reachable.init

theorem demoEnded_lookup : demoEnded.lookup "ROOM1" = some (0, demoEndedRoom) := by decide

theorem sameTrack_self (song : Track) : sameTrack (some song) song = true := by
  simp [sameTrack]

theorem roundOpen_step (a : Nat) (roomId : RoomId) (song : Track) (s : Server) (e : Event)
    (s' : Server) (out : List Emit)
    (hO : RoundOpen a song (.guessWindow a roomId song) s) (hq : QuietFor a song e)
    (h : step s e = some (s', out)) : RoundOpen a song (.guessWindow a roomId song) s' := by
  obtain ⟨⟨r, hr, hact, hsong⟩, hcb⟩ := hO
  obtain ⟨hq1, hq2, hq3⟩ := hq
  refine ⟨?_, step_timers h hcb (fun he => hq2 roomId song he rfl)⟩
  obtain ⟨r', hr', hch⟩ := step_room h hr
  refine ⟨r', hr', ?_⟩
  cases hch with
  | same => exact ⟨hact, hsong⟩
  | joined socket rid playerName hl => exact ⟨hact, hsong⟩
  | started rid rounds hp => exact ⟨hact, hsong⟩
  | fetched req response songs hreq => exact ⟨hact, hsong⟩
  | won socket rid guess song' h1 h2 h3 h4 =>
    rw [hsong] at h3
    simp only [Option.some.injEq] at h3
    rw [← h3, hq3 socket rid guess rfl] at h4
    exact absurd h4 (by simp)
  | ended cb h1 h2 => exact ⟨hact, hsong⟩
  | revealed rid songs song' h1 h2 => exact absurd rfl (hq1 rid)
  | timedOut rid song' h1 h2 =>
    rw [hsong] at h2
    simp only [sameTrack, beq_iff_eq] at h2
    exact absurd h2.symm (hq2 rid song' rfl)

theorem guessWindow_active (s : Server) (a : Nat) (roomId : RoomId) (song : Track) (r : Room)
    (hr : s.heap[a]? = some r) (h : r.roundActive = true ∧ sameTrack r.currentSong song = true) :
    guessWindow s a roomId song =
      some ({ s with heap := s.heap.set a ({ r with roundActive := false }),
                     timers := s.timers ++ [.startRound roomId] },
            [⟨.room roomId, .round_timeout song⟩]) := by
  simp [guessWindow, hr, h.1, h.2]

theorem guessWindow_stale (s : Server) (a : Nat) (roomId : RoomId) (song : Track) (r : Room)
    (hr : s.heap[a]? = some r)
    (h : ¬ (r.roundActive = true ∧ sameTrack r.currentSong song = true)) :
    guessWindow s a roomId song = some (s, []) := by
  have h' : (r.roundActive && sameTrack r.currentSong song) = false := by
    simpa [Bool.and_eq_true] using h
  simp [guessWindow, hr, h']

theorem guessWindow_once (s : Server) (a : Nat) (roomId : RoomId) (song : Track) (s1 : Server)
    (out1 : List Emit) (h : guessWindow s a roomId song = some (s1, out1)) :
    (out1 = [] ∨ out1 = [⟨.room roomId, .round_timeout song⟩])
      ∧ guessWindow s1 a roomId song = some (s1, []) := by
  cases hr : s.heap[a]? with
  | none => simp [guessWindow, hr] at h
  | some r =>
    have hlt : a < s.heap.length := (List.getElem?_eq_some.1 hr).1
    by_cases hc : r.roundActive = true ∧ sameTrack r.currentSong song = true
    · rw [guessWindow_active s a roomId song r hr hc] at h
      simp only [Option.some.injEq, Prod.mk.injEq] at h
      refine ⟨Or.inr h.2.symm, ?_⟩
      rw [← h.1]
      exact guessWindow_stale _ a roomId song ({ r with roundActive := false })
        (List.getElem?_set_self hlt) (by simp)
    · rw [guessWindow_stale s a roomId song r hr hc] at h
      simp only [Option.some.injEq, Prod.mk.injEq] at h
      refine ⟨Or.inl h.2.symm, ?_⟩
      rw [← h.1]
      exact guessWindow_stale s a roomId song r hr hc

theorem reveal_schedules (s : Server) (a : Nat) (roomId : RoomId) (s1 : Server)
    (out1 : List Emit) (h : reveal s a roomId = some (s1, out1)) :
    ∃ song, s1.timers = s.timers ++ [.guessWindow a roomId song]
      ∧ ∃ r1, s1.heap[a]? = some r1 ∧ r1.roundActive = true ∧ r1.currentSong = some song := by
  cases hr : s.heap[a]? with
  | none => simp [reveal, hr] at h
  | some r =>
    have hlt : a < s.heap.length := (List.getElem?_eq_some.1 hr).1
    simp only [reveal, hr] at h
    split at h
    · exact absurd h (by simp)
    · split at h
      · exact absurd h (by simp)
      · rename_i song _
        simp only [Option.some.injEq, Prod.mk.injEq] at h
        rw [← h.1]
        exact ⟨song, rfl, _, List.getElem?_set_self hlt, rfl, rfl⟩

/-! ## The claims on the room server -/

/-- C2: in a room in `PLAYING` with an active round, a guess that `checkAnswer`
accepts, sent by a player of the room, makes the round inactive and adds exactly
1 to the score of that player (the first of the list with the sender's id); the
other players, the order of the players and every other field of the room, among
them `currentRound` and `songs`, are unchanged, as are the other rooms.  Every
further `submit_guess` for the room then changes nothing, and no sequence of
turns without a reveal of the room changes a score or reactivates the round. -/
theorem first_correct_guess_wins (s : Server) (socket : SocketId) (roomId : RoomId)
    (guess : Option JsString) (a : Nat) (r : Room) (song : Track)
    (hroom : s.lookup roomId = some (a, r)) (hstate : r.state = .PLAYING)
    (hactive : r.roundActive = true) (hsong : r.currentSong = some song)
    (hok : checkAnswer guess song.title = true)
    (hplayer : ∃ p ∈ r.players, p.id = socket) :
    ∃ (i : Nat) (p : Player),
      r.players[i]? = some p ∧ p.id = socket
      ∧ (∀ j q, j < i → r.players[j]? = some q → q.id ≠ socket)
      ∧ ∃ (s1 : Server) (out1 : List Emit),
          submit_guess s socket roomId guess = some (s1, out1)
          ∧ s1.lookup roomId = some (a, { r with
              roundActive := false,
              players := r.players.set i { p with score := p.score + 1 } })
          ∧ (∀ b, b ≠ a → s1.heap[b]? = s.heap[b]?)
          ∧ (∀ socket2 guess2, submit_guess s1 socket2 roomId guess2 = some (s1, []))
          ∧ (∀ es s2 out2, (∀ e ∈ es, ∀ rid, e ≠ .timer (.reveal a rid)) →
              run s1 es = some (s2, out2) →
              ∃ r2, s2.heap[a]? = some r2 ∧ r2.roundActive = false
                ∧ r2.players = r.players.set i { p with score := p.score + 1 }) := by
  obtain ⟨i, p, hi, hid, hfirst, hfind, haward⟩ := awardPoint_spec socket r.players hplayer
  refine ⟨i, p, hi, hid, hfirst, ?_⟩
  have hsub : submit_guess s socket roomId guess =
      some ({ s with heap := s.heap.set a ({ r with roundActive := false,
                                                      players := awardPoint socket r.players }),
                     timers := s.timers ++ [.afterWin a roomId] },
            [⟨.room roomId, .update_scores (awardPoint socket r.players)⟩,
             ⟨.room roomId, .round_winner p.name song⟩]) := by
    simp [submit_guess, hroom, hstate, hactive, hsong, hok, hfind]
  have hlook := lookup_setRoom
    ({ r with roundActive := false, players := awardPoint socket r.players })
    s.members (s.timers ++ [.afterWin a roomId]) s.requests hroom
  refine ⟨_, _, hsub, ?_, ?_, ?_, ?_⟩
  · rw [← haward]; exact hlook
  · intro b hb
    exact List.getElem?_set_ne (Ne.symm hb)
  · intro socket2 guess2
    simp [submit_guess, hlook]
  · intro es s2 out2 hes hrun
    have hR : Resolved a (r.players.set i { p with score := p.score + 1 })
        ({ s with heap := s.heap.set a ({ r with roundActive := false,
                                                  players := awardPoint socket r.players }),
                  timers := s.timers ++ [.afterWin a roomId] } : Server) := by
      refine ⟨_, lookup_heap hlook, rfl, haward, ?_⟩
      simp [hstate]
    obtain ⟨r2, h2, hact2, hP2, _⟩ :=
      run_invariant (Resolved a (r.players.set i { p with score := p.score + 1 }))
        (fun e => ∀ rid, e ≠ .timer (.reveal a rid))
        (fun s e s' out hP hok h => resolved_step a _ s e s' out hP hok h)
        _ es s2 out2 hR hes hrun
    exact ⟨r2, h2, hact2, hP2⟩

/-- C2 on the sample game: Bob answers `hey jude` in round 1. -/
theorem first_correct_guess_wins_witness :
    demoPlaying.lookup "ROOM1" = some (0, demoRoom)
    ∧ checkAnswer (some (js "hey jude")) demoSong.title = true
    ∧ ∃ (i : Nat) (p : Player),
        demoRoom.players[i]? = some p ∧ p.id = "s2"
        ∧ ∃ (s1 : Server) (out1 : List Emit),
            submit_guess demoPlaying "s2" "ROOM1" (some (js "hey jude")) = some (s1, out1)
            ∧ s1.lookup "ROOM1" = some (0, { demoRoom with
                roundActive := false,
                players := demoRoom.players.set i { p with score := p.score + 1 } })
            ∧ ∀ socket2 guess2, submit_guess s1 socket2 "ROOM1" guess2 = some (s1, []) :=
  ⟨demoPlaying_lookup, by decide,
    match first_correct_guess_wins demoPlaying "s2" "ROOM1" (some (js "hey jude")) 0 demoRoom
        demoSong demoPlaying_lookup (by decide) (by decide) (by decide) (by decide)
        ⟨⟨"s2", "Bob", 0⟩, by decide, rfl⟩ with
    | ⟨i, p, h1, h2, _, s1, out1, h4, h5, _, h7, _⟩ => ⟨i, p, h1, h2, s1, out1, h4, h5, h7⟩⟩

/-- C3: `join_room` on an existing room in `LOBBY` appends exactly one player
with score 0 after the previous players, changes no other field of the room, no
other room, the table, the callbacks and the requests, and sends `player_joined`
with the new list to the room and `room_joined` to the joiner. -/
theorem join_room_appends (s : Server) (socket : SocketId) (roomId : RoomId)
    (playerName : String) (a : Nat) (r : Room)
    (hroom : s.lookup roomId = some (a, r)) (hstate : r.state = .LOBBY) :
    (join_room s socket roomId playerName).1.lookup roomId =
        some (a, { r with players :=
          r.players ++ [{ id := socket, name := playerName, score := 0 }] })
    ∧ (∀ b, b ≠ a → (join_room s socket roomId playerName).1.heap[b]? = s.heap[b]?)
    ∧ (join_room s socket roomId playerName).1.heap.length = s.heap.length
    ∧ (join_room s socket roomId playerName).1.rooms = s.rooms
    ∧ (join_room s socket roomId playerName).1.timers = s.timers
    ∧ (join_room s socket roomId playerName).1.requests = s.requests
    ∧ (join_room s socket roomId playerName).1.nextRef = s.nextRef
    ∧ (join_room s socket roomId playerName).1.members = (socket, roomId) :: s.members
    ∧ (join_room s socket roomId playerName).2 =
        [⟨.room roomId, .player_joined
            (r.players ++ [{ id := socket, name := playerName, score := 0 }])⟩,
         ⟨.socket socket, .room_joined { r with players :=
            r.players ++ [{ id := socket, name := playerName, score := 0 }] }⟩] := by
  simp only [join_room, hroom, hstate, if_true]
  refine ⟨lookup_setRoom _ _ _ _ hroom, fun b hb => List.getElem?_set_ne (Ne.symm hb), ?_⟩
  simp


/-- C3 on a room just created by Alice, which Bob joins. -/
theorem join_room_appends_witness :
    demoLobby.lookup "ROOM1" = some (0, demoLobbyRoom)
    ∧ (join_room demoLobby "s2" "ROOM1" "Bob").1.lookup "ROOM1" =
        some (0, { demoLobbyRoom with
          players := demoLobbyRoom.players ++ [{ id := "s2", name := "Bob", score := 0 }] }) :=
  ⟨demoLobby_lookup,
    (join_room_appends demoLobby "s2" "ROOM1" "Bob" 0 demoLobbyRoom demoLobby_lookup
      (by decide)).1⟩

/-- C4: `join_room` fails, that is, answers the requester with `error`, exactly
when the room does not exist or is not in `LOBBY`; it then leaves the server as
it was and sends nothing but `error` with the code `ROOM_NOT_FOUND_OR_STARTED` to
the requester, whichever the cause. -/
theorem join_room_failure (s : Server) (socket : SocketId) (roomId : RoomId)
    (playerName : String) :
    ((⟨.socket socket, .error "ROOM_NOT_FOUND_OR_STARTED"⟩ : Emit)
        ∈ (join_room s socket roomId playerName).2
      ↔ (s.lookup roomId = none ∨ ∃ a r, s.lookup roomId = some (a, r) ∧ r.state ≠ .LOBBY))
    ∧ ((s.lookup roomId = none ∨ ∃ a r, s.lookup roomId = some (a, r) ∧ r.state ≠ .LOBBY) →
        join_room s socket roomId playerName =
          (s, [⟨.socket socket, .error "ROOM_NOT_FOUND_OR_STARTED"⟩])) := by
  have hfail : (s.lookup roomId = none ∨
      ∃ a r, s.lookup roomId = some (a, r) ∧ r.state ≠ .LOBBY) →
        join_room s socket roomId playerName =
          (s, [⟨.socket socket, .error "ROOM_NOT_FOUND_OR_STARTED"⟩]) := by
    rintro (h | ⟨a, r, h, hs⟩)
    · simp only [join_room, h]
    · simp only [join_room, h, hs, if_false]
  refine ⟨⟨?_, fun h => by rw [hfail h]; simp⟩, hfail⟩
  intro hmem
  cases hl : s.lookup roomId with
  | none => exact Or.inl rfl
  | some ar =>
    obtain ⟨a, r⟩ := ar
    right
    refine ⟨a, r, rfl, ?_⟩
    intro hs
    simp [join_room, hl, hs] at hmem

/-- C4 on a code that no room has. -/
theorem join_room_failure_witness :
    demoLobby.lookup "NOROOM" = none
    ∧ join_room demoLobby "s2" "NOROOM" "Bob" =
        (demoLobby, [⟨.socket "s2", .error "ROOM_NOT_FOUND_OR_STARTED"⟩]) :=
  ⟨by decide, (join_room_failure demoLobby "s2" "NOROOM" "Bob").2 (Or.inl (by decide))⟩

/-- C5: `start_game` on an existing room with a player stores the parsed round
count `n` when `1 ≤ n ≤ 50`, stores `50` when `n > 50`, and keeps the previous
count when the input is not a number or `n ≤ 0`.  On a room just created the
inputs `"abc"` and `-5` give 10 and `75` gives 50, and in every reachable server
every room has a round count in `[1, 50]`. -/
theorem start_game_totalRounds :
    (∀ (s : Server) (roomId : RoomId) (rounds : RoundsInput) (a : Nat) (r : Room),
      Reachable s → s.lookup roomId = some (a, r) → r.players.length > 0 →
      ∃ r', (start_game s roomId rounds).1.lookup roomId = some (a, r')
        ∧ r'.totalRounds =
            (match parseInt rounds with
             | some n => if 1 ≤ n ∧ n ≤ 50 then n.toNat else if n > 50 then 50 else r.totalRounds
             | none => r.totalRounds))
    ∧ (∀ (s : Server) (socket : SocketId) (roomId : RoomId) (playerName : String),
        freshTotalRounds s socket roomId playerName (.str (js "abc")) = some 10
        ∧ freshTotalRounds s socket roomId playerName (.num (-5)) = some 10
        ∧ freshTotalRounds s socket roomId playerName (.num 75) = some 50)
    ∧ (∀ (s : Server), Reachable s →
        ∀ (a : Nat) (r : Room), s.heap[a]? = some r → 1 ≤ r.totalRounds ∧ r.totalRounds ≤ 50) := by
  refine ⟨?_, ?_, fun s hs => reachable_totalRounds hs⟩
  · intro s roomId rounds a r hs hroom hp
    have hrange := reachable_totalRounds hs a r (lookup_heap hroom)
    refine ⟨_, start_game_lookup s roomId rounds a r hroom hp, ?_⟩
    exact normalizeRounds_spec rounds r.totalRounds hrange.1 hrange.2
  · intro s socket roomId playerName
    simp only [freshTotalRounds_eq]
    refine ⟨?_, ?_, ?_⟩ <;> decide

/-- C5 on the room of `demoLobby`: the input `" 7 rounds"` is read as 7. -/
theorem start_game_totalRounds_witness :
    demoLobby.lookup "ROOM1" = some (0, demoLobbyRoom)
    ∧ parseInt (.str (js " 7 rounds")) = some 7
    ∧ ∃ r', (start_game demoLobby "ROOM1" (.str (js " 7 rounds"))).1.lookup "ROOM1" = some (0, r')
        ∧ r'.totalRounds =
            (match parseInt (.str (js " 7 rounds")) with
             | some n =>
               if 1 ≤ n ∧ n ≤ 50 then n.toNat else if n > 50 then 50 else demoLobbyRoom.totalRounds
             | none => demoLobbyRoom.totalRounds) :=
  ⟨demoLobby_lookup, by decide,
    start_game_totalRounds.1 demoLobby "ROOM1" (.str (js " 7 rounds")) 0 demoLobbyRoom
      (reachable_serverAfter _) demoLobby_lookup (by decide)⟩

/-- C6, as the code has it: a room in `ENDED` stays in `ENDED` under every turn
that is not a `start_game`; a `submit_guess` for it changes nothing and sends
nothing; a `join_room` for it changes nothing and sends only the `error` with code
`ROOM_NOT_FOUND_OR_STARTED` to the requester. -/
theorem ended_kept_by_all_but_start_game :
    (∀ (s : Server) (e : Event) (s' : Server) (out : List Emit) (a : Nat) (r : Room),
      s.heap[a]? = some r → r.state = .ENDED → (∀ rid rounds, e ≠ .start_game rid rounds) →
      step s e = some (s', out) → ∃ r', s'.heap[a]? = some r' ∧ r'.state = .ENDED)
    ∧ (∀ (s : Server) (socket : SocketId) (roomId : RoomId) (guess : Option JsString)
        (a : Nat) (r : Room), s.lookup roomId = some (a, r) → r.state = .ENDED →
      submit_guess s socket roomId guess = some (s, []))
    ∧ (∀ (s : Server) (socket : SocketId) (roomId : RoomId) (playerName : String)
        (a : Nat) (r : Room), s.lookup roomId = some (a, r) → r.state = .ENDED →
      join_room s socket roomId playerName =
        (s, [⟨.socket socket, .error "ROOM_NOT_FOUND_OR_STARTED"⟩])) := by
  refine ⟨?_, ?_, ?_⟩
  · intro s e s' out a r hr hst he h
    obtain ⟨r', hr', hch⟩ := step_room h hr
    refine ⟨r', hr', ?_⟩
    cases hch with
    | same => exact hst
    | joined socket roomId playerName hl => exact hst
    | started roomId rounds hp => exact absurd rfl (he roomId rounds)
    | fetched req response songs hreq => exact hst
    | won socket roomId guess song h1 => exact hst
    | ended cb h1 h2 => rfl
    | revealed roomId songs song h1 h2 => exact hst
    | timedOut roomId song h1 => exact hst
  · intro s socket roomId guess a r hroom hst
    simp [submit_guess, hroom, hst]
  · intro s socket roomId playerName a r hroom hst
    simp [join_room, hroom, hst]

/-- C6 on the sample game that has ended: a guess and a join. -/
theorem ended_kept_by_all_but_start_game_witness :
    demoEnded.lookup "ROOM1" = some (0, demoEndedRoom)
    ∧ submit_guess demoEnded "s1" "ROOM1" (some (js "hey jude")) = some (demoEnded, [])
    ∧ join_room demoEnded "s2" "ROOM1" "Bob" =
        (demoEnded, [⟨.socket "s2", .error "ROOM_NOT_FOUND_OR_STARTED"⟩]) :=
  ⟨demoEnded_lookup,
    ended_kept_by_all_but_start_game.2.1 demoEnded "s1" "ROOM1" (some (js "hey jude")) 0
      demoEndedRoom demoEnded_lookup (by decide),
    ended_kept_by_all_but_start_game.2.2 demoEnded "s2" "ROOM1" "Bob" 0 demoEndedRoom
      demoEnded_lookup (by decide)⟩

/-- C6 as stated fails: after a game has ended, `start_game` puts the room back
in `PLAYING`, and `join_room` is answered with an `error` event; and a reveal
that is still scheduled when a game ends runs on the room in `ENDED`, where it
sends `new_round`. -/
theorem ended_not_terminal :
    stateOf demoEnded "ROOM1" = some .ENDED
    ∧ stateOf (start_game demoEnded "ROOM1" .absent).1 "ROOM1" = some .PLAYING
    ∧ (join_room demoEnded "s2" "ROOM1" "Bob").2 ≠ []
    ∧ stateOf (serverAfter lateRevealTrace) "ROOM1" = some .ENDED
    ∧ (step (serverAfter lateRevealTrace) (.timer (.reveal 0 "ROOM1"))).map Prod.snd
        = some [⟨.room "ROOM1", .new_round 2 "preview/2"⟩] := by
  refine ⟨?_, ?_, ?_, ?_, ?_⟩ <;> decide

/-- C7, as the code has it.  The guess-window callback of a track sends
`round_timeout` and makes the round inactive exactly when the round is active and
the current track is that track object; otherwise it changes nothing and sends
nothing.  It sends at most one `round_timeout`, and nothing if it were run again;
a reveal schedules exactly one such callback.  If, between a reveal and its
callback, the room sees no other reveal, no guess-window callback for the same
track object and no guess that `checkAnswer` accepts, the callback is still
scheduled and sends exactly one `round_timeout`. -/
theorem guess_window_timeout :
    (∀ (s : Server) (a : Nat) (roomId : RoomId) (song : Track) (r : Room),
      s.heap[a]? = some r →
      (r.roundActive = true ∧ sameTrack r.currentSong song = true →
        guessWindow s a roomId song =
          some ({ s with heap := s.heap.set a ({ r with roundActive := false }),
                         timers := s.timers ++ [.startRound roomId] },
                [⟨.room roomId, .round_timeout song⟩]))
      ∧ (¬ (r.roundActive = true ∧ sameTrack r.currentSong song = true) →
        guessWindow s a roomId song = some (s, [])))
    ∧ (∀ (s : Server) (a : Nat) (roomId : RoomId) (song : Track) (s1 : Server)
        (out1 : List Emit), guessWindow s a roomId song = some (s1, out1) →
      (out1 = [] ∨ out1 = [⟨.room roomId, .round_timeout song⟩])
        ∧ guessWindow s1 a roomId song = some (s1, []))
    ∧ (∀ (s : Server) (a : Nat) (roomId : RoomId) (s1 : Server) (out1 : List Emit),
      reveal s a roomId = some (s1, out1) →
      ∃ song, s1.timers = s.timers ++ [.guessWindow a roomId song]
        ∧ ∀ (es : List Event) (s2 : Server) (out2 : List Emit),
            (∀ e ∈ es, QuietFor a song e) → run s1 es = some (s2, out2) →
            .guessWindow a roomId song ∈ s2.timers
            ∧ ∃ s3, step s2 (.timer (.guessWindow a roomId song)) =
                some (s3, [⟨.room roomId, .round_timeout song⟩])) := by
  refine ⟨fun s a roomId song r hr =>
      ⟨guessWindow_active s a roomId song r hr, guessWindow_stale s a roomId song r hr⟩,
    guessWindow_once, ?_⟩
  intro s a roomId s1 out1 hrev
  obtain ⟨song, htimers, r1, hr1, hact1, hsong1⟩ := reveal_schedules s a roomId s1 out1 hrev
  refine ⟨song, htimers, ?_⟩
  intro es s2 out2 hes hrun
  have hO : RoundOpen a song (.guessWindow a roomId song) s1 :=
    ⟨⟨r1, hr1, hact1, hsong1⟩, by rw [htimers]; simp⟩
  obtain ⟨⟨r2, hr2, hact2, hsong2⟩, hcb2⟩ :=
    run_invariant (RoundOpen a song (.guessWindow a roomId song)) (QuietFor a song)
      (fun s e s' out hP hok h => roundOpen_step a roomId song s e s' out hP hok h)
      s1 es s2 out2 hO hes hrun
  refine ⟨hcb2, ?_⟩
  have hgw := guessWindow_active { s2 with timers := s2.timers.erase (.guessWindow a roomId song) }
    a roomId song r2 hr2 ⟨hact2, by rw [hsong2]; exact sameTrack_self song⟩
  exact ⟨_, by simp only [step, hcb2, if_true, runCallback]; exact hgw⟩

/-- C7 on the sample game: nobody answers round 1 but for a wrong guess, and the
callback of the first track sends its `round_timeout`. -/
theorem guess_window_timeout_witness :
    reveal { serverAfter demoTrace.dropLast with timers := [] } 0 "ROOM1"
      = some (demoPlaying, [⟨.room "ROOM1", .new_round 1 "preview/1"⟩])
    ∧ ∃ song, demoPlaying.timers = [] ++ [.guessWindow 0 "ROOM1" song]
        ∧ ∀ (es : List Event) (s2 : Server) (out2 : List Emit),
            (∀ e ∈ es, QuietFor 0 song e) → run demoPlaying es = some (s2, out2) →
            .guessWindow 0 "ROOM1" song ∈ s2.timers
            ∧ ∃ s3, step s2 (.timer (.guessWindow 0 "ROOM1" song)) =
                some (s3, [⟨.room "ROOM1", .round_timeout song⟩]) :=
  ⟨by decide,
    guess_window_timeout.2.2 { serverAfter demoTrace.dropLast with timers := [] } 0 "ROOM1"
      demoPlaying [⟨.room "ROOM1", .new_round 1 "preview/1"⟩] (by decide)⟩

/-- C7 as stated fails: after two `start_game` messages in a row the room runs
two rounds at once.  The track `raceSong` is revealed and its callback scheduled,
no guess is ever sent, the second reveal replaces the current track, and the
callback of `raceSong` then runs without sending `round_timeout`. -/
theorem timeout_missed_after_double_start :
    (∀ e ∈ raceTrace, Event.isGuess e = false)
    ∧ step (serverAfter (raceTrace.take 7)) (.timer (.reveal 0 "ROOM1"))
        = some (serverAfter (raceTrace.take 8), [⟨.room "ROOM1", .new_round 1 "preview/1"⟩])
    ∧ (serverAfter (raceTrace.take 8)).timers
        = [.reveal 0 "ROOM1", .guessWindow 0 "ROOM1" raceSong]
    ∧ Callback.guessWindow 0 "ROOM1" raceSong ∈ (serverAfter raceTrace).timers
    ∧ step (serverAfter raceTrace) (.timer (.guessWindow 0 "ROOM1" raceSong))
        = some ({ serverAfter raceTrace with
                    timers := (serverAfter raceTrace).timers.erase
                      (.guessWindow 0 "ROOM1" raceSong) }, []) := by
  refine ⟨?_, ?_, ?_, ?_, ?_⟩ <;> decide

/-- C8: a `submit_guess` for a room that does not exist, whose round is not
active or that is not in `PLAYING` changes nothing and sends nothing; a guess
that `checkAnswer` rejects in an active round changes nothing and sends only
`wrong_guess`, to the guesser. -/
theorem submit_guess_rejected :
    (∀ (s : Server) (socket : SocketId) (roomId : RoomId) (guess : Option JsString),
      (s.lookup roomId = none ∨
        ∃ a r, s.lookup roomId = some (a, r) ∧ (r.roundActive = false ∨ r.state ≠ .PLAYING)) →
      submit_guess s socket roomId guess = some (s, []))
    ∧ (∀ (s : Server) (socket : SocketId) (roomId : RoomId) (guess : Option JsString)
        (a : Nat) (r : Room) (song : Track),
      s.lookup roomId = some (a, r) → r.roundActive = true → r.state = .PLAYING →
      r.currentSong = some song → checkAnswer guess song.title = false →
      submit_guess s socket roomId guess = some (s, [⟨.socket socket, .wrong_guess⟩])) := by
  constructor
  · rintro s socket roomId guess (h | ⟨a, r, h, hr | hr⟩)
    · simp only [submit_guess, h]
    · simp [submit_guess, h, hr]
    · simp [submit_guess, h, hr]
  · intro s socket roomId guess a r song h hact hst hsong hno
    simp [submit_guess, h, hact, hst, hsong, hno]

/-- C8 on the sample game: a guess before the game starts, and a wrong guess in
round 1. -/
theorem submit_guess_rejected_witness :
    submit_guess demoLobby "s1" "ROOM1" (some (js "hey jude")) = some (demoLobby, [])
    ∧ checkAnswer (some (js "yesterday")) demoSong.title = false
    ∧ submit_guess demoPlaying "s2" "ROOM1" (some (js "yesterday")) =
        some (demoPlaying, [⟨.socket "s2", .wrong_guess⟩]) :=
  ⟨submit_guess_rejected.1 demoLobby "s1" "ROOM1" (some (js "hey jude"))
      (Or.inr ⟨0, demoLobbyRoom, demoLobby_lookup, Or.inl (by decide)⟩),
    by decide,
    submit_guess_rejected.2 demoPlaying "s2" "ROOM1" (some (js "yesterday")) 0 demoRoom demoSong
      demoPlaying_lookup (by decide) (by decide) (by decide) (by decide)⟩

/-! ## Further claims on `checkAnswer` -/

theorem lev_eq_levenshtein (xs ys : List Nat) :
    lev xs ys = levenshtein Levenshtein.defaultCost xs ys := by
  induction xs generalizing ys with
  | nil =>
    induction ys with
    | nil => simp [lev_nil_left]
    | cons y ys ih =>
      rw [lev_nil_left] at ih ⊢
      rw [levenshtein_nil_cons, ← ih]
      simp [Levenshtein.defaultCost]
      omega
  | cons x xs ihx =>
    induction ys with
    | nil =>
      have h := ihx []
      rw [lev_nil_right] at h ⊢
      rw [levenshtein_cons_nil, ← h]
      simp [Levenshtein.defaultCost]
      omega
    | cons y ys ihy =>
      rw [lev_cons_cons, levenshtein_cons_cons, ← ihx (y :: ys), ← ihy, ← ihx ys]
      simp only [Levenshtein.defaultCost]
      omega

theorem lev_delete_le (x : Nat) (xs ys : List Nat) : lev (x :: xs) ys ≤ lev xs ys + 1 := by
  cases ys with
  | nil => simp [lev_nil_right]
  | cons y ys => rw [lev_cons_cons]; exact min_le_left _ _

theorem lev_insert_le (y : Nat) (xs ys : List Nat) : lev xs (y :: ys) ≤ lev xs ys + 1 := by
  cases xs with
  | nil => simp [lev_nil_left]
  | cons x xs =>
    rw [lev_cons_cons]
    exact le_trans (min_le_right _ _) (min_le_left _ _)

theorem lev_substitute_le (x y : Nat) (xs ys : List Nat) :
    lev (x :: xs) (y :: ys) ≤ lev xs ys + if x = y then 0 else 1 := by
  rw [lev_cons_cons]
  exact le_trans (min_le_right _ _) (min_le_right _ _)

/-- No alignment uses fewer edits than the recursive distance. -/
theorem lev_le_of_editScript {xs ys : List Nat} {n : Nat} (h : EditScript xs ys n) :
    lev xs ys ≤ n := by
  induction h with
  | done => simp [lev_nil_left]
  | @keep x xs ys n _ ih =>
    have := lev_substitute_le x x xs ys
    simp only [if_true] at this
    omega
  | @substitute x y xs ys n _ ih =>
    have := lev_substitute_le x y xs ys
    split_ifs at this <;> omega
  | @delete x xs ys n _ ih =>
    have := lev_delete_le x xs ys
    omega
  | @insert y xs ys n _ ih =>
    have := lev_insert_le y xs ys
    omega

theorem editScript_inserts (ys : List Nat) : EditScript [] ys ys.length := by
  induction ys with
  | nil => exact EditScript.done
  | cons y ys ih => exact EditScript.insert y ih

theorem editScript_deletes (xs : List Nat) : EditScript xs [] xs.length := by
  induction xs with
  | nil => exact EditScript.done
  | cons x xs ih => exact EditScript.delete x ih

/-- Some alignment uses exactly as many edits as the recursive distance. -/
theorem editScript_lev (xs ys : List Nat) : EditScript xs ys (lev xs ys) := by
  induction xs generalizing ys with
  | nil => rw [lev_nil_left]; exact editScript_inserts ys
  | cons x xs ihx =>
    induction ys with
    | nil => rw [lev_nil_right]; exact editScript_deletes (x :: xs)
    | cons y ys ihy =>
      rw [lev_cons_cons]
      rcases min_choice (lev xs (y :: ys) + 1)
          (min (lev (x :: xs) ys + 1) (lev xs ys + if x = y then 0 else 1)) with h | h
      · rw [h]; exact EditScript.delete x (ihx (y :: ys))
      · rw [h]
        rcases min_choice (lev (x :: xs) ys + 1) (lev xs ys + if x = y then 0 else 1) with h' | h'
        · rw [h']; exact EditScript.insert y ihy
        · rw [h']
          by_cases hxy : x = y
          · subst hxy
            simp only [if_true, Nat.add_zero]
            exact EditScript.keep x (ihx ys)
          · simp only [hxy, if_false]
            exact EditScript.substitute x y (ihx ys)

theorem lev_le_max (xs ys : List Nat) : lev xs ys ≤ max xs.length ys.length := by
  induction xs generalizing ys with
  | nil => simp [lev_nil_left]
  | cons x xs ih =>
    cases ys with
    | nil => simp [lev_nil_right]
    | cons y ys =>
      have h1 := lev_substitute_le x y xs ys
      have h2 := ih ys
      have h3 : (if x = y then 0 else 1) ≤ 1 := by split_ifs <;> omega
      simp only [List.length_cons]
      omega

theorem lev_eq_zero_iff (xs ys : List Nat) : lev xs ys = 0 ↔ xs = ys := by
  induction xs generalizing ys with
  | nil =>
    rw [lev_nil_left]
    constructor
    · intro h; exact (List.length_eq_zero.1 h).symm
    · intro h; rw [← h]; rfl
  | cons x xs ih =>
    cases ys with
    | nil => simp [lev_nil_right]
    | cons y ys =>
      rw [lev_cons_cons]
      constructor
      · intro h
        have h3 : lev xs ys + (if x = y then 0 else 1) = 0 := by omega
        by_cases hxy : x = y
        · simp only [hxy, if_true, Nat.add_zero] at h3
          rw [hxy, (ih ys).1 h3]
        · simp [hxy] at h3
      · intro h
        simp only [List.cons.injEq] at h
        have h0 := (ih ys).2 h.2
        simp [h.1, h0]

theorem similarity_of_ne_nil (s1 s2 : JsString) (h1 : s1 ≠ []) (h2 : s2 ≠ []) :
    similarity s1 s2 = 1 - (lev s1 s2 : ℚ) / (max s1.length s2.length : ℚ) := by
  have h0 : ¬ (s1.length = 0 ∨ s2.length = 0) := by
    simp [List.length_eq_zero, h1, h2]
  unfold similarity
  rw [if_neg h0, editDistance_eq_lev]

theorem similarity_range (s1 s2 : JsString) (h1 : s1 ≠ []) (h2 : s2 ≠ []) :
    0 ≤ similarity s1 s2 ∧ similarity s1 s2 ≤ 1 ∧ (similarity s1 s2 = 1 ↔ s1 = s2) := by
  rw [similarity_of_ne_nil s1 s2 h1 h2]
  have hpos : 0 < s1.length := List.length_pos.2 h1
  have hm : 0 < max s1.length s2.length := lt_of_lt_of_le hpos (le_max_left _ _)
  have hm' : (0 : ℚ) < ((max s1.length s2.length : ℕ) : ℚ) := by exact_mod_cast hm
  have hcast : ((max s1.length s2.length : ℕ) : ℚ) = max (s1.length : ℚ) (s2.length : ℚ) := by
    push_cast
    rfl
  rw [← hcast]
  have hle : (lev s1 s2 : ℚ) ≤ ((max s1.length s2.length : ℕ) : ℚ) := by
    exact_mod_cast lev_le_max s1 s2
  have hd0 : (0 : ℚ) ≤ (lev s1 s2 : ℚ) := by exact_mod_cast Nat.zero_le _
  have hq0 : 0 ≤ (lev s1 s2 : ℚ) / ((max s1.length s2.length : ℕ) : ℚ) :=
    div_nonneg hd0 (le_of_lt hm')
  have hq1 : (lev s1 s2 : ℚ) / ((max s1.length s2.length : ℕ) : ℚ) ≤ 1 := by
    rw [div_le_one hm']; exact hle
  refine ⟨by linarith, by linarith, ?_⟩
  rw [← lev_eq_zero_iff]
  constructor
  · intro h
    have hz : (lev s1 s2 : ℚ) / ((max s1.length s2.length : ℕ) : ℚ) = 0 := by linarith
    rcases div_eq_zero_iff.1 hz with h' | h'
    · exact_mod_cast h'
    · exact absurd h' (ne_of_gt hm')
  · intro h
    rw [h]
    simp

/-- C18: for non-empty strings the entry `dp[len1][len2]` of the table of
`similarity` is the Levenshtein distance: it equals the standard recursive
definition, some alignment of `s1` with `s2` uses that many insertions,
deletions and substitutions and none uses fewer; it is at most
`max(len1, len2)`, and the similarity `1 - dist / max(len1, len2)` lies in
`[0, 1]` and is `1` exactly when the strings are equal. -/
theorem editDistance_is_levenshtein (s1 s2 : JsString) (h1 : s1 ≠ []) (h2 : s2 ≠ []) :
    editDistance s1 s2 = lev s1 s2
    ∧ editDistance s1 s2 = levenshtein Levenshtein.defaultCost s1 s2
    ∧ EditScript s1 s2 (editDistance s1 s2)
    ∧ (∀ n, EditScript s1 s2 n → editDistance s1 s2 ≤ n)
    ∧ editDistance s1 s2 ≤ max s1.length s2.length
    ∧ similarity s1 s2 = 1 - (editDistance s1 s2 : ℚ) / (max s1.length s2.length : ℚ)
    ∧ 0 ≤ similarity s1 s2 ∧ similarity s1 s2 ≤ 1
    ∧ (similarity s1 s2 = 1 ↔ s1 = s2) := by
  have hr := similarity_range s1 s2 h1 h2
  have hs := similarity_of_ne_nil s1 s2 h1 h2
  rw [editDistance_eq_lev]
  exact ⟨rfl, lev_eq_levenshtein s1 s2, editScript_lev s1 s2,
    fun n hn => lev_le_of_editScript hn, lev_le_max s1 s2, hs, hr.1, hr.2.1, hr.2.2⟩

/-- C18 on `kitten` and `sitting`: the distance is 3. -/
theorem editDistance_is_levenshtein_witness :
    js "kitten" ≠ [] ∧ js "sitting" ≠ []
    ∧ editDistance (js "kitten") (js "sitting") = 3
    ∧ lev (js "kitten") (js "sitting") = 3
    ∧ EditScript (js "kitten") (js "sitting") 3
    ∧ ∀ n, EditScript (js "kitten") (js "sitting") n → 3 ≤ n :=
  have h := editDistance_is_levenshtein (js "kitten") (js "sitting") (by decide) (by decide)
  have h3 : editDistance (js "kitten") (js "sitting") = 3 := by decide
  ⟨by decide, by decide, h3, by rw [← h.1, h3], by rw [← h3]; exact h.2.2.1,
    fun n hn => by rw [← h3]; exact h.2.2.2.1 n hn⟩

theorem halfOverlapRule_iff (g a : JsString) :
    halfOverlapRule g a ↔
      (setFrom (split 32 a)).length ≤
        2 * ((setFrom (split 32 a)).filter (fun w => (split 32 g).contains w)).length := by
  rw [length_common, length_setFrom]
  unfold halfOverlapRule
  constructor
  · intro h
    have h' : (((split 32 a).toFinset.card : ℕ) : ℚ) ≤
        2 * ((((split 32 a).toFinset.filter (fun w => w ∈ split 32 g)).card : ℕ) : ℚ) := by
      linarith
    exact_mod_cast h'
  · intro h
    have h' : (((split 32 a).toFinset.card : ℕ) : ℚ) ≤
        2 * ((((split 32 a).toFinset.filter (fun w => w ∈ split 32 g)).card : ℕ) : ℚ) := by
      exact_mod_cast h
    linarith

theorem heyThere_half : halfOverlapRule (clean (js "hey there")) (clean (js "hey jude")) := by
  rw [halfOverlapRule_iff]; decide

theorem heyThere_below_threshold :
    ¬ overlapRule (clean (js "hey there")) (clean (js "hey jude")) := by
  rw [overlapRule_iff]; decide

theorem heyThere_rejected :
    checkAnswer (some (js "hey there")) (some (js "hey jude")) = false := by decide

/-- C15 does not hold of the code: `hey there` holds one of the two words of `hey jude`,
which is half of them, and both normalised strings are non-empty, but
`checkAnswer` rejects the guess (the code tests the ratio against `0.6`). -/
theorem half_overlap_rejected :
    clean (js "hey there") ≠ [] ∧ clean (js "hey jude") ≠ []
    ∧ halfOverlapRule (clean (js "hey there")) (clean (js "hey jude"))
    ∧ ¬ overlapRule (clean (js "hey there")) (clean (js "hey jude"))
    ∧ checkAnswer (some (js "hey there")) (some (js "hey jude")) = false :=
  ⟨by decide, by decide, heyThere_half, heyThere_below_threshold, heyThere_rejected⟩

theorem checkAnswer_self (t : JsString) : checkAnswer (some t) (some t) = true ↔ clean t ≠ [] := by
  constructor
  · intro h hc
    rw [checkAnswer_clean_empty t t (Or.inl hc)] at h
    exact absurd h (by simp)
  · intro hc
    rw [checkAnswer_rules_of_clean t t hc hc]
    exact Or.inl rfl

theorem checkAnswer_title_empty (t : JsString) (g : Option JsString) (h : clean t = []) :
    checkAnswer g (some t) = false := by
  cases g with
  | none => rfl
  | some guess => exact checkAnswer_clean_empty guess t (Or.inr h)

theorem unguessable_round_step (s : Server) (e : Event) (s' : Server) (out : List Emit)
    (a : Nat) (r r' : Room) (song : Track)
    (hr : s.heap[a]? = some r) (hact : r.roundActive = true) (hsong : r.currentSong = some song)
    (hno : ∀ g, checkAnswer g song.title = false)
    (h : step s e = some (s', out)) (hr' : s'.heap[a]? = some r')
    (hend : r'.roundActive = false) :
    ∃ rid sg, e = .timer (.guessWindow a rid sg) := by
  obtain ⟨r2, hr2, hch⟩ := step_room h hr
  rw [hr'] at hr2
  simp only [Option.some.injEq] at hr2
  subst hr2
  cases hch with
  | same => rw [hact] at hend; exact absurd hend (by simp)
  | joined socket roomId playerName hl =>
    simp only at hend; rw [hact] at hend; exact absurd hend (by simp)
  | started roomId rounds hp =>
    simp only at hend; rw [hact] at hend; exact absurd hend (by simp)
  | fetched req response songs hreq =>
    simp only at hend; rw [hact] at hend; exact absurd hend (by simp)
  | won socket roomId guess song' h1 h2 h3 h4 =>
    rw [hsong] at h3
    simp only [Option.some.injEq] at h3
    rw [← h3, hno guess] at h4
    exact absurd h4 (by simp)
  | ended cb h1 h2 =>
    simp only at hend; rw [hact] at hend; exact absurd hend (by simp)
  | revealed roomId songs song' h1 h2 => simp at hend
  | timedOut roomId song' h1 h2 => exact ⟨roomId, song', rfl⟩

/-- C19: typing a title verbatim is accepted exactly when the title does not
normalise to the empty string.  A title that does (a parenthesised segment,
punctuation, characters outside `[A-Za-z0-9_]`) is matched by no guess: in a
round on such a track every `submit_guess` is answered `wrong_guess` and changes
nothing, and only the guess-window callback can make the round inactive. -/
theorem verbatim_title_accepted_iff :
    (∀ t : JsString, checkAnswer (some t) (some t) = true ↔ clean t ≠ [])
    ∧ (∀ (t : JsString) (g : Option JsString), clean t = [] → checkAnswer g (some t) = false)
    ∧ (clean (js "(Remix)") = [] ∧ clean (js "?!...") = [] ∧ clean (js "愛のうた") = [])
    ∧ (∀ (s : Server) (socket : SocketId) (roomId : RoomId) (guess : Option JsString)
        (a : Nat) (r : Room) (song : Track) (t : JsString),
      s.lookup roomId = some (a, r) → r.state = .PLAYING → r.roundActive = true →
      r.currentSong = some song → song.title = some t → clean t = [] →
      submit_guess s socket roomId guess = some (s, [⟨.socket socket, .wrong_guess⟩]))
    ∧ (∀ (s : Server) (e : Event) (s' : Server) (out : List Emit) (a : Nat) (r r' : Room)
        (song : Track) (t : JsString),
      s.heap[a]? = some r → r.roundActive = true → r.currentSong = some song →
      song.title = some t → clean t = [] →
      step s e = some (s', out) → s'.heap[a]? = some r' → r'.roundActive = false →
      ∃ rid sg, e = .timer (.guessWindow a rid sg)) := by
  refine ⟨checkAnswer_self, checkAnswer_title_empty, ⟨by decide, by decide, by decide⟩, ?_, ?_⟩
  · intro s socket roomId guess a r song t hroom hst hact hsong ht hc
    have hno : checkAnswer guess song.title = false := by
      rw [ht]; exact checkAnswer_title_empty t guess hc
    simp [submit_guess, hroom, hst, hact, hsong, hno]
  · intro s e s' out a r r' song t hr hact hsong ht hc h hr' hend
    exact unguessable_round_step s e s' out a r r' song hr hact hsong
      (fun g => by rw [ht]; exact checkAnswer_title_empty t g hc) h hr' hend

/-- C19 on the titles `Hey Jude` and `(Remix)`. -/
theorem verbatim_title_accepted_iff_witness :
    clean (js "Hey Jude") ≠ []
    ∧ checkAnswer (some (js "Hey Jude")) (some (js "Hey Jude")) = true
    ∧ clean (js "(Remix)") = []
    ∧ checkAnswer (some (js "(Remix)")) (some (js "(Remix)")) = false :=
  ⟨by decide, (verbatim_title_accepted_iff.1 (js "Hey Jude")).2 (by decide), by decide,
    verbatim_title_accepted_iff.2.1 (js "(Remix)") (some (js "(Remix)")) (by decide)⟩

/-! ## Provider failures and the length of the song list -/

theorem roomChange_not_lobby {a : Nat} {r r' : Room} {e : Event} (h : RoomChange a r e r')
    (hst : r.state ≠ .LOBBY) : r'.state ≠ .LOBBY := by
  cases h <;> first | exact hst | (intro h'; cases h')

/-- C11, as the code has it: for a room in `LOBBY` with a player, `start_game` puts the room in
`PLAYING` and sends the track request without emitting or scheduling anything.
If the provider call errors, `getRandomSongs` returns the empty list and the
room is in `PLAYING` after the answer; if the awaited request threw, the `catch`
block would emit nothing and schedule nothing, with the room in `PLAYING`.  No
later run of events puts the room object back in `LOBBY`. -/
theorem start_game_failure_leaves_playing (s : Server) (roomId : RoomId)
    (rounds : RoundsInput) (a : Nat) (r : Room) (hroom : s.lookup roomId = some (a, r))
    (_hst : r.state = .LOBBY) (hp : r.players.length > 0) :
    (start_game s roomId rounds).2 = []
    ∧ (start_game s roomId rounds).1.requests =
        s.requests ++ [⟨a, roomId, normalizeRounds rounds r.totalRounds⟩]
    ∧ (start_game s roomId rounds).1.timers = s.timers
    ∧ stateOf (start_game s roomId rounds).1 roomId = some .PLAYING
    ∧ getRandomSongs none (normalizeRounds rounds r.totalRounds) = []
    ∧ (∃ s2 out, step (start_game s roomId rounds).1
          (.reply ⟨a, roomId, normalizeRounds rounds r.totalRounds⟩ none) = some (s2, out)
        ∧ stateOf s2 roomId = some .PLAYING)
    ∧ (songsRejected (start_game s roomId rounds).1
          ⟨a, roomId, normalizeRounds rounds r.totalRounds⟩).2 = []
    ∧ (songsRejected (start_game s roomId rounds).1
          ⟨a, roomId, normalizeRounds rounds r.totalRounds⟩).1.timers = s.timers
    ∧ stateOf (songsRejected (start_game s roomId rounds).1
          ⟨a, roomId, normalizeRounds rounds r.totalRounds⟩).1 roomId = some .PLAYING
    ∧ (∀ es s2 out, run (start_game s roomId rounds).1 es = some (s2, out) →
        ∃ r2, s2.heap[a]? = some r2 ∧ r2.state ≠ .LOBBY) := by
  have hl := start_game_lookup s roomId rounds a r hroom hp
  have hsg : start_game s roomId rounds =
      ({ s with heap := s.heap.set a ({ r with
                  totalRounds := normalizeRounds rounds r.totalRounds,
                  state := .PLAYING, currentRound := 0 }),
                requests := s.requests ++
                  [⟨a, roomId, normalizeRounds rounds r.totalRounds⟩] }, []) := by
    simp only [start_game, hroom, hp, if_true]
  have hstate : stateOf (start_game s roomId rounds).1 roomId = some .PLAYING := by
    simp only [stateOf, hl, Option.map_some']
  refine ⟨by rw [hsg], by rw [hsg], by rw [hsg], hstate, rfl, ?_, rfl, by rw [hsg]; rfl, ?_, ?_⟩
  · have hmem : (⟨a, roomId, normalizeRounds rounds r.totalRounds⟩ : Request)
        ∈ (start_game s roomId rounds).1.requests := by rw [hsg]; simp
    have hheap := lookup_heap hl
    simp only [step, if_pos hmem, songsFetched, hheap]
    refine ⟨_, _, rfl, ?_⟩
    have hlt : a < (start_game s roomId rounds).1.heap.length :=
      (List.getElem?_eq_some.1 hheap).1
    simp only [stateOf, Server.lookup, lookup_rooms hl, List.getElem?_set_self hlt,
      Option.map_some']
  · simp only [stateOf, songsRejected, Server.lookup, lookup_rooms hl, lookup_heap hl,
      Option.map_some']
  · intro es s2 out hrun
    refine run_invariant (fun t => ∃ r2, t.heap[a]? = some r2 ∧ r2.state ≠ .LOBBY)
      (fun _ => True) ?_ _ es s2 out ⟨_, lookup_heap hl, by simp⟩ (fun _ _ => trivial) hrun
    intro t e t' out' ⟨r2, hr2, hne⟩ _ hstep
    obtain ⟨r3, hr3, hch⟩ := step_room hstep hr2
    exact ⟨r3, hr3, roomChange_not_lobby hch hne⟩

/-- C11 on the room that Alice created, with a request for one round. -/
theorem start_game_failure_leaves_playing_witness :
    stateOf demoLobby "ROOM1" = some .LOBBY
    ∧ stateOf (start_game demoLobby "ROOM1" (.num 1)).1 "ROOM1" = some .PLAYING
    ∧ (songsRejected (start_game demoLobby "ROOM1" (.num 1)).1 ⟨0, "ROOM1", 1⟩).1.timers = []
    ∧ stateOf (songsRejected (start_game demoLobby "ROOM1" (.num 1)).1 ⟨0, "ROOM1", 1⟩).1
        "ROOM1" = some .PLAYING :=
  have h := start_game_failure_leaves_playing demoLobby "ROOM1" (.num 1) 0 demoLobbyRoom
    demoLobby_lookup rfl (by decide)
  ⟨by decide, h.2.2.2.1, h.2.2.2.2.2.2.2.1, h.2.2.2.2.2.2.2.2.1⟩

/-- C11 as stated fails: the room of Alice is in `LOBBY`; after `start_game`
and a failed track request the room is in `PLAYING`, `game_started` has been
emitted and the first round is scheduled. -/
theorem provider_failure_starts_game :
    stateOf demoLobby "ROOM1" = some .LOBBY
    ∧ (run demoLobby [.start_game "ROOM1" (.num 1), .reply ⟨0, "ROOM1", 1⟩ none]).map
        (fun p => (stateOf p.1 "ROOM1", p.1.timers, p.2)) =
      some (some .PLAYING, [.startRound "ROOM1"], [⟨.room "ROOM1", .game_started 1⟩]) := by
  decide

/-- C12 does not hold of the code: after two `start_game` messages in a row, for two
rounds and then for one, two round chains run, and the run of `overrunTrace`
from start-up reaches a room in `PLAYING` with `currentRound = 2` and
`totalRounds = 1`. -/
theorem currentRound_exceeds_totalRounds :
    Reachable (serverAfter overrunTrace)
    ∧ (run Server.init overrunTrace).isSome = true
    ∧ (roomOf (serverAfter overrunTrace) "ROOM1").map
        (fun r => (r.state, r.currentRound, r.totalRounds)) = some (.PLAYING, 2, 1) :=
  ⟨reachable_serverAfter overrunTrace, by decide, by decide⟩

/-- C17 does not hold of the code: when the track request fails the stored list is empty
for a game of one round, and the reveal scheduled by the first round throws;
when the provider has one track for a game of two rounds the stored list has
length one, and the reveal of round 2 throws. -/
theorem reveal_reads_missing_track :
    (run Server.init failedRequestTrace).isSome = true
    ∧ (roomOf (serverAfter failedRequestTrace) "ROOM1").map
        (fun r => (r.songs.map List.length, r.totalRounds, r.currentRound)) = some (some 0, 1, 0)
    ∧ .reveal 0 "ROOM1" ∈ (serverAfter failedRequestTrace).timers
    ∧ step (serverAfter failedRequestTrace) (.timer (.reveal 0 "ROOM1")) = none
    ∧ (run Server.init shortListTrace).isSome = true
    ∧ (roomOf (serverAfter shortListTrace) "ROOM1").map
        (fun r => (r.songs.map List.length, r.totalRounds, r.currentRound)) = some (some 1, 2, 1)
    ∧ .reveal 0 "ROOM1" ∈ (serverAfter shortListTrace).timers
    ∧ step (serverAfter shortListTrace) (.timer (.reveal 0 "ROOM1")) = none := by
  refine ⟨by decide, by decide, by decide, by decide, by decide, by decide, by decide, by decide⟩

/-! ## The turns of the event loop, branch by branch -/

theorem lookup_erase_timers (s : Server) (t : List Callback) (roomId : RoomId) :
    ({ s with timers := t } : Server).lookup roomId = s.lookup roomId := rfl

theorem endGame_turn (s : Server) (cb : Callback) (roomId : RoomId) (s' : Server)
    (out : List Emit)
    (h : endGame { s with timers := s.timers.erase cb } roomId = (s', out)) :
    (∃ a r, s.lookup roomId = some (a, r)
        ∧ s' = { s with heap := s.heap.set a ({ r with state := .ENDED }),
                        timers := s.timers.erase cb }
        ∧ out = [⟨.room roomId, .game_over r.players⟩])
      ∨ (s.lookup roomId = none ∧ s' = { s with timers := s.timers.erase cb } ∧ out = []) := by
  unfold endGame at h
  rw [lookup_erase_timers] at h
  cases hl : s.lookup roomId with
  | none =>
    rw [hl] at h
    simp only [Prod.mk.injEq] at h
    exact Or.inr ⟨rfl, h.1.symm, h.2.symm⟩
  | some ar =>
    obtain ⟨a, r⟩ := ar
    rw [hl] at h
    simp only [Prod.mk.injEq] at h
    exact Or.inl ⟨a, r, rfl, h.1.symm, h.2.symm⟩

theorem startRound_turn (s : Server) (cb : Callback) (roomId : RoomId) (s' : Server)
    (out : List Emit) (hmem : cb ∈ s.timers)
    (hcb : cb = .startRound roomId ∨
      ∃ b rb, cb = .afterWin b roomId ∧ s.heap[b]? = some rb
        ∧ rb.currentRound < rb.totalRounds)
    (h : startRound { s with timers := s.timers.erase cb } roomId = some (s', out)) :
    Turn s (.timer cb) s' out := by
  unfold startRound at h
  rw [lookup_erase_timers] at h
  cases hl : s.lookup roomId with
  | none =>
    rw [hl] at h
    exact absurd h (by simp)
  | some ar =>
    obtain ⟨a, r⟩ := ar
    rw [hl] at h
    simp only at h
    split_ifs at h with hge
    · simp only [Option.some.injEq] at h
      rcases endGame_turn s cb roomId s' out h with ⟨a', r', hl', hs, ho⟩ | ⟨hl', _, _⟩
      · rw [hl] at hl'
        simp only [Option.some.injEq, Prod.mk.injEq] at hl'
        obtain ⟨ha, hr⟩ := hl'
        subst ha hr hs ho
        exact Turn.exhausted cb roomId a r hmem hcb hl hge
      · rw [hl] at hl'
        exact absurd hl' (by simp)
    · simp only [Option.some.injEq, Prod.mk.injEq] at h
      obtain ⟨hs, ho⟩ := h
      subst hs ho
      exact Turn.countdown cb roomId a r hmem hcb hl (by omega)

/-- Every turn of `step` is one of the branches of `Turn`. -/
theorem step_turn {s s' : Server} {e : Event} {out : List Emit}
    (h : step s e = some (s', out)) : Turn s e s' out := by
  cases e with
  | create_room socket roomId playerName =>
    simp only [step, create_room, Option.some.injEq, Prod.mk.injEq] at h
    obtain ⟨hs, ho⟩ := h
    subst hs ho
    exact Turn.created socket roomId playerName
  | join_room socket roomId playerName =>
    simp only [step, Option.some.injEq] at h
    cases hl : s.lookup roomId with
    | none =>
      simp only [join_room, hl, Prod.mk.injEq] at h
      obtain ⟨hs, ho⟩ := h
      subst hs ho
      exact Turn.refused socket roomId playerName (fun a r h' => by rw [hl] at h'; simp at h')
    | some ar =>
      obtain ⟨a, r⟩ := ar
      by_cases hst : r.state = .LOBBY
      · simp only [join_room, hl, hst, if_true, Prod.mk.injEq] at h
        obtain ⟨hs, ho⟩ := h
        subst hs ho
        simpa only [hst] using Turn.joined socket roomId playerName a r hl hst
      · simp only [join_room, hl, hst, if_false, Prod.mk.injEq] at h
        obtain ⟨hs, ho⟩ := h
        subst hs ho
        refine Turn.refused socket roomId playerName (fun a' r' h' => ?_)
        rw [hl] at h'
        simp only [Option.some.injEq, Prod.mk.injEq] at h'
        rw [← h'.2]; exact hst
  | start_game roomId rounds =>
    simp only [step, Option.some.injEq] at h
    cases hl : s.lookup roomId with
    | none =>
      simp only [start_game, hl, Prod.mk.injEq] at h
      obtain ⟨hs, ho⟩ := h
      subst hs ho
      exact Turn.idle _
    | some ar =>
      obtain ⟨a, r⟩ := ar
      by_cases hp : r.players.length > 0
      · simp only [start_game, hl, hp, if_true, Prod.mk.injEq] at h
        obtain ⟨hs, ho⟩ := h
        subst hs ho
        exact Turn.started roomId rounds a r hl hp
      · simp only [start_game, hl, hp, if_false, Prod.mk.injEq] at h
        obtain ⟨hs, ho⟩ := h
        subst hs ho
        exact Turn.idle _
  | submit_guess socket roomId guess =>
    simp only [step, submit_guess] at h
    cases hl : s.lookup roomId with
    | none =>
      simp only [hl, Option.some.injEq, Prod.mk.injEq] at h
      obtain ⟨hs, ho⟩ := h
      subst hs ho
      exact Turn.idle _
    | some ar =>
      obtain ⟨a, r⟩ := ar
      simp only [hl] at h
      split_ifs at h with hact
      · simp only [Option.some.injEq, Prod.mk.injEq] at h
        obtain ⟨hs, ho⟩ := h
        subst hs ho
        exact Turn.idle _
      · simp only [Bool.or_eq_true, Bool.not_eq_true', decide_eq_true_eq, not_or,
          Bool.not_eq_false, ne_eq, Decidable.not_not] at hact
        cases hsong : r.currentSong with
        | none =>
          simp only [hsong] at h
          exact absurd h (by simp)
        | some song =>
          simp only [hsong] at h
          by_cases hok : checkAnswer guess song.title = true
          · simp only [hok, if_true] at h
            cases hp : r.players.find? (fun p => p.id == socket) with
            | none =>
              simp only [hp, Option.some.injEq, Prod.mk.injEq] at h
              obtain ⟨hs, ho⟩ := h
              subst hs ho
              simpa only [hsong] using
                Turn.wonByStranger socket roomId guess a r song hl hact.1 hact.2 hsong hok hp
            | some player =>
              simp only [hp, Option.some.injEq, Prod.mk.injEq] at h
              obtain ⟨hs, ho⟩ := h
              subst hs ho
              simpa only [hsong] using
                Turn.won socket roomId guess a r song player hl hact.1 hact.2 hsong hok hp
          · simp only [hok, if_false, Option.some.injEq, Prod.mk.injEq, Bool.false_eq_true] at h
            obtain ⟨hs, ho⟩ := h
            subst hs ho
            exact Turn.wrong socket roomId guess a r song hl hact.1 hact.2 hsong
              (by simpa using hok)
  | timer cb =>
    simp only [step] at h
    split_ifs at h with hmem
    · cases cb with
      | startRound roomId =>
        simp only [runCallback] at h
        exact startRound_turn s _ roomId s' out hmem (Or.inl rfl) h
      | afterWin b roomId =>
        simp only [runCallback, afterWin] at h
        cases hb : s.heap[b]? with
        | none =>
          simp only [hb] at h
          exact absurd h (by simp)
        | some rb =>
          simp only [hb] at h
          split_ifs at h with hlt
          · exact startRound_turn s _ roomId s' out hmem (Or.inr ⟨b, rb, rfl, hb, hlt⟩) h
          · simp only [Option.some.injEq] at h
            rcases endGame_turn s _ roomId s' out h with ⟨a, r, hl, hs, ho⟩ | ⟨hl, hs, ho⟩
            · subst hs ho
              exact Turn.lastWin b roomId rb a r hmem hb (by omega) hl
            · subst hs ho
              exact Turn.lastWinNoRoom b roomId rb hmem hb (by omega) hl
      | reveal a roomId =>
        simp only [runCallback, reveal] at h
        cases hr : s.heap[a]? with
        | none =>
          simp only [hr] at h
          exact absurd h (by simp)
        | some r =>
          simp only [hr] at h
          cases hsongs : r.songs with
          | none =>
            simp only [hsongs] at h
            exact absurd h (by simp)
          | some songs =>
            simp only [hsongs] at h
            cases hsong : songs[r.currentRound]? with
            | none =>
              simp only [hsong] at h
              exact absurd h (by simp)
            | some song =>
              simp only [hsong, Option.some.injEq, Prod.mk.injEq] at h
              obtain ⟨hs, ho⟩ := h
              subst hs ho
              simpa only [hsongs] using Turn.revealed a roomId r songs song hmem hr hsongs hsong
      | guessWindow a roomId song =>
        simp only [runCallback, guessWindow] at h
        cases hr : s.heap[a]? with
        | none =>
          simp only [hr] at h
          exact absurd h (by simp)
        | some r =>
          simp only [hr] at h
          split_ifs at h with hact
          · simp only [Option.some.injEq, Prod.mk.injEq] at h
            obtain ⟨hs, ho⟩ := h
            subst hs ho
            simp only [Bool.and_eq_true] at hact
            exact Turn.timedOut a roomId song r hmem hr hact.1 hact.2
          · simp only [Option.some.injEq, Prod.mk.injEq] at h
            obtain ⟨hs, ho⟩ := h
            subst hs ho
            simp only [Bool.and_eq_true] at hact
            exact Turn.stale a roomId song r hmem hr hact
    · simp only [Option.some.injEq, Prod.mk.injEq] at h
      obtain ⟨hs, ho⟩ := h
      subst hs ho
      exact Turn.idle _
  | reply req response =>
    simp only [step] at h
    split_ifs at h with hmem
    · simp only [songsFetched] at h
      cases hr : s.heap[req.room]? with
      | none =>
        simp only [hr] at h
        exact absurd h (by simp)
      | some r =>
        simp only [hr, Option.some.injEq, Prod.mk.injEq] at h
        obtain ⟨hs, ho⟩ := h
        subst hs ho
        exact Turn.fetched req response r hmem hr
    · simp only [Option.some.injEq, Prod.mk.injEq] at h
      obtain ⟨hs, ho⟩ := h
      subst hs ho
      exact Turn.idle _

/-! ## Codes and room objects agree in every reachable server -/

theorem mem_of_lookup (l : List (RoomId × Nat)) (k : RoomId) (v : Nat)
    (h : l.lookup k = some v) : (k, v) ∈ l := by
  induction l with
  | nil => simp [List.lookup] at h
  | cons p l ih =>
    obtain ⟨k', v'⟩ := p
    by_cases hk : k = k'
    · subst hk
      simp only [List.lookup, beq_self_eq_true, Option.some.injEq] at h
      rw [h]; exact List.mem_cons_self _ _
    · have hb : (k == k') = false := by simpa using hk
      simp only [List.lookup, hb] at h
      exact List.mem_cons_of_mem _ (ih h)

theorem lookup_mem {s : Server} {roomId : RoomId} {a : Nat} {r : Room}
    (h : s.lookup roomId = some (a, r)) : (roomId, a) ∈ s.rooms :=
  mem_of_lookup _ _ _ (lookup_rooms h)

theorem roomChange_id {a : Nat} {r r' : Room} {e : Event} (h : RoomChange a r e r') :
    r'.id = r.id := by
  cases h <;> rfl

theorem step_keeps_id {s s' : Server} {e : Event} {out : List Emit} {a : Nat} {r : Room}
    (h : step s e = some (s', out)) (hr : s.heap[a]? = some r) :
    ∃ r', s'.heap[a]? = some r' ∧ r'.id = r.id := by
  obtain ⟨r', hr', hch⟩ := step_room h hr
  exact ⟨r', hr', roomChange_id hch⟩

/-- The table after a turn: unchanged, or extended by the binding of a room just
created. -/
theorem turn_rooms {s s' : Server} {e : Event} {out : List Emit} (h : Turn s e s' out) :
    s'.rooms = s.rooms
      ∨ ∃ socket rid name, s'.rooms = (rid, s.heap.length) :: s.rooms
          ∧ s'.heap = s.heap ++ [freshRoom socket rid name] := by
  cases h <;> first | exact Or.inl rfl | exact Or.inr ⟨_, _, _, rfl, rfl⟩

/-- A callback scheduled after a turn was scheduled before it, or captures no
room object, or captures a pair of the table. -/
theorem turn_timers {s s' : Server} {e : Event} {out : List Emit} (h : Turn s e s' out)
    {cb : Callback} (hcb : cb ∈ s'.timers) (hw : WellFormed s) :
    cb ∈ s.timers ∨ ∀ a, cb.room = some a → (cb.roomId, a) ∈ s.rooms := by
  cases h with
  | idle | created | joined | refused | started | wrong | wonByStranger => exact Or.inl hcb
  | fetched req response r hreq hr =>
    simp only [List.mem_append, List.mem_singleton] at hcb
    rcases hcb with hcb | hcb
    · exact Or.inl hcb
    · subst hcb; exact Or.inr (fun a ha => by simp [Callback.room] at ha)
  | won socket roomId guess a r song player hl =>
    simp only [List.mem_append, List.mem_singleton] at hcb
    rcases hcb with hcb | hcb
    · exact Or.inl hcb
    · subst hcb
      refine Or.inr (fun a' ha => ?_)
      simp only [Callback.room, Option.some.injEq] at ha
      subst ha
      exact lookup_mem hl
  | countdown cb0 roomId a r hmem hor hl hlt =>
    simp only [List.mem_append, List.mem_singleton] at hcb
    rcases hcb with hcb | hcb
    · exact Or.inl (List.mem_of_mem_erase hcb)
    · subst hcb
      refine Or.inr (fun a' ha => ?_)
      simp only [Callback.room, Option.some.injEq] at ha
      subst ha
      exact lookup_mem hl
  | exhausted cb0 roomId a r hmem hor hl hge => exact Or.inl (List.mem_of_mem_erase hcb)
  | lastWin b roomId rb a r hmem => exact Or.inl (List.mem_of_mem_erase hcb)
  | lastWinNoRoom b roomId rb hmem => exact Or.inl (List.mem_of_mem_erase hcb)
  | revealed a roomId r songs song hmem =>
    simp only [List.mem_append, List.mem_singleton] at hcb
    rcases hcb with hcb | hcb
    · exact Or.inl (List.mem_of_mem_erase hcb)
    · subst hcb
      refine Or.inr (fun a' ha => ?_)
      simp only [Callback.room, Option.some.injEq] at ha
      subst ha
      exact hw.2.1 _ hmem a rfl
  | timedOut a roomId song r hmem =>
    simp only [List.mem_append, List.mem_singleton] at hcb
    rcases hcb with hcb | hcb
    · exact Or.inl (List.mem_of_mem_erase hcb)
    · subst hcb; exact Or.inr (fun a ha => by simp [Callback.room] at ha)
  | stale a roomId song r hmem => exact Or.inl (List.mem_of_mem_erase hcb)

/-- A request in flight after a turn was in flight before it, or was made for a
pair of the table. -/
theorem turn_requests {s s' : Server} {e : Event} {out : List Emit} (h : Turn s e s' out)
    {req : Request} (hreq : req ∈ s'.requests) :
    req ∈ s.requests
      ∨ ∃ rounds, e = .start_game req.roomId rounds ∧ (req.roomId, req.room) ∈ s.rooms := by
  cases h with
  | started roomId rounds a r hl hp =>
    simp only [List.mem_append, List.mem_singleton] at hreq
    rcases hreq with hreq | hreq
    · exact Or.inl hreq
    · subst hreq; exact Or.inr ⟨rounds, rfl, lookup_mem hl⟩
  | fetched req0 response r hmem hr => exact Or.inl (List.mem_of_mem_erase hreq)
  | _ => exact Or.inl hreq

theorem wellFormed_step {s s' : Server} {e : Event} {out : List Emit}
    (h : step s e = some (s', out)) (hw : WellFormed s) : WellFormed s' := by
  have ht := step_turn h
  have hsub : ∀ p ∈ s.rooms, p ∈ s'.rooms := by
    intro p hp
    rcases turn_rooms ht with h1 | ⟨_, _, _, h1, _⟩
    · rw [h1]; exact hp
    · rw [h1]; exact List.mem_cons_of_mem _ hp
  refine ⟨?_, ?_, ?_⟩
  · intro rid a hmem
    rcases turn_rooms ht with h1 | ⟨socket, rid', name, h1, h2⟩
    · rw [h1] at hmem
      obtain ⟨r, hr, hid⟩ := hw.1 rid a hmem
      obtain ⟨r', hr', hid'⟩ := step_keeps_id h hr
      exact ⟨r', hr', hid'.trans hid⟩
    · rw [h1, List.mem_cons] at hmem
      rcases hmem with hmem | hmem
      · simp only [Prod.mk.injEq] at hmem
        obtain ⟨h3, h4⟩ := hmem
        subst h3 h4
        refine ⟨freshRoom socket rid name, ?_, rfl⟩
        rw [h2]; simp
      · obtain ⟨r, hr, hid⟩ := hw.1 rid a hmem
        obtain ⟨r', hr', hid'⟩ := step_keeps_id h hr
        exact ⟨r', hr', hid'.trans hid⟩
  · intro cb hcb a ha
    rcases turn_timers ht hcb hw with h1 | h1
    · exact hsub _ (hw.2.1 cb h1 a ha)
    · exact hsub _ (h1 a ha)
  · intro req hreq
    rcases turn_requests ht hreq with h1 | ⟨_, _, h1⟩
    · exact hsub _ (hw.2.2 req h1)
    · exact hsub _ h1

theorem reachable_wellFormed {s : Server} (hs : Reachable s) : WellFormed s := by
  induction hs with
  | init => exact ⟨by simp [Server.init], by simp [Server.init], by simp [Server.init]⟩
  | step _ hstep ih => exact wellFormed_step hstep ih

theorem wellFormed_lookup_id {s : Server} (hw : WellFormed s) {roomId : RoomId} {a : Nat}
    {r : Room} (h : s.lookup roomId = some (a, r)) : r.id = roomId := by
  obtain ⟨r', hr', hid⟩ := hw.1 roomId a (lookup_mem h)
  rw [lookup_heap h] at hr'
  simp only [Option.some.injEq] at hr'
  rw [hr']; exact hid

/-! ## What a turn does to one room object -/

theorem heap_set_cases {l : List Room} {a b : Nat} {r rb : Room} (x : Room)
    (hr : l[a]? = some r) (hb : l[b]? = some rb) :
    (b = a ∧ rb = r ∧ (l.set b x)[a]? = some x) ∨ (b ≠ a ∧ (l.set b x)[a]? = some r) := by
  have h := getElem?_set_of_some (b := b) (x := x) hr
  by_cases hba : b = a
  · subst hba
    rw [hr] at hb
    simp only [Option.some.injEq] at hb
    simp only [if_true] at h
    exact Or.inl ⟨rfl, hb.symm, h⟩
  · simp only [hba, if_false] at h
    exact Or.inr ⟨hba, h⟩

theorem turn_room {s s' : Server} {e : Event} {out : List Emit} (h : Turn s e s' out)
    {a : Nat} {r : Room} (hr : s.heap[a]? = some r) :
    ∃ r', s'.heap[a]? = some r' ∧ RoomTurn s a r e out r' := by
  have hlt : a < s.heap.length := (List.getElem?_eq_some.1 hr).1
  cases h with
  | idle | refused | wrong | countdown | lastWinNoRoom | stale =>
    exact ⟨r, hr, RoomTurn.same _ _⟩
  | created socket roomId playerName =>
    exact ⟨r, by simp [List.getElem?_append_left hlt, hr], RoomTurn.same _ _⟩
  | joined socket roomId playerName b rb hl hst =>
    rcases heap_set_cases _ hr (lookup_heap hl) with ⟨hba, hrb, hx⟩ | ⟨_, hx⟩
    · subst hba hrb
      exact ⟨_, hx, RoomTurn.joined socket roomId playerName _ hl hst⟩
    · exact ⟨r, hx, RoomTurn.same _ _⟩
  | started roomId rounds b rb hl hp =>
    rcases heap_set_cases _ hr (lookup_heap hl) with ⟨hba, hrb, hx⟩ | ⟨_, hx⟩
    · subst hba hrb
      exact ⟨_, hx, RoomTurn.started roomId rounds _ hl hp⟩
    · exact ⟨r, hx, RoomTurn.same _ _⟩
  | fetched req response rb hmem hb =>
    rcases heap_set_cases _ hr hb with ⟨hba, hrb, hx⟩ | ⟨_, hx⟩
    · subst hrb
      exact ⟨_, hx, RoomTurn.fetched req response _ hmem hba⟩
    · exact ⟨r, hx, RoomTurn.same _ _⟩
  | won socket roomId guess b rb song player hl hact hst hsong hok hp =>
    rcases heap_set_cases _ hr (lookup_heap hl) with ⟨hba, hrb, hx⟩ | ⟨_, hx⟩
    · subst hba hrb
      exact ⟨_, hx, RoomTurn.won socket roomId guess song player _ hl hact hst hsong hok hp⟩
    · exact ⟨r, hx, RoomTurn.same _ _⟩
  | wonByStranger socket roomId guess b rb song hl hact hst hsong hok hp =>
    rcases heap_set_cases _ hr (lookup_heap hl) with ⟨hba, hrb, hx⟩ | ⟨_, hx⟩
    · subst hba hrb
      exact ⟨_, hx, RoomTurn.wonByStranger socket roomId guess song _ hl hact hst hsong hok hp⟩
    · exact ⟨r, hx, RoomTurn.same _ _⟩
  | exhausted cb roomId b rb hmem hor hl hge =>
    rcases heap_set_cases _ hr (lookup_heap hl) with ⟨hba, hrb, hx⟩ | ⟨_, hx⟩
    · subst hba hrb
      refine ⟨_, hx, RoomTurn.ended cb roomId hmem hl ?_⟩
      rcases hor with h1 | ⟨c, rc, h1, h2, _⟩
      · exact Or.inl ⟨h1, hge⟩
      · exact Or.inr ⟨c, rc, h1, h2, Or.inr hge⟩
    · exact ⟨r, hx, RoomTurn.same _ _⟩
  | lastWin c roomId rc b rb hmem hc hge hl =>
    rcases heap_set_cases _ hr (lookup_heap hl) with ⟨hba, hrb, hx⟩ | ⟨_, hx⟩
    · subst hba hrb
      exact ⟨_, hx, RoomTurn.ended _ roomId hmem hl (Or.inr ⟨c, rc, rfl, hc, Or.inl hge⟩)⟩
    · exact ⟨r, hx, RoomTurn.same _ _⟩
  | revealed b roomId rb songs song hmem hb hsongs hsong =>
    rcases heap_set_cases _ hr hb with ⟨hba, hrb, hx⟩ | ⟨_, hx⟩
    · subst hba hrb
      exact ⟨_, hx, RoomTurn.revealed roomId songs song _ hmem hsongs hsong⟩
    · exact ⟨r, hx, RoomTurn.same _ _⟩
  | timedOut b roomId song rb hmem hb hact hsame =>
    rcases heap_set_cases _ hr hb with ⟨hba, hrb, hx⟩ | ⟨_, hx⟩
    · subst hba hrb
      exact ⟨_, hx, RoomTurn.timedOut roomId song _ hmem hact hsame⟩
    · exact ⟨r, hx, RoomTurn.same _ _⟩

/-- A room object after a turn was there before it, or has just been created. -/
theorem turn_room_origin {s s' : Server} {e : Event} {out : List Emit} (h : Turn s e s' out)
    {a : Nat} {r' : Room} (hr' : s'.heap[a]? = some r') :
    (∃ r, s.heap[a]? = some r)
      ∨ ∃ socket rid name, e = .create_room socket rid name ∧ a = s.heap.length
          ∧ r' = freshRoom socket rid name := by
  have hlt' : a < s'.heap.length := (List.getElem?_eq_some.1 hr').1
  by_cases hlt : a < s.heap.length
  · exact Or.inl ⟨s.heap[a], List.getElem?_eq_getElem hlt⟩
  · right
    cases h with
    | created socket roomId playerName =>
      simp only [List.length_append, List.length_singleton] at hlt'
      have ha : a = s.heap.length := by omega
      subst ha
      simp only [List.getElem?_concat_length, Option.some.injEq] at hr'
      exact ⟨socket, roomId, playerName, rfl, rfl, hr'.symm⟩
    | idle | refused | wrong | countdown | lastWinNoRoom | stale => exact absurd hlt' hlt
    | joined | started | fetched | won | wonByStranger | exhausted | lastWin | revealed
      | timedOut =>
      simp only [List.length_set] at hlt'
      exact absurd hlt' hlt

theorem step_room_turn {s s' : Server} {e : Event} {out : List Emit}
    (h : step s e = some (s', out)) {a : Nat} {r : Room} (hr : s.heap[a]? = some r) :
    ∃ r', s'.heap[a]? = some r' ∧ RoomTurn s a r e out r' :=
  turn_room (step_turn h) hr

/-! ## The stored song list -/

theorem roomTurn_id {s : Server} {a : Nat} {r r' : Room} {e : Event} {out : List Emit}
    (h : RoomTurn s a r e out r') : r'.id = r.id := by
  cases h <;> rfl

theorem roomTurn_songs {s : Server} {a : Nat} {r r' : Room} {e : Event} {out : List Emit}
    (h : RoomTurn s a r e out r') :
    r'.songs = r.songs ∨ ∃ req response, e = .reply req response ∧ req ∈ s.requests
      ∧ req.room = a := by
  cases h with
  | fetched req response _ hmem hroom => exact Or.inr ⟨req, response, rfl, hmem, hroom⟩
  | _ => exact Or.inl rfl

/-- C13, as the code has it: only `start_game` makes a track request, and only the answer to
a request in flight for the room changes the stored list `room.songs`.  So in a
reachable server, for a room with a stored list and no request in flight, the
list stays as it is and no request is made for the room over every run of
events without a `start_game` for the code of the room. -/
theorem songs_fixed_without_start_game :
    (∀ (s : Server) (e : Event) (s' : Server) (out : List Emit),
      step s e = some (s', out) → (∀ rid rounds, e ≠ .start_game rid rounds) →
      ∀ req ∈ s'.requests, req ∈ s.requests)
    ∧ (∀ (s : Server) (e : Event) (s' : Server) (out : List Emit) (a : Nat) (r : Room),
      step s e = some (s', out) → s.heap[a]? = some r →
      (∀ req response, e = .reply req response → req ∈ s.requests → req.room ≠ a) →
      ∃ r', s'.heap[a]? = some r' ∧ r'.songs = r.songs)
    ∧ (∀ (s : Server) (es : List Event) (s' : Server) (out : List Emit) (a : Nat) (r : Room)
        (songs : List Track),
      Reachable s → s.heap[a]? = some r → r.songs = some songs →
      (∀ req ∈ s.requests, req.room ≠ a) →
      (∀ e ∈ es, ∀ rounds, e ≠ .start_game r.id rounds) →
      run s es = some (s', out) →
      (∃ r', s'.heap[a]? = some r' ∧ r'.songs = some songs)
        ∧ ∀ req ∈ s'.requests, req.room ≠ a) := by
  refine ⟨?_, ?_, ?_⟩
  · intro s e s' out hstep hne req hreq
    rcases turn_requests (step_turn hstep) hreq with h1 | ⟨rounds, h1, _⟩
    · exact h1
    · exact absurd h1 (hne _ _)
  · intro s e s' out a r hstep hr hne
    obtain ⟨r', hr', hrt⟩ := step_room_turn hstep hr
    refine ⟨r', hr', ?_⟩
    rcases roomTurn_songs hrt with h1 | ⟨req, response, h1, h2, h3⟩
    · exact h1
    · exact absurd h3 (hne req response h1 h2)
  · intro s es s' out a r songs hs hr hsongs hreq hes hrun
    have key := run_invariant
      (fun t => WellFormed t
        ∧ (∃ r', t.heap[a]? = some r' ∧ r'.songs = some songs ∧ r'.id = r.id)
        ∧ ∀ req ∈ t.requests, req.room ≠ a)
      (fun e => ∀ rounds, e ≠ .start_game r.id rounds) ?_ s es s' out
      ⟨reachable_wellFormed hs, ⟨r, hr, hsongs, rfl⟩, hreq⟩ hes hrun
    · obtain ⟨_, ⟨r', hr', hs', _⟩, hq⟩ := key
      exact ⟨⟨r', hr', hs'⟩, hq⟩
    · intro t e t' out' ⟨hw, ⟨r1, hr1, hsongs1, hid1⟩, hq⟩ hne hstep
      obtain ⟨r2, hr2, hrt⟩ := step_room_turn hstep hr1
      refine ⟨wellFormed_step hstep hw, ⟨r2, hr2, ?_, (roomTurn_id hrt).trans hid1⟩, ?_⟩
      · rcases roomTurn_songs hrt with h1 | ⟨req, response, _, h2, h3⟩
        · rw [h1]; exact hsongs1
        · exact absurd h3 (hq req h2)
      · intro req hmem hroom
        rcases turn_requests (step_turn hstep) hmem with h1 | ⟨rounds, h1, h2⟩
        · exact hq req h1 hroom
        · obtain ⟨r3, hr3, hid3⟩ := hw.1 _ _ h2
          rw [hroom, hr1] at hr3
          simp only [Option.some.injEq] at hr3
          rw [← hr3, hid1] at hid3
          rw [← hid3] at h1
          exact hne rounds h1

/-- C13 on `demoPlaying`: a wrong guess and the time-out of round 1 leave the two
tracks in place. -/
theorem songs_fixed_without_start_game_witness :
    Reachable demoPlaying ∧ demoPlaying.heap[0]? = some demoRoom
    ∧ (∃ r', (serverAfter (demoTrace ++ [.submit_guess "s2" "ROOM1" (some (js "yesterday")),
          .timer (.guessWindow 0 "ROOM1" demoSong)])).heap[0]? = some r'
        ∧ r'.songs = some [demoSong, demoSong2]) :=
  ⟨reachable_serverAfter demoTrace, by decide,
    (songs_fixed_without_start_game.2.2 demoPlaying
      [.submit_guess "s2" "ROOM1" (some (js "yesterday")),
       .timer (.guessWindow 0 "ROOM1" demoSong)]
      (serverAfter (demoTrace ++ [.submit_guess "s2" "ROOM1" (some (js "yesterday")),
          .timer (.guessWindow 0 "ROOM1" demoSong)]))
      [⟨.socket "s2", .wrong_guess⟩, ⟨.room "ROOM1", .round_timeout demoSong⟩]
      0 demoRoom [demoSong, demoSong2] (reachable_serverAfter demoTrace) (by decide) rfl
      (by decide) (fun e he rounds h => by subst h; simp at he) (by decide)).1⟩

/-- C13 as stated fails: `demoPlaying` is reachable, its room is in `PLAYING`
with two stored tracks; a further `start_game` makes a track request, and the
answer replaces the stored list. -/
theorem songs_refetched_by_start_game :
    Reachable demoPlaying
    ∧ (roomOf demoPlaying "ROOM1").map (fun r => (r.state, r.songs)) =
        some (.PLAYING, some [demoSong, demoSong2])
    ∧ demoPlaying.requests = []
    ∧ (step demoPlaying (.start_game "ROOM1" (.num 1))).map (fun p => p.1.requests) =
        some [⟨0, "ROOM1", 1⟩]
    ∧ (run demoPlaying [.start_game "ROOM1" (.num 1),
          .reply ⟨0, "ROOM1", 1⟩ (some demoTrackData.reverse)]).map
        (fun p => (roomOf p.1 "ROOM1").map (fun r => r.songs)) =
      some (some (some [{ ref := 2, title := some (js "Imagine"), artist := "John Lennon",
                          previewUrl := "preview/2", artwork := "art/2" }])) :=
  ⟨reachable_serverAfter demoTrace, by decide, by decide, by decide, by decide⟩

/-! ## What the events tell about the tracks -/

theorem track_redact_redact (t : Track) : t.redact.redact = t.redact := rfl

theorem room_redact_redact (r : Room) : r.redact.redact = r.redact := by
  have h1 : ∀ o : Option Track, (o.map Track.redact).map Track.redact = o.map Track.redact := by
    intro o; cases o <;> rfl
  have h2 : ∀ l : List Track, (l.map Track.redact).map Track.redact = l.map Track.redact := by
    intro l
    induction l with
    | nil => rfl
    | cons t l ih => simp only [List.map_cons, ih, track_redact_redact]
  have h3 : ∀ o : Option (List Track),
      (o.map (List.map Track.redact)).map (List.map Track.redact)
        = o.map (List.map Track.redact) := by
    intro o
    cases o with
    | none => rfl
    | some l => simp only [Option.map_some', h2]
  unfold Room.redact
  simp only [h1, h3]

theorem callback_redact_redact (cb : Callback) : cb.redact.redact = cb.redact := by
  cases cb <;> rfl

theorem server_redact_redact (s : Server) : s.redact.redact = s.redact := by
  simp only [Server.redact, List.map_map]
  congr 1
  · exact List.map_congr_left (fun r _ => room_redact_redact r)
  · exact List.map_congr_left (fun cb _ => callback_redact_redact cb)

theorem redact_eq_iff {cb : Callback} (hcb : ∀ a rid sg, cb ≠ .guessWindow a rid sg)
    (x : Callback) : x.redact = cb ↔ x = cb := by
  cases x with
  | guessWindow a rid sg =>
    constructor
    · intro h; exact absurd h.symm (hcb a rid sg.redact)
    · intro h; exact absurd h.symm (hcb a rid sg)
  | startRound _ => exact Iff.rfl
  | reveal _ _ => exact Iff.rfl
  | afterWin _ _ => exact Iff.rfl

theorem mem_map_redact {cb : Callback} (hcb : ∀ a rid sg, cb ≠ .guessWindow a rid sg)
    (l : List Callback) : cb ∈ l.map Callback.redact ↔ cb ∈ l := by
  simp only [List.mem_map]
  constructor
  · rintro ⟨x, hx, h⟩
    rw [← (redact_eq_iff hcb x).1 h]; exact hx
  · intro h
    exact ⟨cb, h, (redact_eq_iff hcb cb).2 rfl⟩

theorem erase_map_redact {cb : Callback} (hcb : ∀ a rid sg, cb ≠ .guessWindow a rid sg)
    (l : List Callback) :
    (l.map Callback.redact).erase cb = (l.erase cb).map Callback.redact := by
  induction l with
  | nil => rfl
  | cons x l ih =>
    by_cases hx : x = cb
    · subst hx
      have h : x.redact = x := (redact_eq_iff hcb x).2 rfl
      simp only [List.map_cons, h, List.erase_cons_head]
    · have hx' : x.redact ≠ cb := fun h => hx ((redact_eq_iff hcb x).1 h)
      have h1 : (x == cb) = false := by simpa using hx
      have h2 : (x.redact == cb) = false := by simpa using hx'
      simp only [List.map_cons, List.erase_cons, h1, h2, ih]
      rfl

theorem lookup_redact (s : Server) (roomId : RoomId) :
    s.redact.lookup roomId = (s.lookup roomId).map (fun ar => (ar.1, ar.2.redact)) := by
  simp only [Server.lookup, Server.redact]
  cases s.rooms.lookup roomId with
  | none => rfl
  | some a =>
    simp only [List.getElem?_map]
    cases s.heap[a]? <;> rfl

theorem redact_set (s : Server) (a : Nat) (x : Room) (t : List Callback) :
    ({ s with heap := s.heap.set a x, timers := t } : Server).redact =
      { s.redact with heap := s.redact.heap.set a x.redact,
                      timers := t.map Callback.redact } := by
  simp only [Server.redact, List.map_set]

theorem redactResult_some_congr {s1 s2 : Server} {out : List Emit} (h : s1.redact = s2.redact) :
    redactResult (some (s1, out)) = redactResult (some (s2, out)) := by
  simp only [redactResult, Option.map_some', h]

theorem timers_redact_redact (t : Server) :
    t.redact.timers.map Callback.redact = t.timers.map Callback.redact := by
  simp only [Server.redact, List.map_map]
  exact List.map_congr_left (fun cb _ => callback_redact_redact cb)

/-- Writing redaction-equal rooms and callbacks into a server and into its
redaction gives redaction-equal servers. -/
theorem redact_set_congr (t : Server) (a : Nat) (x x' : Room) (tm tm' : List Callback)
    (hx : x.redact = x'.redact) (htm : tm.map Callback.redact = tm'.map Callback.redact) :
    ({ t.redact with heap := t.redact.heap.set a x, timers := tm } : Server).redact =
      ({ t with heap := t.heap.set a x', timers := tm' } : Server).redact := by
  rw [redact_set, redact_set, server_redact_redact, hx, htm]

theorem redact_timers_congr (t : Server) (tm tm' : List Callback)
    (htm : tm.map Callback.redact = tm'.map Callback.redact) :
    ({ t.redact with timers := tm } : Server).redact =
      ({ t with timers := tm' } : Server).redact := by
  have h := server_redact_redact t
  simp only [Server.redact, Server.mk.injEq] at h ⊢
  exact ⟨h.1, trivial, trivial, htm, trivial, trivial⟩

theorem room_redact_congr_state (r : Room) (st : RoomState) :
    ({ r.redact with state := st } : Room).redact = ({ r with state := st } : Room).redact := by
  have h := room_redact_redact r
  simp only [Room.redact, Room.mk.injEq] at h ⊢
  exact ⟨trivial, trivial, trivial, trivial, trivial, h.2.2.2.2.2.1, h.2.2.2.2.2.2.1, trivial⟩

theorem endGame_redact (t : Server) (roomId : RoomId) :
    redactResult (some (endGame t.redact roomId)) = redactResult (some (endGame t roomId)) := by
  unfold endGame
  rw [lookup_redact]
  cases t.lookup roomId with
  | none => exact redactResult_some_congr (server_redact_redact t)
  | some ar =>
    obtain ⟨a, r⟩ := ar
    exact redactResult_some_congr (redact_set_congr t a _ _ t.redact.timers t.timers
      (room_redact_congr_state r .ENDED) (timers_redact_redact t))

theorem startRound_redact (t : Server) (roomId : RoomId) :
    redactResult (startRound t.redact roomId) = redactResult (startRound t roomId) := by
  unfold startRound
  rw [lookup_redact]
  cases hl : t.lookup roomId with
  | none => rfl
  | some ar =>
    obtain ⟨a, r⟩ := ar
    simp only [Option.map_some']
    by_cases hge : r.currentRound ≥ r.totalRounds
    · have hge' : r.redact.currentRound ≥ r.redact.totalRounds := hge
      rw [if_pos hge, if_pos hge']
      exact endGame_redact t roomId
    · have hge' : ¬ r.redact.currentRound ≥ r.redact.totalRounds := hge
      rw [if_neg hge, if_neg hge']
      refine redactResult_some_congr (redact_timers_congr t _ _ ?_)
      simp only [List.map_append, timers_redact_redact]

theorem reveal_redact (t : Server) (a : Nat) (roomId : RoomId) :
    redactResult (reveal t.redact a roomId) = redactResult (reveal t a roomId) := by
  unfold reveal
  have hheap : t.redact.heap[a]? = (t.heap[a]?).map Room.redact := by
    simp only [Server.redact, List.getElem?_map]
  rw [hheap]
  cases t.heap[a]? with
  | none => rfl
  | some r =>
    simp only [Option.map_some']
    have hsongs : r.redact.songs = r.songs.map (List.map Track.redact) := rfl
    rw [hsongs]
    cases hs : r.songs with
    | none => rfl
    | some songs =>
      simp only [Option.map_some', List.getElem?_map]
      have hcr : r.redact.currentRound = r.currentRound := rfl
      rw [hcr]
      cases songs[r.currentRound]? with
      | none => rfl
      | some song =>
        simp only [Option.map_some']
        refine redactResult_some_congr (redact_set_congr t a _ _ _ _ ?_ ?_)
        · have h := room_redact_redact r
          simp only [Room.redact, Room.mk.injEq, hs] at h ⊢
          exact ⟨trivial, trivial, trivial, trivial, trivial, rfl, h.2.2.2.2.2.2.1, trivial⟩
        · simp only [List.map_append, timers_redact_redact]
          rfl

/-- The callbacks `startRound` and the reveal, run on a server and on its
redaction, send the same events and lead to servers with the same redaction. -/
theorem step_timer_redact (s : Server) (cb : Callback)
    (hcb : (∃ roomId, cb = .startRound roomId) ∨ ∃ a roomId, cb = .reveal a roomId) :
    redactResult (step s.redact (.timer cb)) = redactResult (step s (.timer cb)) := by
  have hne : ∀ a rid sg, cb ≠ .guessWindow a rid sg := by
    rcases hcb with ⟨roomId, h⟩ | ⟨a, roomId, h⟩ <;> rw [h] <;> intro _ _ _ h' <;> cases h'
  have hmem : cb ∈ s.redact.timers ↔ cb ∈ s.timers := mem_map_redact hne s.timers
  have herase : ({ s.redact with timers := s.redact.timers.erase cb } : Server)
      = ({ s with timers := s.timers.erase cb } : Server).redact := by
    simp only [Server.redact, erase_map_redact hne]
  simp only [step]
  by_cases h : cb ∈ s.timers
  · rw [if_pos h, if_pos (hmem.2 h), herase]
    rcases hcb with ⟨roomId, hc⟩ | ⟨a, roomId, hc⟩
    · rw [hc]; exact startRound_redact _ roomId
    · rw [hc]; exact reveal_redact _ a roomId
  · rw [if_neg h, if_neg (fun h' => h (hmem.1 h'))]
    exact redactResult_some_congr (server_redact_redact s)

theorem roomTurn_not_lobby {s : Server} {a : Nat} {r r' : Room} {e : Event} {out : List Emit}
    (h : RoomTurn s a r e out r') (hst : r.state ≠ .LOBBY) : r'.state ≠ .LOBBY := by
  cases h <;> first | exact hst | (intro h'; cases h')

theorem noTracksInLobby_step {s s' : Server} {e : Event} {out : List Emit}
    (h : step s e = some (s', out)) (hn : NoTracksInLobby s) : NoTracksInLobby s' := by
  have ht := step_turn h
  refine ⟨?_, ?_⟩
  · intro a r' hr' hst
    rcases turn_room_origin ht hr' with ⟨r, hr⟩ | ⟨socket, rid, name, _, _, hfresh⟩
    · obtain ⟨r2, hr2, hrt⟩ := turn_room ht hr
      rw [hr'] at hr2
      simp only [Option.some.injEq] at hr2
      subst hr2
      cases hrt with
      | same => exact hn.1 a _ hr hst
      | joined socket roomId playerName _ hl hlobby => exact hn.1 a r hr hlobby
      | started => cases hst
      | fetched req response _ hmem hroom =>
        obtain ⟨r0, hr0, hne⟩ := hn.2 req hmem
        rw [hroom, hr] at hr0
        simp only [Option.some.injEq] at hr0
        rw [← hr0] at hne
        exact absurd hst hne
      | won socket roomId guess song player _ hl hact hplaying =>
        have hst' : r.state = .LOBBY := hst
        rw [hplaying] at hst'
        cases hst'
      | wonByStranger socket roomId guess song _ hl hact hplaying =>
        have hst' : r.state = .LOBBY := hst
        rw [hplaying] at hst'
        cases hst'
      | ended => cases hst
      | revealed roomId songs song _ hmem hsongs =>
        have := (hn.1 a r hr hst).1
        rw [hsongs] at this
        cases this
      | timedOut => exact hn.1 a r hr hst
    · rw [hfresh]; exact ⟨rfl, rfl⟩
  · have hold : ∀ req ∈ s.requests, ∃ r, s'.heap[req.room]? = some r ∧ r.state ≠ .LOBBY := by
      intro req hreq
      obtain ⟨r0, hr0, hne⟩ := hn.2 req hreq
      obtain ⟨r2, hr2, hrt⟩ := turn_room ht hr0
      exact ⟨r2, hr2, roomTurn_not_lobby hrt hne⟩
    intro req hreq
    cases ht with
    | started roomId rounds a r hl hp =>
      simp only [List.mem_append, List.mem_singleton] at hreq
      rcases hreq with hreq | hreq
      · exact hold req hreq
      · subst hreq
        have hlt : a < s.heap.length := (List.getElem?_eq_some.1 (lookup_heap hl)).1
        exact ⟨_, List.getElem?_set_self hlt, by simp⟩
    | fetched req0 response r hmem hr => exact hold req (List.mem_of_mem_erase hreq)
    | _ => exact hold req hreq

theorem reachable_noTracksInLobby {s : Server} (hs : Reachable s) : NoTracksInLobby s := by
  induction hs with
  | init => exact ⟨by simp [Server.init], by simp [Server.init]⟩
  | step _ hstep ih => exact noTracksInLobby_step hstep ih

/-- An event of a turn that carries a track record is `round_winner` or
`round_timeout`. -/
theorem turn_tracks {s s' : Server} {e : Event} {out : List Emit} (h : Turn s e s' out)
    (hn : NoTracksInLobby s) {m : Emit} (hm : m ∈ out) (htr : m.payload.tracks ≠ []) :
    (∃ player song, m.payload = .round_winner player song)
      ∨ ∃ song, m.payload = .round_timeout song := by
  cases h with
  | idle | started | wonByStranger | lastWinNoRoom | stale => simp at hm
  | created | refused | wrong | fetched | countdown | exhausted | lastWin | revealed =>
    simp only [List.mem_singleton] at hm
    subst hm
    exact absurd rfl htr
  | joined socket roomId playerName a r hl hst =>
    simp only [List.mem_cons, List.mem_singleton, List.not_mem_nil, or_false] at hm
    rcases hm with hm | hm
    · subst hm; exact absurd rfl htr
    · subst hm
      obtain ⟨h1, h2⟩ := hn.1 a r (lookup_heap hl) hst
      simp [Payload.tracks, h1, h2] at htr
  | won socket roomId guess a r song player =>
    simp only [List.mem_cons, List.mem_singleton, List.not_mem_nil, or_false] at hm
    rcases hm with hm | hm
    · subst hm; exact absurd rfl htr
    · subst hm; exact Or.inl ⟨_, _, rfl⟩
  | timedOut a roomId song r =>
    simp only [List.mem_singleton] at hm
    subst hm
    exact Or.inr ⟨_, rfl⟩

theorem redactResult_snd (x : Option (Server × List Emit)) :
    (redactResult x).map Prod.snd = x.map Prod.snd := by
  cases x <;> rfl

/-- Servers with the same redaction stay so, and send the same events, over
every run of `startRound` and reveal callbacks. -/
theorem run_timers_redact (es : List Event)
    (hes : ∀ e ∈ es, (∃ roomId, e = .timer (.startRound roomId))
      ∨ ∃ a roomId, e = .timer (.reveal a roomId)) :
    ∀ s1 s2 : Server, s1.redact = s2.redact →
      redactResult (run s1 es) = redactResult (run s2 es) := by
  induction es with
  | nil =>
    intro s1 s2 h
    exact redactResult_some_congr h
  | cons e es ih =>
    intro s1 s2 h
    have he := hes e (List.mem_cons_self _ _)
    have hstep : redactResult (step s1 e) = redactResult (step s2 e) := by
      rcases he with ⟨roomId, he⟩ | ⟨a, roomId, he⟩
      · rw [he, ← step_timer_redact s1 _ (Or.inl ⟨roomId, rfl⟩),
          ← step_timer_redact s2 _ (Or.inl ⟨roomId, rfl⟩), h]
      · rw [he, ← step_timer_redact s1 _ (Or.inr ⟨a, roomId, rfl⟩),
          ← step_timer_redact s2 _ (Or.inr ⟨a, roomId, rfl⟩), h]
    simp only [run]
    cases h1 : step s1 e with
    | none =>
      cases h2 : step s2 e with
      | none => rfl
      | some p2 => rw [h1, h2] at hstep; cases hstep
    | some p1 =>
      cases h2 : step s2 e with
      | none => rw [h1, h2] at hstep; cases hstep
      | some p2 =>
        obtain ⟨t1, o1⟩ := p1
        obtain ⟨t2, o2⟩ := p2
        rw [h1, h2] at hstep
        simp only [redactResult, Option.map_some', Option.some.injEq, Prod.mk.injEq] at hstep
        obtain ⟨ht, ho⟩ := hstep
        have hrun := ih (fun e' he' => hes e' (List.mem_cons_of_mem _ he')) t1 t2 ht
        simp only
        cases h3 : run t1 es with
        | none =>
          cases h4 : run t2 es with
          | none => rfl
          | some q2 => rw [h3, h4] at hrun; cases hrun
        | some q1 =>
          cases h4 : run t2 es with
          | none => rw [h3, h4] at hrun; cases hrun
          | some q2 =>
            obtain ⟨u1, w1⟩ := q1
            obtain ⟨u2, w2⟩ := q2
            rw [h3, h4] at hrun
            simp only [redactResult, Option.map_some', Option.some.injEq, Prod.mk.injEq]
              at hrun ⊢
            exact ⟨hrun.1, by rw [ho, hrun.2]⟩

/-- C14: the reveal emits `new_round` with the round number and the preview
locator of the track, and nothing else.  Two servers that differ only in the
title, the artist and the artwork of their tracks send identical events
(`start_countdown`, `new_round`, `game_over`) over every run of `startRound` and
reveal callbacks, and differ again only in those fields afterwards.  In every
reachable server, an event that carries a track record is `round_winner` or
`round_timeout`. -/
theorem title_hidden_until_resolution :
    (∀ (s : Server) (a : Nat) (roomId : RoomId) (s' : Server) (out : List Emit),
      reveal s a roomId = some (s', out) →
      ∃ r songs song, s.heap[a]? = some r ∧ r.songs = some songs
        ∧ songs[r.currentRound]? = some song
        ∧ out = [⟨.room roomId, .new_round (r.currentRound + 1) song.previewUrl⟩])
    ∧ (∀ (s1 s2 : Server) (es : List Event), s1.redact = s2.redact →
      (∀ e ∈ es, (∃ roomId, e = .timer (.startRound roomId))
        ∨ ∃ a roomId, e = .timer (.reveal a roomId)) →
      redactResult (run s1 es) = redactResult (run s2 es)
        ∧ (run s1 es).map Prod.snd = (run s2 es).map Prod.snd)
    ∧ (∀ (s : Server) (e : Event) (s' : Server) (out : List Emit) (m : Emit),
      Reachable s → step s e = some (s', out) → m ∈ out → m.payload.tracks ≠ [] →
      (∃ player song, m.payload = .round_winner player song)
        ∨ ∃ song, m.payload = .round_timeout song) := by
  refine ⟨?_, ?_, ?_⟩
  · intro s a roomId s' out h
    unfold reveal at h
    cases hr : s.heap[a]? with
    | none => rw [hr] at h; cases h
    | some r =>
      rw [hr] at h
      cases hsongs : r.songs with
      | none => simp only [hsongs] at h; cases h
      | some songs =>
        simp only [hsongs] at h
        cases hsong : songs[r.currentRound]? with
        | none => simp only [hsong] at h; cases h
        | some song =>
          simp only [hsong, Option.some.injEq, Prod.mk.injEq] at h
          exact ⟨r, songs, song, rfl, hsongs, hsong, h.2.symm⟩
  · intro s1 s2 es h hes
    have hrun := run_timers_redact es hes s1 s2 h
    refine ⟨hrun, ?_⟩
    rw [← redactResult_snd, hrun, redactResult_snd]
  · intro s e s' out m hs hstep hm htr
    exact turn_tracks (step_turn hstep) (reachable_noTracksInLobby hs) hm htr

/-- C14 on two games that differ in the titles, artists and artworks of their
tracks: the countdown and the reveal of round 1 send the same events; and the
time-out of round 1 in `demoPlaying` carries the track in `round_timeout`. -/
theorem title_hidden_until_resolution_witness :
    beforeReveal demoTrackData ≠ beforeReveal otherTrackData
    ∧ (run (beforeReveal demoTrackData) [.timer (.reveal 0 "ROOM1")]).map Prod.snd =
        (run (beforeReveal otherTrackData) [.timer (.reveal 0 "ROOM1")]).map Prod.snd
    ∧ ((∃ player song, Payload.round_timeout demoSong = .round_winner player song)
        ∨ ∃ song, Payload.round_timeout demoSong = .round_timeout song) :=
  ⟨by decide,
    (title_hidden_until_resolution.2.1 (beforeReveal demoTrackData)
      (beforeReveal otherTrackData) [.timer (.reveal 0 "ROOM1")] (by decide)
      (fun e he => Or.inr ⟨0, "ROOM1", by simpa using he⟩)).2,
    title_hidden_until_resolution.2.2 demoPlaying (.timer (.guessWindow 0 "ROOM1" demoSong))
      { demoPlaying with heap := [{ demoRoom with roundActive := false }],
                         timers := [.startRound "ROOM1"] }
      [⟨.room "ROOM1", .round_timeout demoSong⟩] ⟨.room "ROOM1", .round_timeout demoSong⟩
      (reachable_serverAfter demoTrace) (by decide) (by decide) (by decide)⟩

/-! ## The end of a game -/

theorem roomTurn_ended {s : Server} {a : Nat} {r r' : Room} {e : Event} {out : List Emit}
    (h : RoomTurn s a r e out r') (hne : r.state ≠ .ENDED) (hst : r'.state = .ENDED) :
    ∃ roomId cb, e = .timer cb ∧ cb ∈ s.timers ∧ s.lookup roomId = some (a, r)
      ∧ out = [⟨.room roomId, .game_over r.players⟩]
      ∧ ((cb = .startRound roomId ∧ r.currentRound ≥ r.totalRounds)
        ∨ ∃ b rb, cb = .afterWin b roomId ∧ s.heap[b]? = some rb
            ∧ (rb.currentRound ≥ rb.totalRounds ∨ r.currentRound ≥ r.totalRounds)) := by
  cases h with
  | ended cb roomId hmem hl hor => exact ⟨roomId, cb, rfl, hmem, hl, rfl, hor⟩
  | same => exact absurd hst hne
  | joined | fetched | wonByStranger | revealed | timedOut | won => exact absurd hst hne
  | started => cases hst

/-- C16, as the code has it: a turn that takes a room to `ENDED` is the callback `startRound`
with `currentRound >= totalRounds` in that room, or the continuation of a
correct guess with `currentRound >= totalRounds` in the room that the guess was
made in (or in the ended room, when the continuation went through `startRound`);
it emits `game_over` with the players of the ended room, which is the room that
the code designates.  The room of the guess is the ended room whenever the
table holds one room only for the code.  `startRound` with
`currentRound >= totalRounds` ends the game, emits `game_over` only and
schedules nothing; the continuation runs `startRound` exactly when
`currentRound < totalRounds` in its room, and `endGame` otherwise. -/
theorem game_ends_when_rounds_exhausted :
    (∀ (s : Server) (e : Event) (s' : Server) (out : List Emit) (a : Nat) (r r' : Room),
      step s e = some (s', out) → s.heap[a]? = some r → r.state ≠ .ENDED →
      s'.heap[a]? = some r' → r'.state = .ENDED →
      ∃ roomId, s.lookup roomId = some (a, r) ∧ out = [⟨.room roomId, .game_over r.players⟩]
        ∧ ((e = .timer (.startRound roomId) ∧ r.currentRound ≥ r.totalRounds)
          ∨ ∃ b rb, e = .timer (.afterWin b roomId) ∧ s.heap[b]? = some rb
              ∧ (rb.currentRound ≥ rb.totalRounds ∨ r.currentRound ≥ r.totalRounds)
              ∧ (b = a → r.currentRound ≥ r.totalRounds)))
    ∧ (∀ (s : Server) (b : Nat) (roomId : RoomId) (a : Nat) (r : Room), Reachable s →
        .afterWin b roomId ∈ s.timers → s.lookup roomId = some (a, r) →
        (∀ a', (roomId, a') ∈ s.rooms → a' = a) → b = a)
    ∧ (∀ (s : Server) (roomId : RoomId) (a : Nat) (r : Room),
        s.lookup roomId = some (a, r) → r.currentRound ≥ r.totalRounds →
        startRound s roomId =
          some ({ s with heap := s.heap.set a { r with state := .ENDED } },
                [⟨.room roomId, .game_over r.players⟩]))
    ∧ (∀ (s : Server) (a : Nat) (roomId : RoomId) (r : Room), s.heap[a]? = some r →
        afterWin s a roomId =
          if r.currentRound < r.totalRounds then startRound s roomId
          else some (endGame s roomId)) := by
  refine ⟨?_, ?_, ?_, ?_⟩
  · intro s e s' out a r r' hstep hr hne hr' hst
    obtain ⟨r2, hr2, hrt⟩ := step_room_turn hstep hr
    rw [hr'] at hr2
    simp only [Option.some.injEq] at hr2
    subst hr2
    obtain ⟨roomId, cb, he, _, hl, hout, hor⟩ := roomTurn_ended hrt hne hst
    refine ⟨roomId, hl, hout, ?_⟩
    rcases hor with ⟨h1, h2⟩ | ⟨b, rb, h1, h2, h3⟩
    · exact Or.inl ⟨by rw [he, h1], h2⟩
    · refine Or.inr ⟨b, rb, by rw [he, h1], h2, h3, ?_⟩
      intro hba
      subst hba
      rw [hr] at h2
      simp only [Option.some.injEq] at h2
      subst h2
      rcases h3 with h3 | h3 <;> exact h3
  · intro s b roomId a r hs hmem _ hone
    exact hone b ((reachable_wellFormed hs).2.1 _ hmem b rfl)
  · intro s roomId a r hl hge
    simp only [startRound, hl, hge, if_true, endGame]
  · intro s a roomId r hr
    simp only [afterWin, hr]

/-- C16 on the last turn of `endedTrace`: the callback `startRound` finds round 1
of 1 played and ends the game. -/
theorem game_ends_when_rounds_exhausted_witness :
    ∃ roomId, (serverAfter (endedTrace.take 6)).lookup roomId =
        some (0, { demoEndedRoom with state := .PLAYING })
      ∧ ((Event.timer (.startRound "ROOM1") = .timer (.startRound roomId)
            ∧ demoEndedRoom.currentRound ≥ demoEndedRoom.totalRounds)
        ∨ ∃ b rb, Event.timer (.startRound "ROOM1") = .timer (.afterWin b roomId)
            ∧ (serverAfter (endedTrace.take 6)).heap[b]? = some rb
            ∧ (rb.currentRound ≥ rb.totalRounds
              ∨ demoEndedRoom.currentRound ≥ demoEndedRoom.totalRounds)
            ∧ (b = 0 → demoEndedRoom.currentRound ≥ demoEndedRoom.totalRounds)) :=
  have h := game_ends_when_rounds_exhausted.1 (serverAfter (endedTrace.take 6))
    (.timer (.startRound "ROOM1")) demoEnded [⟨.room "ROOM1", .game_over [⟨"s1", "Alice", 0⟩]⟩]
    0 { demoEndedRoom with state := .PLAYING } demoEndedRoom (by decide) (by decide)
    (by decide) (by decide) (by decide)
  h.elim (fun roomId hr => ⟨roomId, hr.1, hr.2.2⟩)

/-- C16 as stated fails: after `reusedCodeTrace` the code `ROOM1` designates the
room of Carol, in `PLAYING` with no round played out of three; the continuation
of the guess of Alice, whose own room has played its one round, then ends the
room of Carol and emits `game_over` with its players. -/
theorem game_over_with_rounds_left :
    (run Server.init reusedCodeTrace).isSome = true
    ∧ (roomOf (serverAfter reusedCodeTrace) "ROOM1").map
        (fun r => (r.players, r.state, r.currentRound, r.totalRounds)) =
      some ([⟨"s9", "Carol", 0⟩], .PLAYING, 0, 3)
    ∧ (step (serverAfter reusedCodeTrace) (.timer (.afterWin 0 "ROOM1"))).map
        (fun p => ((roomOf p.1 "ROOM1").map
          (fun r => (r.players, r.state, r.currentRound, r.totalRounds)), p.2)) =
      some (some ([⟨"s9", "Carol", 0⟩], .ENDED, 0, 3),
        [⟨.room "ROOM1", .game_over [⟨"s9", "Carol", 0⟩]⟩]) := by
  refine ⟨by decide, by decide, by decide⟩

/-! ## A round resolved by a guess from outside the room -/

theorem run_invariant_out (P : Server → Prop) (ok : Event → Prop) (Q : Emit → Prop)
    (hstep : ∀ s e s' out, P s → ok e → step s e = some (s', out) → P s' ∧ ∀ m ∈ out, Q m)
    (s : Server) (es : List Event) (s' : Server) (out : List Emit)
    (hP : P s) (hes : ∀ e ∈ es, ok e) (h : run s es = some (s', out)) :
    P s' ∧ ∀ m ∈ out, Q m := by
  induction es generalizing s out with
  | nil =>
    simp only [run, Option.some.injEq, Prod.mk.injEq] at h
    rw [← h.1, ← h.2]
    exact ⟨hP, by simp⟩
  | cons e es ih =>
    simp only [run] at h
    split at h
    · exact absurd h (by simp)
    · rename_i s1 out1 h1
      split at h
      · exact absurd h (by simp)
      · rename_i s2 out2 h2
        simp only [Option.some.injEq, Prod.mk.injEq] at h
        rw [h.1] at h2
        obtain ⟨hP1, hQ1⟩ := hstep s e s1 out1 hP (hes e (List.mem_cons_self _ _)) h1
        obtain ⟨hP2, hQ2⟩ := ih s1 out2 hP1 (fun e' he' => hes e' (List.mem_cons_of_mem _ he')) h2
        refine ⟨hP2, ?_⟩
        intro m hm
        rw [← h.2, List.mem_append] at hm
        rcases hm with hm | hm
        · exact hQ1 m hm
        · exact hQ2 m hm

theorem lookup_of_rooms {s : Server} {roomId : RoomId} {a : Nat} {r : Room}
    (h1 : s.rooms.lookup roomId = some a) (h2 : s.heap[a]? = some r) :
    s.lookup roomId = some (a, r) := by
  simp only [Server.lookup, h1, h2]

/-- The room that a code designates after a turn was designated before it, or
has just been created. -/
theorem turn_lookup {s s' : Server} {e : Event} {out : List Emit} (h : Turn s e s' out)
    {rid : RoomId} {a : Nat} {r' : Room} (hl : s'.lookup rid = some (a, r')) :
    (∃ r, s.lookup rid = some (a, r)) ∨ r'.roundActive = false := by
  have hr' := lookup_heap hl
  have hk := lookup_rooms hl
  rcases turn_room_origin h hr' with ⟨r, hr⟩ | ⟨socket, rid', name, _, _, hfresh⟩
  · rcases turn_rooms h with h1 | ⟨socket, rid', name, h1, h2⟩
    · rw [h1] at hk
      exact Or.inl ⟨r, lookup_of_rooms hk hr⟩
    · rw [h1] at hk
      by_cases hrid : rid = rid'
      · subst hrid
        simp only [List.lookup, beq_self_eq_true, Option.some.injEq] at hk
        have hlt : a < s.heap.length := (List.getElem?_eq_some.1 hr).1
        omega
      · have hb : (rid == rid') = false := by simpa using hrid
        simp only [List.lookup, hb] at hk
        exact Or.inl ⟨r, lookup_of_rooms hk hr⟩
  · right; rw [hfresh]; rfl

theorem wellFormed_room_id {s : Server} (hw : WellFormed s) {rid : RoomId} {a : Nat} {r : Room}
    (hmem : (rid, a) ∈ s.rooms) (hr : s.heap[a]? = some r) : r.id = rid := by
  obtain ⟨r', hr', hid⟩ := hw.1 rid a hmem
  rw [hr] at hr'
  simp only [Option.some.injEq] at hr'
  rw [hr']; exact hid

/-- A round that is active after a turn was active before it, or a reveal for
the room and its code was scheduled. -/
theorem roomTurn_active {s : Server} (hw : WellFormed s) {a : Nat} {r r' : Room} {e : Event}
    {out : List Emit} (hr : s.heap[a]? = some r) (h : RoomTurn s a r e out r')
    (hact : r'.roundActive = true) :
    r.roundActive = true ∨ .reveal a r.id ∈ s.timers := by
  cases h with
  | revealed roomId songs song _ hmem =>
    right
    have hid := wellFormed_room_id hw (hw.2.1 _ hmem a rfl) hr
    simp only [Callback.roomId] at hid
    rw [hid]; exact hmem
  | same | joined | started | fetched | ended => exact Or.inl hact
  | won | wonByStranger | timedOut => simp at hact

theorem live_of_timer {s : Server} {rid : RoomId} {cb : Callback} (hmem : cb ∈ s.timers)
    (hid : cb.roomId = rid) (hne : ∀ a sg, cb ≠ .guessWindow a rid sg) : Live s rid :=
  Or.inr (Or.inr ⟨cb, hmem, hid, fun a sg h => absurd h (hne a sg)⟩)

/-- A callback scheduled by a turn has a cause under its code. -/
theorem turn_timers_live {s s' : Server} {e : Event} {out : List Emit} (h : Turn s e s' out)
    {cb : Callback} (hcb : cb ∈ s'.timers) : cb ∈ s.timers ∨ Live s cb.roomId := by
  cases h with
  | idle | created | joined | refused | started | wrong | wonByStranger => exact Or.inl hcb
  | fetched req response r hreq hr =>
    simp only [List.mem_append, List.mem_singleton] at hcb
    rcases hcb with hcb | hcb
    · exact Or.inl hcb
    · subst hcb; exact Or.inr (Or.inl ⟨req, hreq, rfl⟩)
  | won socket roomId guess a r song player hl hact =>
    simp only [List.mem_append, List.mem_singleton] at hcb
    rcases hcb with hcb | hcb
    · exact Or.inl hcb
    · subst hcb; exact Or.inr (Or.inr (Or.inl ⟨a, r, hl, hact⟩))
  | countdown cb0 roomId a r hmem hor hl hlt =>
    simp only [List.mem_append, List.mem_singleton] at hcb
    rcases hcb with hcb | hcb
    · exact Or.inl (List.mem_of_mem_erase hcb)
    · subst hcb
      right
      rcases hor with h1 | ⟨b, rb, h1, _⟩
      · exact live_of_timer hmem (by rw [h1]; rfl) (by rw [h1]; intro _ _ h; cases h)
      · exact live_of_timer hmem (by rw [h1]; rfl) (by rw [h1]; intro _ _ h; cases h)
  | exhausted cb0 roomId a r hmem hor hl hge => exact Or.inl (List.mem_of_mem_erase hcb)
  | lastWin b roomId rb a r hmem => exact Or.inl (List.mem_of_mem_erase hcb)
  | lastWinNoRoom b roomId rb hmem => exact Or.inl (List.mem_of_mem_erase hcb)
  | revealed a roomId r songs song hmem =>
    simp only [List.mem_append, List.mem_singleton] at hcb
    rcases hcb with hcb | hcb
    · exact Or.inl (List.mem_of_mem_erase hcb)
    · subst hcb
      exact Or.inr (live_of_timer hmem rfl (by intro _ _ h; cases h))
  | timedOut a roomId song r hmem hr hact =>
    simp only [List.mem_append, List.mem_singleton] at hcb
    rcases hcb with hcb | hcb
    · exact Or.inl (List.mem_of_mem_erase hcb)
    · subst hcb
      refine Or.inr (Or.inr (Or.inr ⟨_, hmem, rfl, ?_⟩))
      intro a' sg h
      simp only [Callback.roomId, Callback.guessWindow.injEq] at h
      rw [← h.1]
      exact ⟨r, hr, hact⟩
  | stale a roomId song r hmem => exact Or.inl (List.mem_of_mem_erase hcb)

/-- An event sent to a room by a turn is `player_joined`, or has a cause under
the code of the room. -/
theorem turn_emits_live {s s' : Server} {e : Event} {out : List Emit} (h : Turn s e s' out)
    {m : Emit} (hm : m ∈ out) {rid : RoomId} (ht : m.target = .room rid) :
    (∃ ps, m.payload = .player_joined ps) ∨ Live s rid := by
  cases h with
  | idle | started | wonByStranger | lastWinNoRoom | stale => simp at hm
  | created | refused | wrong =>
    simp only [List.mem_singleton] at hm
    subst hm
    simp at ht
  | joined socket roomId playerName a r hl hst =>
    simp only [List.mem_cons, List.mem_singleton, List.not_mem_nil, or_false] at hm
    rcases hm with hm | hm
    · subst hm; exact Or.inl ⟨_, rfl⟩
    · subst hm; simp at ht
  | fetched req response r hreq hr =>
    simp only [List.mem_singleton] at hm
    subst hm
    simp only [Target.room.injEq] at ht
    exact Or.inr (Or.inl ⟨req, hreq, ht⟩)
  | won socket roomId guess a r song player hl hact =>
    have ht' : roomId = rid := by
      simp only [List.mem_cons, List.mem_singleton, List.not_mem_nil, or_false] at hm
      rcases hm with hm | hm <;> subst hm <;> simpa using ht
    subst ht'
    exact Or.inr (Or.inr (Or.inl ⟨a, r, hl, hact⟩))
  | countdown cb0 roomId a r hmem hor hl hlt =>
    simp only [List.mem_singleton] at hm
    subst hm
    simp only [Target.room.injEq] at ht
    subst ht
    right
    rcases hor with h1 | ⟨b, rb, h1, _⟩
    · exact live_of_timer hmem (by rw [h1]; rfl) (by rw [h1]; intro _ _ h; cases h)
    · exact live_of_timer hmem (by rw [h1]; rfl) (by rw [h1]; intro _ _ h; cases h)
  | exhausted cb0 roomId a r hmem hor hl hge =>
    simp only [List.mem_singleton] at hm
    subst hm
    simp only [Target.room.injEq] at ht
    subst ht
    right
    rcases hor with h1 | ⟨b, rb, h1, _⟩
    · exact live_of_timer hmem (by rw [h1]; rfl) (by rw [h1]; intro _ _ h; cases h)
    · exact live_of_timer hmem (by rw [h1]; rfl) (by rw [h1]; intro _ _ h; cases h)
  | lastWin b roomId rb a r hmem =>
    simp only [List.mem_singleton] at hm
    subst hm
    simp only [Target.room.injEq] at ht
    subst ht
    exact Or.inr (live_of_timer hmem rfl (by intro _ _ h; cases h))
  | revealed a roomId r songs song hmem =>
    simp only [List.mem_singleton] at hm
    subst hm
    simp only [Target.room.injEq] at ht
    subst ht
    exact Or.inr (live_of_timer hmem rfl (by intro _ _ h; cases h))
  | timedOut a roomId song r hmem hr hact =>
    simp only [List.mem_singleton] at hm
    subst hm
    simp only [Target.room.injEq] at ht
    subst ht
    refine Or.inr (Or.inr (Or.inr ⟨_, hmem, rfl, ?_⟩))
    intro a' sg h
    simp only [Callback.guessWindow.injEq] at h
    rw [← h.1]
    exact ⟨r, hr, hact⟩

/-- Nothing starts under a code by itself: without a `start_game` for the code,
a turn from a server in which nothing is going on under the code leads to such
a server again. -/
theorem not_live_step {s s' : Server} {e : Event} {out : List Emit} {rid : RoomId}
    (hw : WellFormed s) (hnl : ¬ Live s rid) (h : step s e = some (s', out))
    (hne : ∀ rounds, e ≠ .start_game rid rounds) : ¬ Live s' rid := by
  have ht := step_turn h
  have hactive : ∀ (a : Nat) (r r' : Room), s.heap[a]? = some r → r.id = rid → s'.heap[a]? = some r' →
      r'.roundActive = true → r.roundActive = true := by
    intro a r r' hr hid hr' hact
    obtain ⟨r2, hr2, hrt⟩ := turn_room ht hr
    rw [hr'] at hr2
    simp only [Option.some.injEq] at hr2
    subst hr2
    rcases roomTurn_active hw hr hrt hact with h1 | h1
    · exact h1
    · rw [hid] at h1
      exact absurd (live_of_timer h1 rfl (by intro _ _ h; cases h)) hnl
  rintro (⟨req, hreq, hid⟩ | ⟨a, r', hl, hact⟩ | ⟨cb, hcb, hid, hgw⟩)
  · rcases turn_requests ht hreq with h1 | ⟨rounds, h1, _⟩
    · exact hnl (Or.inl ⟨req, h1, hid⟩)
    · rw [hid] at h1
      exact hne rounds h1
  · rcases turn_lookup ht hl with ⟨r, hl0⟩ | h1
    · have hact0 := hactive a r r' (lookup_heap hl0) (wellFormed_lookup_id hw hl0)
        (lookup_heap hl) hact
      exact hnl (Or.inr (Or.inl ⟨a, r, hl0, hact0⟩))
    · rw [h1] at hact
      exact absurd hact (by simp)
  · rcases turn_timers_live ht hcb with h1 | h1
    · refine hnl (Or.inr (Or.inr ⟨cb, h1, hid, ?_⟩))
      intro a sg hcb'
      obtain ⟨r', hr', hact⟩ := hgw a sg hcb'
      have hmem : (rid, a) ∈ s.rooms := by
        have := hw.2.1 cb h1 a (by rw [hcb']; rfl)
        rw [hid] at this
        exact this
      obtain ⟨r, hr, hrid⟩ := hw.1 rid a hmem
      exact ⟨r, hr, hactive a r r' hr hrid hr' hact⟩
    · rw [hid] at h1
      exact hnl h1

/-- A room that has left `LOBBY` is not written to while nothing is going on
under its code, unless by a `start_game` for the code. -/
theorem roomTurn_not_live {s : Server} (hw : WellFormed s) {a : Nat} {r r' : Room} {e : Event}
    {out : List Emit} (hnl : ¬ Live s r.id) (hr : s.heap[a]? = some r)
    (hst : r.state ≠ .LOBBY) (hne : ∀ rounds, e ≠ .start_game r.id rounds)
    (h : RoomTurn s a r e out r') : r' = r := by
  cases h with
  | same => rfl
  | joined socket roomId playerName _ hl hlobby => exact absurd hlobby hst
  | started roomId rounds _ hl hp =>
    have hid := wellFormed_lookup_id hw hl
    rw [hid] at hne
    exact absurd rfl (hne rounds)
  | fetched req response _ hmem hroom =>
    have hid := wellFormed_room_id hw (hw.2.2 req hmem) (by rw [hroom]; exact hr)
    exact absurd (Or.inl ⟨req, hmem, hid.symm⟩) hnl
  | won socket roomId guess song player _ hl hact =>
    have hid := wellFormed_lookup_id hw hl
    rw [hid] at hnl
    exact absurd (Or.inr (Or.inl ⟨a, r, hl, hact⟩)) hnl
  | wonByStranger socket roomId guess song _ hl hact =>
    have hid := wellFormed_lookup_id hw hl
    rw [hid] at hnl
    exact absurd (Or.inr (Or.inl ⟨a, r, hl, hact⟩)) hnl
  | ended cb roomId hmem hl hor =>
    have hid := wellFormed_lookup_id hw hl
    rw [hid] at hnl
    rcases hor with ⟨h1, _⟩ | ⟨b, rb, h1, _⟩
    · exact absurd (live_of_timer hmem (by rw [h1]; rfl) (by rw [h1]; intro _ _ h; cases h)) hnl
    · exact absurd (live_of_timer hmem (by rw [h1]; rfl) (by rw [h1]; intro _ _ h; cases h)) hnl
  | revealed roomId songs song _ hmem =>
    have hid := wellFormed_room_id hw (hw.2.1 _ hmem a rfl) hr
    simp only [Callback.roomId] at hid
    rw [hid] at hnl
    exact absurd (live_of_timer hmem rfl (by intro _ _ h; cases h)) hnl
  | timedOut roomId song _ hmem hact =>
    have hid := wellFormed_room_id hw (hw.2.1 _ hmem a rfl) hr
    simp only [Callback.roomId] at hid
    rw [hid] at hnl
    refine absurd (Or.inr (Or.inr ⟨_, hmem, rfl, ?_⟩)) hnl
    intro a' sg h
    simp only [Callback.guessWindow.injEq] at h
    rw [← h.1]
    exact ⟨r, hr, hact⟩

/-- C20, as the code has it: a guess that `checkAnswer` accepts, sent to a room in `PLAYING`
with an active round by a connection that is no player of the room, only sets
`roundActive` to false: the players and their scores, the scheduled callbacks
and the requests are as before and nothing is emitted.  Every guess-window
callback of the room then does nothing.  If, when the guess arrives in a
reachable server, no track request is in flight for the code of the room and
the only callbacks scheduled for the code are guess-window callbacks of this
room, then over every run of events without a `start_game` for the code the only
events sent to the room of that code are `player_joined` (no `start_countdown`,
`new_round`, `round_timeout`, `round_winner`, `update_scores` or `game_over`), and
the room object stays as the guess left it. -/
theorem stranger_guess_stalls_game (s : Server) (socket : SocketId) (roomId : RoomId)
    (guess : Option JsString) (a : Nat) (r : Room) (song : Track)
    (hroom : s.lookup roomId = some (a, r)) (hst : r.state = .PLAYING)
    (hact : r.roundActive = true) (hsong : r.currentSong = some song)
    (hok : checkAnswer guess song.title = true)
    (hstranger : ∀ p ∈ r.players, p.id ≠ socket) :
    submit_guess s socket roomId guess =
        some ({ s with heap := s.heap.set a { r with roundActive := false } }, [])
    ∧ (∀ sg, guessWindow { s with heap := s.heap.set a { r with roundActive := false } }
          a roomId sg =
        some ({ s with heap := s.heap.set a { r with roundActive := false } }, []))
    ∧ (Reachable s → (∀ req ∈ s.requests, req.roomId ≠ roomId) →
        (∀ cb ∈ s.timers, cb.roomId = roomId → ∃ sg, cb = .guessWindow a roomId sg) →
        ∀ (es : List Event) (s' : Server) (out : List Emit),
          (∀ e ∈ es, ∀ rounds, e ≠ .start_game roomId rounds) →
          run { s with heap := s.heap.set a { r with roundActive := false } } es
            = some (s', out) →
          (∀ m ∈ out, m.target = .room roomId → ∃ ps, m.payload = .player_joined ps)
          ∧ s'.heap[a]? = some { r with roundActive := false }) := by
  have hfind : r.players.find? (fun p => p.id == socket) = none := by
    rw [List.find?_eq_none]
    intro p hp
    simpa using hstranger p hp
  have hguess : submit_guess s socket roomId guess =
      some ({ s with heap := s.heap.set a { r with roundActive := false } }, []) := by
    simp [submit_guess, hroom, hst, hact, hsong, hok, hfind]
  have hlt : a < s.heap.length := (List.getElem?_eq_some.1 (lookup_heap hroom)).1
  have hheap1 : (s.heap.set a { r with roundActive := false })[a]? =
      some { r with roundActive := false } := List.getElem?_set_self hlt
  refine ⟨hguess, ?_, ?_⟩
  · intro sg
    exact guessWindow_stale _ a roomId sg _ hheap1 (by simp)
  · intro hs hreqs htimers es s' out hes hrun
    have hstep1 : step s (.submit_guess socket roomId guess) =
        some ({ s with heap := s.heap.set a { r with roundActive := false } }, []) := hguess
    have hw1 := wellFormed_step hstep1 (reachable_wellFormed hs)
    have hid : r.id = roomId := wellFormed_lookup_id (reachable_wellFormed hs) hroom
    have hnl1 : ¬ Live { s with heap := s.heap.set a { r with roundActive := false } }
        roomId := by
      rintro (⟨req, hreq, hrid⟩ | ⟨b, rb, hl, hactb⟩ | ⟨cb, hcb, hcid, hgw⟩)
      · exact hreqs req hreq hrid
      · have hl1 := lookup_setRoom { r with roundActive := false } s.members s.timers
          s.requests hroom
        rw [hl1] at hl
        simp only [Option.some.injEq, Prod.mk.injEq] at hl
        rw [← hl.2] at hactb
        simp at hactb
      · obtain ⟨sg, hsg⟩ := htimers cb hcb hcid
        obtain ⟨rb, hrb, hactb⟩ := hgw a sg hsg
        rw [hheap1] at hrb
        simp only [Option.some.injEq] at hrb
        rw [← hrb] at hactb
        simp at hactb
    have key := run_invariant_out
      (fun t => WellFormed t ∧ ¬ Live t roomId
        ∧ t.heap[a]? = some { r with roundActive := false })
      (fun e => ∀ rounds, e ≠ .start_game roomId rounds)
      (fun m => m.target = .room roomId → ∃ ps, m.payload = .player_joined ps)
      ?_ _ es s' out ⟨hw1, hnl1, hheap1⟩ hes hrun
    · exact ⟨key.2, key.1.2.2⟩
    · intro t e t' out' ⟨hw, hnl, hr⟩ hne hstep
      refine ⟨⟨wellFormed_step hstep hw, not_live_step hw hnl hstep hne, ?_⟩, ?_⟩
      · obtain ⟨r2, hr2, hrt⟩ := step_room_turn hstep hr
        have := roomTurn_not_live hw (by simpa [hid] using hnl) hr (by simp [hst])
          (by simpa [hid] using hne) hrt
        rw [hr2, this]
      · intro m hm htarget
        rcases turn_emits_live (step_turn hstep) hm htarget with h1 | h1
        · exact h1
        · exact absurd h1 hnl

/-- C20 on `demoPlaying`: a connection `s9` that is no player sends the title; the
round becomes inactive, and the guess-window callback and a later guess of
Alice send nothing and leave the room as it is. -/
theorem stranger_guess_stalls_game_witness :
    submit_guess demoPlaying "s9" "ROOM1" (some (js "hey jude")) =
        some ({ demoPlaying with heap := [{ demoRoom with roundActive := false }] }, [])
    ∧ ({ demoPlaying with heap := [{ demoRoom with roundActive := false }],
                          timers := [] } : Server).heap[0]?
        = some { demoRoom with roundActive := false } :=
  have h := stranger_guess_stalls_game demoPlaying "s9" "ROOM1" (some (js "hey jude")) 0
    demoRoom demoSong demoPlaying_lookup (by decide) (by decide) (by decide) (by decide)
    (by decide)
  ⟨h.1, (h.2.2 (reachable_serverAfter demoTrace) (by decide)
    (fun cb hcb _ => ⟨demoSong, by
      have ht : demoPlaying.timers = [.guessWindow 0 "ROOM1" demoSong] := by decide
      rw [ht] at hcb
      simpa using hcb⟩)
    [.timer (.guessWindow 0 "ROOM1" demoSong), .submit_guess "s1" "ROOM1" (some (js "hey jude"))]
    { demoPlaying with heap := [{ demoRoom with roundActive := false }], timers := [] } []
    (fun e he rounds h => by subst h; simp at he) (by decide)).2⟩

/-- C20 as stated fails: after two `start_game` messages in a row the reveal
of the second round chain is scheduled while round 1 is active; a connection
`s9` that is no player sends the title, the guess-window callback of round 1
then does nothing, and the scheduled reveal starts round 2 although no
`start_game` has occurred since the guess. -/
theorem round_follows_stranger_guess :
    (run Server.init (raceTrace.take 8)).isSome = true
    ∧ (roomOf (serverAfter (raceTrace.take 8)) "ROOM1").map
        (fun r => (r.players, r.state, r.roundActive, r.currentSong)) =
      some ([⟨"s1", "Alice", 0⟩], .PLAYING, true, some raceSong)
    ∧ checkAnswer (some (js "hey jude")) raceSong.title = true
    ∧ (run (serverAfter (raceTrace.take 8))
        [.submit_guess "s9" "ROOM1" (some (js "hey jude")),
         .timer (.guessWindow 0 "ROOM1" raceSong), .timer (.reveal 0 "ROOM1")]).map Prod.snd =
      some [⟨.room "ROOM1", .new_round 2 "preview/2"⟩] := by
  refine ⟨by decide, by decide, by decide, by decide⟩

end PartySong
